import Mathlib

/-!
The AT hard-disk driver `kernel/blk_drv/hd.c`

A shallow embedding of the driver's request dispatcher, controller command
protocol and interrupt completion handlers, followed by theorems about them.

Conventions of the embedding:

* `unsigned int`, `unsigned long` and pointers are natural numbers reduced
  modulo `2^32`; `int` and `long` are integers, converted with `u32` where the
  C code converts them to an unsigned type, and wrapped with `i32` where the
  code increments them.
* The hardware is an oracle `hw : Nat → Nat`: the `t`-th port read performed
  by the driver returns the byte `hw t % 256`.  The state carries the number
  of reads done so far (`clock`).
* Every port access and every request completion is appended, in program
  order, to `State.trace`.
* `panic`, a divide error of `divl` and a dereference of a null `CURRENT`
  stop the execution: `Res.stop` carries the state reached at that point.
* `do_hd_request` loops through `goto repeat`; the loop is unrolled along a
  fuel argument, and `Stop.fuel` reports that the fuel ran out.
-/

namespace HD

/-! ## Machine integers -/

/-- The modulus of 32-bit unsigned arithmetic. -/
def U32 : Nat := 4294967296

/-- Conversion of an `int`/`long` value to `unsigned int` (two's complement). -/
def u32 (x : Int) : Nat := (x % 4294967296).toNat

/-- Wrap-around of a signed 32-bit result. -/
def i32 (x : Int) : Int := (x + 2147483648) % 4294967296 - 2147483648

/-! ## Constants -/

/-- Max read/write errors/sector. -/
def MAX_ERRORS : Int := 7

/-- Largest number of drives supported. -/
def MAX_HD : Nat := 2

/-- Modelled from the spec: the register and bit names of `linux/hdreg.h`, which
is not part of the sources at hand.  The data port; the seven registers after it
are the command block. -/
def HD_DATA : Nat := 0x1f0
/-- Modelled from the spec: error register (`linux/hdreg.h`). -/
def HD_ERROR : Nat := 0x1f1
/-- Modelled from the spec: status register (`linux/hdreg.h`). -/
def HD_STATUS : Nat := 0x1f7
/-- Modelled from the spec: command register, the seventh port after the data
port (`linux/hdreg.h`). -/
def HD_COMMAND : Nat := 0x1f7
/-- Modelled from the spec: control register (`linux/hdreg.h`). -/
def HD_CMD : Nat := 0x3f6

/-- Modelled from the spec: status bit "error" (`linux/hdreg.h`); `win_result`
tests it as `i&1`. -/
def ERR_STAT : Nat := 0x01
/-- Modelled from the spec: status bit "index" (`linux/hdreg.h`). -/
def INDEX_STAT : Nat := 0x02
/-- Modelled from the spec: status bit "ECC corrected" (`linux/hdreg.h`). -/
def ECC_STAT : Nat := 0x04
/-- Modelled from the spec: status bit "data request" (`linux/hdreg.h`). -/
def DRQ_STAT : Nat := 0x08
/-- Modelled from the spec: status bit "seek complete" (`linux/hdreg.h`). -/
def SEEK_STAT : Nat := 0x10
/-- Modelled from the spec: status bit "write fault" (`linux/hdreg.h`). -/
def WRERR_STAT : Nat := 0x20
/-- Modelled from the spec: status bit "ready" (`linux/hdreg.h`); with
`BUSY_STAT` it is the mask `0xc0` of `controller_ready`. -/
def READY_STAT : Nat := 0x40
/-- Modelled from the spec: status bit "busy" (`linux/hdreg.h`). -/
def BUSY_STAT : Nat := 0x80

/-- Modelled from the spec: opcode "restore/recalibrate" (`linux/hdreg.h`). -/
def WIN_RESTORE : Nat := 0x10
/-- Modelled from the spec: opcode "read" (`linux/hdreg.h`). -/
def WIN_READ : Nat := 0x20
/-- Modelled from the spec: opcode "write" (`linux/hdreg.h`). -/
def WIN_WRITE : Nat := 0x30
/-- Modelled from the spec: opcode "specify drive parameters" (`linux/hdreg.h`). -/
def WIN_SPECIFY : Nat := 0x91

/-- Modelled from the spec: operation kind READ of a request (`linux/fs.h`). -/
def READ : Nat := 0
/-- Modelled from the spec: operation kind WRITE of a request (`linux/fs.h`). -/
def WRITE : Nat := 1

/-! ## Data model -/

/-- Drive parameters: `struct hd_i_struct { int head,sect,cyl,wpcom,lzone,ctl; }`. -/
structure hd_i_struct where
  head : Int
  sect : Int
  cyl : Int
  wpcom : Int
  lzone : Int
  ctl : Int
  deriving DecidableEq

/-- Partition extent: `struct hd_struct { long start_sect; long nr_sects; }`. -/
structure hd_struct where
  start_sect : Int
  nr_sects : Int
  deriving DecidableEq

/-- Modelled from the spec: the pending request of `blk.h` (`struct request`),
with the fields the driver touches: device number, operation kind, error
counter, start sector, remaining sector count, buffer address. -/
structure request where
  dev : Nat
  cmd : Nat
  errors : Int
  sector : Nat
  nr_sectors : Nat
  buffer : Nat
  deriving DecidableEq

/-- The functions that `hd_out` is given as completion handler. -/
inductive Handler where
  | read_intr
  | write_intr
  | recal_intr
  deriving DecidableEq

/-- Messages of `printk`. -/
inductive Msg where
  | times_out
  | still_busy
  | reset_failed (i : Nat)
  | unexpected_interrupt
  deriving DecidableEq

/-- Messages of `panic`. -/
inductive Panic where
  | bad_sector
  | not_ready
  | unknown_command
  deriving DecidableEq

/-- Why an execution stopped without returning. -/
inductive Stop where
  | panic (p : Panic)
  | divide_error
  | null_pointer
  | fuel
  deriving DecidableEq

/-- What the driver does to the outside, in program order. -/
inductive Event where
  | inb (port value : Nat)
  | outb (value port : Nat)
  | port_read (port buf nr : Nat)
  | port_write (port buf nr : Nat)
  | printk (m : Msg)
  | end_request (uptodate : Nat) (req : request)
  deriving DecidableEq

/-- The driver's variables (`recalibrate`, `reset`, `NR_HD`, `hd_info`, `hd`,
`do_hd`), the request queue whose head is `CURRENT`, the number of port reads
done, the trace, and a history variable counting the entries into
`bad_rw_intr` (nothing reads it). -/
structure State where
  recalibrate : Bool
  reset : Bool
  NR_HD : Nat
  hd_info : Nat → hd_i_struct
  hd : Nat → hd_struct
  queue : List request
  do_hd : Option Handler
  clock : Nat
  trace : List Event
  bad_rw_calls : Nat

/-- Outcome of a `void` function: it returned, or the execution stopped. -/
inductive Res where
  | ret (s : State)
  | stop (w : Stop) (s : State)

/-- The state in which an outcome leaves the machine. -/
def Res.state : Res → State
  | Res.ret s => s
  | Res.stop _ s => s

/-- Sequencing: continue only after a normal return. -/
def Res.bind (r : Res) (k : State → Res) : Res :=
  match r with
  | Res.ret s => k s
  | Res.stop w s => Res.stop w s

/-! ## Port access -/

/-- Port read `inb`/`inb_p`: the next byte of the oracle. -/
def inb (hw : Nat → Nat) (port : Nat) (s : State) : Nat × State :=
  (hw s.clock % 256,
   { s with clock := s.clock + 1, trace := s.trace ++ [Event.inb port (hw s.clock % 256)] })

/-- Port write `outb`/`outb_p`: the low byte of the value goes to the port. -/
def outb (value port : Nat) (s : State) : State :=
  { s with trace := s.trace ++ [Event.outb (value % 256) port] }

/-- Macro `port_read(port,buf,nr)`: `nr` words from the port to `buf`. -/
def port_read (port buf nr : Nat) (s : State) : State :=
  { s with trace := s.trace ++ [Event.port_read port buf nr] }

/-- Macro `port_write(port,buf,nr)`: `nr` words from `buf` to the port. -/
def port_write (port buf nr : Nat) (s : State) : State :=
  { s with trace := s.trace ++ [Event.port_write port buf nr] }

/-- Kernel message. -/
def printk (m : Msg) (s : State) : State :=
  { s with trace := s.trace ++ [Event.printk m] }

/-! ## External collaborators -/

/-- Modelled from the spec: macro `MINOR` of `linux/fs.h`, the minor number (low
byte) of a device number. -/
def MINOR (dev : Nat) : Nat := dev % 256

/-- Modelled from the spec: macro `CURRENT_DEV` of `blk.h`, the drive index
`minor / 5` of the current request. -/
def CURRENT_DEV (r : request) : Nat := MINOR r.dev / 5

/-- Modelled from the spec: `end_request` of `blk.h`, which is not part of the
sources at hand.  It signals the completion of the current request
(`uptodate = 1`: succeeded, buffer marked valid; `0`: not completed) and
advances the queue. -/
def end_request (uptodate : Nat) (s : State) : State :=
  match s.queue with
  | [] => s
  | r :: rest => { s with queue := rest, trace := s.trace ++ [Event.end_request uptodate r] }

/-! ## Controller command protocol -/

/-- The loop `while (--retries && (inb_p(HD_STATUS)&0xc0)!=0x40);` of
`controller_ready`; the first argument is `retries` before the decrement, the
result is `retries` after the loop. -/
def controller_ready_loop (hw : Nat → Nat) : Nat → State → Nat × State
  | 0, s => (0, s)
  | retries + 1, s =>
    if retries = 0 then (0, s)
    else
      let p := inb hw HD_STATUS s
      if p.1 &&& 0xc0 ≠ 0x40 then controller_ready_loop hw retries p.2
      else (retries, p.2)

/-- Source `controller_ready`: bounded wait for ready-and-not-busy. -/
def controller_ready (hw : Nat → Nat) (s : State) : Nat × State :=
  controller_ready_loop hw 10000 s

/-- Source `win_result`: 0 when the command went well, 1 otherwise. -/
def win_result (hw : Nat → Nat) (s : State) : Nat × State :=
  let p := inb hw HD_STATUS s
  if p.1 &&& (BUSY_STAT ||| READY_STAT ||| WRERR_STAT ||| SEEK_STAT ||| ERR_STAT)
      = (READY_STAT ||| SEEK_STAT) then (0, p.2)
  else if p.1 &&& 1 ≠ 0 then (1, (inb hw HD_ERROR p.2).2)
  else (1, p.2)

/-- Source `hd_out`: send a command block to the controller. -/
def hd_out (hw : Nat → Nat) (drive nsect sect head cyl cmd : Nat) (intr_addr : Handler)
    (s : State) : Res :=
  if drive > 1 ∨ head > 15 then Res.stop (Stop.panic Panic.bad_sector) s
  else
    let p := controller_ready hw s
    if p.1 = 0 then Res.stop (Stop.panic Panic.not_ready) p.2
    else
      let s1 := { p.2 with do_hd := some intr_addr }
      let s2 := outb (u32 (s1.hd_info drive).ctl) HD_CMD s1
      let s3 := outb (u32 ((s2.hd_info drive).wpcom >>> 2)) (HD_DATA + 1) s2
      let s4 := outb nsect (HD_DATA + 2) s3
      let s5 := outb sect (HD_DATA + 3) s4
      let s6 := outb cyl (HD_DATA + 4) s5
      let s7 := outb (cyl >>> 8) (HD_DATA + 5) s6
      let s8 := outb (0xA0 ||| (drive <<< 4) ||| head) (HD_DATA + 6) s7
      Res.ret (outb cmd (HD_DATA + 7) s8)

/-- The loop of `drive_busy`: at most the given number of status reads, until
ready-and-not-busy shows. -/
def drive_busy_loop (hw : Nat → Nat) : Nat → State → State
  | 0, s => s
  | k + 1, s =>
    let p := inb hw HD_STATUS s
    if READY_STAT = p.1 &&& (BUSY_STAT ||| READY_STAT) then p.2
    else drive_busy_loop hw k p.2

/-- Source `drive_busy`: 0 when the drive settled, 1 (with a message) when not. -/
def drive_busy (hw : Nat → Nat) (s : State) : Nat × State :=
  let s1 := drive_busy_loop hw 10000 s
  let p := inb hw HD_STATUS s1
  if p.1 &&& (BUSY_STAT ||| READY_STAT ||| SEEK_STAT) = (READY_STAT ||| SEEK_STAT) then (0, p.2)
  else (1, printk Msg.times_out p.2)

/-- Source `reset_controller`. -/
def reset_controller (hw : Nat → Nat) (s : State) : State :=
  let s1 := outb 4 HD_CMD s
  let s2 := outb (u32 (s1.hd_info 0).ctl &&& 0x0f) HD_CMD s1
  let p := drive_busy hw s2
  let s3 := if p.1 ≠ 0 then printk Msg.still_busy p.2 else p.2
  let q := inb hw HD_ERROR s3
  if q.1 ≠ 1 then printk (Msg.reset_failed q.1) q.2 else q.2

/-- Source `reset_hd`. -/
def reset_hd (hw : Nat → Nat) (nr : Nat) (s : State) : Res :=
  let s1 := reset_controller hw s
  hd_out hw nr (u32 (s1.hd_info nr).sect) (u32 (s1.hd_info nr).sect)
    (u32 ((s1.hd_info nr).head - 1)) (u32 (s1.hd_info nr).cyl) WIN_SPECIFY Handler.recal_intr s1

/-- Source `unexpected_hd_interrupt`. -/
def unexpected_hd_interrupt (s : State) : State :=
  printk Msg.unexpected_interrupt s

/-! ## Error handling -/

/-- Source `bad_rw_intr`.  The second test reads `CURRENT` again, after
`end_request` may have advanced the queue. -/
def bad_rw_intr (s : State) : Res :=
  let s0 := { s with bad_rw_calls := s.bad_rw_calls + 1 }
  match s0.queue with
  | [] => Res.stop Stop.null_pointer s0
  | r :: rest =>
    let r1 := { r with errors := i32 (r.errors + 1) }
    let s1 := { s0 with queue := r1 :: rest }
    let s2 := if r1.errors ≥ MAX_ERRORS then end_request 0 s1 else s1
    match s2.queue with
    | [] => Res.stop Stop.null_pointer s2
    | c :: _ =>
      if c.errors > MAX_ERRORS / 2 then Res.ret { s2 with reset := true }
      else Res.ret s2

/-! ## Request dispatcher -/

/-- Instruction `divl` with a zero high half of the dividend: quotient and
remainder, or a divide error. -/
def divl (dividend divisor : Nat) : Option (Nat × Nat) :=
  if divisor = 0 then none else some (dividend / divisor, dividend % divisor)

/-- The two `divl` of `do_hd_request` and `sec++`: cylinder, head and 1-based
sector of an absolute sector. -/
def translate (info : hd_i_struct) (block : Nat) : Option (Nat × Nat × Nat) :=
  match divl block (u32 info.sect) with
  | none => none
  | some (block1, sec) =>
    match divl block1 (u32 info.head) with
    | none => none
    | some (cyl, head) => some (cyl, head, (sec + 1) % U32)

/-- The loop `for(i=0 ; i<3000 && !(r=inb_p(HD_STATUS)&DRQ_STAT) ; i++)` of
`do_hd_request`; the first argument is the number of iterations left, the
result is `r`. -/
def drq_poll (hw : Nat → Nat) : Nat → State → Nat × State
  | 0, s => (0, s)
  | k + 1, s =>
    let p := inb hw HD_STATUS s
    if p.1 &&& DRQ_STAT = 0 then drq_poll hw k p.2
    else (p.1 &&& DRQ_STAT, p.2)

/-- The test of `do_hd_request` that ends a request at once:
`dev >= 5*NR_HD || block+2 > hd[dev].nr_sects`, an unsigned comparison. -/
def rejected (s : State) (r : request) : Prop :=
  MINOR r.dev ≥ 5 * s.NR_HD ∨ (r.sector + 2) % U32 > u32 (s.hd (MINOR r.dev)).nr_sects

instance (s : State) (r : request) : Decidable (rejected s r) := by
  unfold rejected; infer_instance

/-- Source `do_hd_request`.  `INIT_REQUEST` is modelled from the spec: with an
empty queue the dispatcher is a no-op. -/
def do_hd_request (hw : Nat → Nat) : Nat → State → Res
  | 0, s => Res.stop Stop.fuel s
  | fuel + 1, s =>
    match s.queue with
    | [] => Res.ret s
    | r :: _ =>
      if rejected s r then do_hd_request hw fuel (end_request 0 s)
      else
        let block := (r.sector + u32 (s.hd (MINOR r.dev)).start_sect) % U32
        let dev := MINOR r.dev / 5
        match translate (s.hd_info dev) block with
        | none => Res.stop Stop.divide_error s
        | some (cyl, head, sec) =>
          let nsect := r.nr_sectors
          if s.reset then
            reset_hd hw (CURRENT_DEV r) { s with reset := false, recalibrate := true }
          else if s.recalibrate then
            hd_out hw dev (u32 (s.hd_info (CURRENT_DEV r)).sect) 0 0 0 WIN_RESTORE
              Handler.recal_intr { s with recalibrate := false }
          else if r.cmd = WRITE then
            match hd_out hw dev nsect sec head cyl WIN_WRITE Handler.write_intr s with
            | Res.stop w s1 => Res.stop w s1
            | Res.ret s1 =>
              let p := drq_poll hw 3000 s1
              if p.1 = 0 then
                match bad_rw_intr p.2 with
                | Res.stop w s2 => Res.stop w s2
                | Res.ret s2 => do_hd_request hw fuel s2
              else Res.ret (port_write HD_DATA r.buffer 256 p.2)
          else if r.cmd = READ then
            hd_out hw dev nsect sec head cyl WIN_READ Handler.read_intr s
          else Res.stop (Stop.panic Panic.unknown_command) s

/-! ## Interrupt completion handlers -/

/-- Source `read_intr`. -/
def read_intr (hw : Nat → Nat) (fuel : Nat) (s : State) : Res :=
  let p := win_result hw s
  if p.1 ≠ 0 then (bad_rw_intr p.2).bind (do_hd_request hw fuel)
  else
    match p.2.queue with
    | [] => Res.stop Stop.null_pointer p.2
    | r :: rest =>
      let s1 := port_read HD_DATA r.buffer 256 p.2
      let r1 := { r with errors := 0, buffer := (r.buffer + 512) % U32,
                         sector := (r.sector + 1) % U32,
                         nr_sectors := (r.nr_sectors + (U32 - 1)) % U32 }
      let s2 := { s1 with queue := r1 :: rest }
      if r1.nr_sectors ≠ 0 then Res.ret { s2 with do_hd := some Handler.read_intr }
      else do_hd_request hw fuel (end_request 1 s2)

/-- Source `write_intr`. -/
def write_intr (hw : Nat → Nat) (fuel : Nat) (s : State) : Res :=
  let p := win_result hw s
  if p.1 ≠ 0 then (bad_rw_intr p.2).bind (do_hd_request hw fuel)
  else
    match p.2.queue with
    | [] => Res.stop Stop.null_pointer p.2
    | r :: rest =>
      let r1 := { r with nr_sectors := (r.nr_sectors + (U32 - 1)) % U32 }
      if r1.nr_sectors ≠ 0 then
        let r2 := { r1 with sector := (r1.sector + 1) % U32, buffer := (r1.buffer + 512) % U32 }
        let s1 := { p.2 with queue := r2 :: rest, do_hd := some Handler.write_intr }
        Res.ret (port_write HD_DATA r2.buffer 256 s1)
      else do_hd_request hw fuel (end_request 1 { p.2 with queue := r1 :: rest })

/-- Source `recal_intr`. -/
def recal_intr (hw : Nat → Nat) (fuel : Nat) (s : State) : Res :=
  let p := win_result hw s
  if p.1 ≠ 0 then (bad_rw_intr p.2).bind (do_hd_request hw fuel)
  else do_hd_request hw fuel p.2

/-- The function a handler value stands for. -/
def Handler.run (h : Handler) (hw : Nat → Nat) (fuel : Nat) (s : State) : Res :=
  match h with
  | Handler.read_intr => HD.read_intr hw fuel s
  | Handler.write_intr => HD.write_intr hw fuel s
  | Handler.recal_intr => HD.recal_intr hw fuel s

/-- Modelled from the spec: the interrupt entry `hd_interrupt` (assembly, not
part of the sources at hand).  It clears the registered completion handler and
invokes it, or the unexpected-interrupt handler when none is registered. -/
def hd_interrupt (hw : Nat → Nat) (fuel : Nat) (s : State) : Res :=
  match s.do_hd with
  | none => Res.ret (unexpected_hd_interrupt s)
  | some h => h.run hw fuel { s with do_hd := none }

/-- A number of interrupts in a row, each entering through `hd_interrupt`;
a stop ends the run. -/
def interrupts (hw : Nat → Nat) (fuel : Nat) : Nat → State → Res
  | 0, s => Res.ret s
  | n + 1, s => (interrupts hw fuel n s).bind (hd_interrupt hw fuel)

/-! ## Observations on a trace -/

/-- The events appended to the trace between two states of one execution. -/
def events_since (s s' : State) : List Event := s'.trace.drop s.trace.length

/-- The status test of `win_result`: ready and seek complete, neither busy nor
write fault nor error. -/
def status_good (st : Nat) : Prop :=
  st &&& (BUSY_STAT ||| READY_STAT ||| WRERR_STAT ||| SEEK_STAT ||| ERR_STAT)
    = (READY_STAT ||| SEEK_STAT)

instance (st : Nat) : Decidable (status_good st) := by
  unfold status_good; infer_instance

/-- The state `hd_out` leaves once the controller is ready: the handler is
recorded, then the control byte, the six parameters and the opcode are written. -/
def command_block (drive nsect sect head cyl cmd : Nat) (intr_addr : Handler) (s : State) :
    State :=
  { s with
    do_hd := some intr_addr,
    trace := s.trace ++
      [Event.outb (u32 (s.hd_info drive).ctl % 256) HD_CMD,
       Event.outb (u32 ((s.hd_info drive).wpcom >>> 2) % 256) (HD_DATA + 1),
       Event.outb (nsect % 256) (HD_DATA + 2),
       Event.outb (sect % 256) (HD_DATA + 3),
       Event.outb (cyl % 256) (HD_DATA + 4),
       Event.outb ((cyl >>> 8) % 256) (HD_DATA + 5),
       Event.outb ((0xA0 ||| (drive <<< 4) ||| head) % 256) (HD_DATA + 6),
       Event.outb (cmd % 256) (HD_DATA + 7)] }

/-- A controller that answers the successive port reads with the bytes of a
list, and with 0x58 (ready, seek complete, data request) after its end. -/
def hw_of (l : List Nat) : Nat → Nat := fun t => l.getD t 0x58


/-- The opcodes written to the command register, in order. -/
def commands : List Event → List Nat
  | [] => []
  | Event.outb v port :: es => if port = HD_COMMAND then v :: commands es else commands es
  | _ :: es => commands es

/-- The buffer addresses of the sector pushes (256 words to the data port). -/
def pushes : List Event → List Nat
  | [] => []
  | Event.port_write port buf nr :: es =>
    if port = HD_DATA ∧ nr = 256 then buf :: pushes es else pushes es
  | _ :: es => pushes es

/-- The request completions, in order: the `uptodate` argument and the request. -/
def completions : List Event → List (Nat × request)
  | [] => []
  | Event.end_request u r :: es => (u, r) :: completions es
  | _ :: es => completions es


/-- Events that are neither a command, nor a sector push, nor a completion. -/
def quiet (evs : List Event) : Prop :=
  commands evs = [] ∧ pushes evs = [] ∧ completions evs = []

/-- The second state comes from the first by port reads, control-port writes
and messages only: nothing but the clock and the trace differ, and the events
added are quiet. -/
def Polls (s s' : State) : Prop :=
  ∃ evs, quiet evs ∧ s' = { s with clock := s'.clock, trace := s.trace ++ evs }

/-- The absolute sector of a request: `block += hd[dev].start_sect`. -/
def abs_sector (s : State) (r : request) : Nat :=
  (r.sector + u32 (s.hd (MINOR r.dev)).start_sect) % U32

/-- The second state comes from the first by a call of `hd_out` for the given
opcode, possibly after polling: at most that one opcode reaches the command
register, nothing is pushed or completed, and only the clock, the registered
handler and the trace differ. -/
def Issued (cmd : Nat) (s s' : State) : Prop :=
  ∃ evs, (commands evs = [] ∨ commands evs = [cmd % 256]) ∧ pushes evs = [] ∧
    completions evs = [] ∧
    s' = { s with clock := s'.clock, do_hd := s'.do_hd, trace := s.trace ++ evs }

/-- What one invocation of the dispatcher preserves: the registry, the growth of
trace and call counter, a queue that does not grow, at most one command beyond
one per call of `bad_rw_intr`, and, while the head request stays, an error
counter that moved by the number of those calls. -/
def Dispatched (s s' : State) : Prop :=
  s'.NR_HD = s.NR_HD ∧ s'.hd_info = s.hd_info ∧ s'.hd = s.hd ∧
  s.bad_rw_calls ≤ s'.bad_rw_calls ∧
  s'.queue.length ≤ s.queue.length ∧
  (∃ evs, s'.trace = s.trace ++ evs ∧
    (commands evs).length ≤ 1 + (s'.bad_rw_calls - s.bad_rw_calls)) ∧
  (s'.queue.length = s.queue.length → ∀ r rest, s.queue = r :: rest →
    -2147483648 ≤ r.errors → r.errors < 2147483647 →
    s'.queue = { r with errors := r.errors + ((s'.bad_rw_calls : Int) - s.bad_rw_calls) } :: rest)

/-- The second state comes from the first by one call of `bad_rw_intr`. -/
def Bumped (s s' : State) : Prop :=
  s'.NR_HD = s.NR_HD ∧ s'.hd_info = s.hd_info ∧ s'.hd = s.hd ∧
  s'.recalibrate = s.recalibrate ∧ s'.do_hd = s.do_hd ∧ s'.clock = s.clock ∧
  s'.bad_rw_calls = s.bad_rw_calls + 1 ∧
  s'.queue.length ≤ s.queue.length ∧
  (∃ evs, s'.trace = s.trace ++ evs ∧ commands evs = [] ∧ pushes evs = []) ∧
  (s'.queue.length = s.queue.length → ∀ r rest, s.queue = r :: rest →
    i32 (r.errors + 1) < MAX_ERRORS ∧
    s'.queue = { r with errors := i32 (r.errors + 1) } :: rest ∧
    s'.trace = s.trace ∧
    s'.reset = (s.reset || decide (MAX_ERRORS / 2 < i32 (r.errors + 1))))

/-- The steps of the driver that touch the current request. -/
inductive Step where
  | do_hd_request
  | read_intr
  | write_intr
  | recal_intr
  | bad_rw_intr
  deriving DecidableEq

/-- The function a step stands for. -/
def Step.run (hw : Nat → Nat) (fuel : Nat) : Step → State → Res
  | Step.do_hd_request => HD.do_hd_request hw fuel
  | Step.read_intr => HD.read_intr hw fuel
  | Step.write_intr => HD.write_intr hw fuel
  | Step.recal_intr => HD.recal_intr hw fuel
  | Step.bad_rw_intr => HD.bad_rw_intr

/-- The WRITE request of two sectors used in scenario C. -/
def request_C_write : request := ⟨0x300, WRITE, 0, 0, 2, 0x10000⟩

/-- The READ request of two sectors used in scenario C. -/
def request_C_read : request := ⟨0x300, READ, 0, 0, 2, 0x10000⟩

/-- The controller of scenario C for a WRITE: each attempt finds the
controller ready (0x58) and the data request up (0x58); the first two
completions read status 0x59 (error) and then the error register (0x04), the
third reads 0x58. -/
def hw_C_write : Nat → Nat :=
  hw_of [0x58, 0x58, 0x59, 0x04, 0x58, 0x58, 0x59, 0x04, 0x58, 0x58, 0x58]

/-- The controller of scenario C for a READ: each attempt finds the controller
ready (0x58); the first two completions read status 0x59 (error) and then the
error register (0x04), the third reads 0x58. -/
def hw_C_read : Nat → Nat :=
  hw_of [0x58, 0x59, 0x04, 0x58, 0x59, 0x04, 0x58, 0x58]

/-- The second state comes from the first by a pass that sent exactly the given
opcode and made no call of `bad_rw_intr`: queue, registry and call counter are
those of the first state. -/
def Sent (cmd : Nat) (s s' : State) : Prop :=
  s'.queue = s.queue ∧ s'.NR_HD = s.NR_HD ∧ s'.hd_info = s.hd_info ∧ s'.hd = s.hd ∧
  s'.bad_rw_calls = s.bad_rw_calls ∧
  ∃ evs, s'.trace = s.trace ++ evs ∧ commands evs = [cmd] ∧ completions evs = []

/-- The WRITE request of three sectors of scenario B. -/
def request_B : request := ⟨0x300, WRITE, 0, 0, 3, 0x10000⟩

/-- The status checks of the dispatcher pass that starts in state `x` with
current request `r` return OK: `controller_ready` finds the controller ready
where the pass calls `hd_out` (after `reset_controller` when the reset flag is
set), and, for the pass that sends WIN_WRITE, one of the 3000 status reads that
follow the command block shows the data request (the command block reads no
port, so these reads start at the clock that `controller_ready` left).  What
`drive_busy` and the error register show after a reset is only reported, so it
is left free. -/
def pass_ok (hw : Nat → Nat) (x : State) (r : request) : Prop :=
  if x.reset then
    (controller_ready hw
      (reset_controller hw { x with reset := false, recalibrate := true })).1 ≠ 0
  else if x.recalibrate then
    (controller_ready hw { x with recalibrate := false }).1 ≠ 0
  else
    (controller_ready hw x).1 ≠ 0 ∧
    (r.cmd = WRITE →
      ∃ i, i < 3000 ∧ hw ((controller_ready hw x).2.clock + i) % 256 &&& DRQ_STAT ≠ 0)

instance (hw : Nat → Nat) (x : State) (r : request) : Decidable (pass_ok hw x r) := by
  unfold pass_ok; infer_instance

/-- The sector pulls, in order: port, buffer address and word count of each
`port_read`. -/
def pulls : List Event → List (Nat × Nat × Nat)
  | [] => []
  | Event.port_read port buf nr :: es => (port, buf, nr) :: pulls es
  | _ :: es => pulls es

/-- The byte writes to ports, in order: value and port of each `outb`. -/
def port_writes : List Event → List (Nat × Nat)
  | [] => []
  | Event.outb v port :: es => (v, port) :: port_writes es
  | _ :: es => port_writes es

/-- Events that are all port reads (`inb`). -/
def reads_only (evs : List Event) : Prop :=
  ∀ e ∈ evs, ∃ port v, e = Event.inb port v

/-- The READ request of scenario A: minor 0, start sector 0, one sector. -/
def request_A : request := ⟨0x300, READ, 0, 0, 1, 0x10000⟩

/-- The values read from one port, in order. -/
def reads_of (port : Nat) : List Event → List Nat
  | [] => []
  | Event.inb p v :: es => if p = port then v :: reads_of port es else reads_of port es
  | _ :: es => reads_of port es

/-- A controller whose status register always reads busy (0x80). -/
def hw_busy : Nat → Nat := fun _ => 0x80

/-- What the bootstrap reports on the console and hands to its collaborators,
in program order: the two messages that precede `panic("")`, the message
`Partition table%s ok.` (with or without the plural), and the calls of
`rd_load` and `mount_root`. -/
inductive BootEvent where
  | unreadable (drive : Nat)
  | bad_table (drive : Nat)
  | tables_ok (several : Bool)
  | rd_load
  | mount_root
  deriving DecidableEq

/-- The machine at bootstrap: the driver's variables together with the
`static int callable` of `sys_setup` and the log of the bootstrap. -/
structure Boot where
  callable : Bool
  st : State
  log : List BootEvent

/-- Outcome of `sys_setup`: it returned a value, or `panic("")` halted the
system. -/
inductive BootRes where
  | ret (v : Int) (b : Boot)
  | halt (b : Boot)

/-- The machine in which an outcome of `sys_setup` leaves the bootstrap. -/
def BootRes.boot : BootRes → Boot
  | BootRes.ret _ b => b
  | BootRes.halt b => b

/-- Unsigned byte at an address of a byte source. -/
def byte_at (m : Nat → Nat) (a : Nat) : Nat := m a % 256

/-- Little-endian `unsigned short` at an address. -/
def word_at (m : Nat → Nat) (a : Nat) : Nat := byte_at m a + 256 * byte_at m (a + 1)

/-- Little-endian `unsigned int` at an address. -/
def long_at (m : Nat → Nat) (a : Nat) : Nat := word_at m a + 65536 * word_at m (a + 2)

/-- The body of the first loop of `sys_setup`: the six fields of `hd_info[drive]`
as read from the 16-byte BIOS record of the drive. -/
def bios_info (bios : Nat → Nat) (drive : Nat) : hd_i_struct :=
  { cyl := word_at bios (16 * drive),
    head := byte_at bios (16 * drive + 2),
    wpcom := word_at bios (16 * drive + 5),
    ctl := byte_at bios (16 * drive + 8),
    lzone := word_at bios (16 * drive + 12),
    sect := byte_at bios (16 * drive + 14) }

/-- Assignment to one element of `hd`. -/
def set_slot (k : Nat) (v : hd_struct) (hd : Nat → hd_struct) : Nat → hd_struct :=
  fun j => if j = k then v else hd j

/-- The loop `for (i=0 ; i<NR_HD ; i++)` of `sys_setup` that fills the
whole-disk slots; the product is an `int` product. -/
def whole_disks (info : Nat → hd_i_struct) : Nat → (Nat → hd_struct) → Nat → hd_struct
  | 0, hd => hd
  | n + 1, hd =>
    set_slot (n * 5) ⟨0, i32 ((info n).head * (info n).sect * (info n).cyl)⟩
      (whole_disks info n hd)

/-- The loop `for (i = NR_HD ; i < 2 ; i++)` of `sys_setup`; the first argument
is the number of iterations left. -/
def clear_absent : Nat → Nat → (Nat → hd_struct) → Nat → hd_struct
  | 0, _, hd => hd
  | n + 1, i, hd => clear_absent n (i + 1) (set_slot (i * 5) ⟨0, 0⟩ hd)

/-- Modelled from the spec: `struct partition` of `linux/hdreg.h`, which is not
part of the sources at hand: entry `i` (1 to 4) of the table at `0x1BE` is 16
bytes long and holds the 32-bit start sector at offset 8 and the 32-bit sector
count at offset 12.  The result is the pair as stored into the `long` fields of
`hd`. -/
def partition_entry (data : Nat → Nat) (i : Nat) : hd_struct :=
  ⟨i32 (long_at data (0x1BE + 16 * (i - 1) + 8)), i32 (long_at data (0x1BE + 16 * (i - 1) + 12))⟩

/-- The loop `for (i=1;i<5;i++,p++)` of `sys_setup`. -/
def copy_table (data : Nat → Nat) (drive : Nat) (hd : Nat → hd_struct) : Nat → hd_struct :=
  set_slot (4 + 5 * drive) (partition_entry data 4)
    (set_slot (3 + 5 * drive) (partition_entry data 3)
      (set_slot (2 + 5 * drive) (partition_entry data 2)
        (set_slot (1 + 5 * drive) (partition_entry data 1) hd)))

/-- The test of `sys_setup` on bytes 510 and 511 of a block, negated: the block
carries the signature. -/
def signed_table (data : Nat → Nat) : Prop := byte_at data 510 = 0x55 ∧ byte_at data 511 = 0xAA

instance (data : Nat → Nat) : Decidable (signed_table data) := by
  unfold signed_table; infer_instance

/-- The loop `for (drive=0 ; drive<NR_HD ; drive++)` of `sys_setup` over the
partition tables; the first argument is the number of drives left.  `bread` is
modelled from the spec (the block read primitive of the buffer cache): it gives
no buffer, or the bytes of the block; the request it sends through the driver
assigns none of `NR_HD`, `hd_info` and `hd`. -/
def read_tables (bread : Nat → Nat → Option (Nat → Nat)) : Nat → Nat → Boot → BootRes
  | 0, _, b => BootRes.ret 0 b
  | n + 1, drive, b =>
    match bread (0x300 + drive * 5) 0 with
    | none => BootRes.halt { b with log := b.log ++ [BootEvent.unreadable drive] }
    | some data =>
      if ¬ signed_table data then
        BootRes.halt { b with log := b.log ++ [BootEvent.bad_table drive] }
      else
        read_tables bread n (drive + 1)
          { b with st := { b.st with hd := copy_table data drive b.st.hd } }

/-- Source `sys_setup`, compiled without `HD_TYPE`.  `rd_load` and `mount_root`
are external and only logged. -/
def sys_setup (hw : Nat → Nat) (bios : Nat → Nat) (bread : Nat → Nat → Option (Nat → Nat))
    (b : Boot) : BootRes :=
  if b.callable = false then BootRes.ret (-1) b
  else
    let s := b.st
    let info : Nat → hd_i_struct := fun d => if d < 2 then bios_info bios d else s.hd_info d
    let nr0 := if (info 1).cyl ≠ 0 then 2 else 1
    let s1 := { s with hd_info := info, NR_HD := nr0, hd := whole_disks info nr0 s.hd }
    let p := inb hw 0x71 (outb (0x80 ||| 0x12) 0x70 s1)
    let nr := if p.1 &&& 0xf0 ≠ 0 then (if p.1 &&& 0x0f ≠ 0 then 2 else 1) else 0
    let s2 := { p.2 with NR_HD := nr, hd := clear_absent (2 - nr) nr p.2.hd }
    match read_tables bread nr 0 { b with callable := false, st := s2 } with
    | BootRes.halt b3 => BootRes.halt b3
    | BootRes.ret _ b3 =>
      let b4 := if nr ≠ 0 then { b3 with log := b3.log ++ [BootEvent.tables_ok (decide (nr > 1))] }
                else b3
      BootRes.ret 0 { b4 with log := b4.log ++ [BootEvent.rd_load, BootEvent.mount_root] }

/-- The value `sys_setup` returned, if it returned. -/
def BootRes.value : BootRes → Option Int
  | BootRes.ret v _ => some v
  | BootRes.halt _ => none

/-- The number of drives `sys_setup` derives from byte 0x12 of the CMOS. -/
def cmos_drives (c : Nat) : Nat :=
  if c &&& 0xf0 ≠ 0 then (if c &&& 0x0f ≠ 0 then 2 else 1) else 0

/-- The bootstrap where a first call of `sys_setup` enters its loop over the
partition tables: `callable` cleared, `hd_info`, `NR_HD` and the whole-disk
slots set. -/
def at_tables (hw : Nat → Nat) (bios : Nat → Nat) (b : Boot) : Boot :=
  let s := b.st
  let info : Nat → hd_i_struct := fun d => if d < 2 then bios_info bios d else s.hd_info d
  let nr0 := if (info 1).cyl ≠ 0 then 2 else 1
  let s1 := { s with hd_info := info, NR_HD := nr0, hd := whole_disks info nr0 s.hd }
  let p := inb hw 0x71 (outb (0x80 ||| 0x12) 0x70 s1)
  let nr := if p.1 &&& 0xf0 ≠ 0 then (if p.1 &&& 0x0f ≠ 0 then 2 else 1) else 0
  { b with callable := false,
           st := { p.2 with NR_HD := nr, hd := clear_absent (2 - nr) nr p.2.hd } }

/-- The driver's variables as initialised statically, before any port access. -/
def power_on : State :=
  { recalibrate := true, reset := true, NR_HD := 0,
    hd_info := fun _ => ⟨0, 0, 0, 0, 0, 0⟩,
    hd := fun _ => ⟨0, 0⟩,
    queue := [], do_hd := none, clock := 0, trace := [], bad_rw_calls := 0 }

/-- The bootstrap before the first call of `sys_setup`. -/
def boot_0 : Boot := ⟨true, power_on, []⟩

/-- BIOS parameter block of one drive with 306 cylinders, 4 heads and 17
sectors per track; the record of the second drive is all zero. -/
def bios_one : Nat → Nat := fun a =>
  if a = 0 then 0x32 else if a = 1 then 0x01 else if a = 2 then 4 else if a = 14 then 17 else 0

/-- BIOS parameter block of two drives of that geometry. -/
def bios_two : Nat → Nat := fun a => bios_one (a % 16)

/-- A first sector with the signature whose first table entry starts at sector
1 and is 20807 sectors long. -/
def sector_signed : Nat → Nat := fun a =>
  if a = 510 then 0x55 else if a = 511 then 0xAA
  else if a = 0x1BE + 8 then 1
  else if a = 0x1BE + 12 then 0x47 else if a = 0x1BE + 13 then 0x51 else 0

/-- A first sector whose bytes 510 and 511 are zero. -/
def sector_unsigned : Nat → Nat := fun a =>
  if a = 0x1BE + 8 then 1 else if a = 0x1BE + 12 then 0x47 else if a = 0x1BE + 13 then 0x51 else 0

/-- Every block read gives the signed sector. -/
def bread_signed : Nat → Nat → Option (Nat → Nat) := fun _ _ => some sector_signed

/-- The first drive gives the sector without signature, the second the signed
one. -/
def bread_first_bad : Nat → Nat → Option (Nat → Nat) := fun dev _ =>
  if dev = 0x300 then some sector_unsigned else some sector_signed

/-- The queue did not grow and, while the head request stays, nothing but its
error counter moved. -/
def Kept (s s' : State) : Prop :=
  s'.queue.length ≤ s.queue.length ∧
  (s'.queue.length = s.queue.length → ∀ r rest, s.queue = r :: rest →
    ∃ e, s'.queue = { r with errors := e } :: rest)

/-- The current request advanced by one sector: what a successful transfer of
one sector does to it when more sectors remain. -/
def Advanced (r r' : request) : Prop :=
  r'.sector = (r.sector + 1) % U32 ∧ r'.nr_sectors = (r.nr_sectors + (U32 - 1)) % U32 ∧
  r'.buffer = (r.buffer + 512) % U32 ∧ r'.nr_sectors ≠ 0

/-- The transfer fields of the current request did not move. -/
def Unmoved (r r' : request) : Prop :=
  r'.sector = r.sector ∧ r'.nr_sectors = r.nr_sectors ∧ r'.buffer = r.buffer

/-- A request that lies within the 32-bit range with its buffer: at least one
sector left, and neither the last sector number plus one nor the end of the
buffer exceeds 2^32. -/
def in_range (r : request) : Prop :=
  1 ≤ r.nr_sectors ∧ r.sector + r.nr_sectors ≤ U32 ∧ r.buffer + 512 * r.nr_sectors ≤ U32

instance (r : request) : Decidable (in_range r) := by
  unfold in_range; infer_instance

/-- A registry with at most two drives in which every present drive has between
1 and 16 heads and at least one sector per track, the counts being `int`
values. -/
def registry_ok (s : State) : Prop :=
  s.NR_HD ≤ 2 ∧
  ∀ d, d < s.NR_HD →
    1 ≤ (s.hd_info d).head ∧ (s.hd_info d).head ≤ 16 ∧
    1 ≤ (s.hd_info d).sect ∧ (s.hd_info d).sect < 2147483648

instance (s : State) : Decidable (registry_ok s) := by
  unfold registry_ok; infer_instance

/-- The state in which the loop of `do_hd_request` starts over (`goto repeat`),
when the pass that begins in the given state ends in one of its two restarts:
after `end_request(0)` of a request that fails the validation, or after
`bad_rw_intr()` when the data request of a WRITE did not show within the
poll. -/
def restart (hw : Nat → Nat) (s : State) : Option State :=
  match s.queue with
  | [] => none
  | r :: _ =>
    if rejected s r then some (end_request 0 s)
    else
      match translate (s.hd_info (MINOR r.dev / 5)) (abs_sector s r) with
      | none => none
      | some (cyl, head, sec) =>
        if s.reset then none
        else if s.recalibrate then none
        else if r.cmd = WRITE then
          match hd_out hw (MINOR r.dev / 5) r.nr_sectors sec head cyl WIN_WRITE
              Handler.write_intr s with
          | Res.stop _ _ => none
          | Res.ret s1 =>
            if (drq_poll hw 3000 s1).1 = 0 then
              match bad_rw_intr (drq_poll hw 3000 s1).2 with
              | Res.stop _ _ => none
              | Res.ret s2 => some s2
            else none
        else none

/-- The number of calls of `bad_rw_intr` a request can still go through before
its error counter reaches `MAX_ERRORS`: one, plus what the counter then lacks. -/
def budget (r : request) : Nat := 1 + (MAX_ERRORS - i32 (r.errors + 1)).toNat

/-- A number of passes of the loop of `do_hd_request` that suffices for a
queue: for each request one pass per call of `bad_rw_intr` it can go through
and one more, and a last pass. -/
def need : List request → Nat
  | [] => 1
  | r :: rest => budget r + 1 + need rest

/-- A request whose operation is neither READ nor WRITE. -/
def request_other : request := ⟨0x300, 2, 0, 0, 1, 0x10000⟩

/-! ## Concrete machines used as witnesses -/

/-- The geometry of scenario A: 4 heads, 17 sectors per track, 306 cylinders. -/
def geometry_A : hd_i_struct := ⟨4, 17, 306, 128, 305, 8⟩

/-- A machine with one drive of geometry A (whole disk: 20808 sectors, no
partitions), the given session flags and the given request queue. -/
def machine_A (reset recalibrate : Bool) (queue : List request) : State :=
  { recalibrate := recalibrate, reset := reset, NR_HD := 1,
    hd_info := fun i => if i = 0 then geometry_A else ⟨0, 0, 0, 0, 0, 0⟩,
    hd := fun i => if i = 0 then ⟨0, 20808⟩ else ⟨0, 0⟩,
    queue := queue, do_hd := none, clock := 0, trace := [], bad_rw_calls := 0 }

/-- A controller whose status register always reads ready, seek complete and
data request (0x58). -/
def hw_good : Nat → Nat := fun _ => 0x58

/-- A controller whose status register always reads ready and seek complete,
never data request (0x50). -/
def hw_no_drq : Nat → Nat := fun _ => 0x50

/-- A controller in its nominal state after power-on: the status register
always reads 0x50 (ready, seek complete), and the third port read, which is the
read of the error register after the reset, gives 1. -/
def hw_nominal : Nat → Nat := fun t => if t = 2 then 1 else 0x50

/-! ## Machine integers and the CHS translation -/

theorem u32_of_range (x : Int) (h0 : 0 ≤ x) (h1 : x < 4294967296) : u32 x = x.toNat := by
  unfold u32
  rw [Int.emod_eq_of_lt h0 h1]

theorem chs_nat (H S s : Nat) : (s / S / H * H + s / S % H) * S + s % S = s := by
  have h1 : s / S / H * H + s / S % H = s / S := by
    rw [Nat.mul_comm]; exact Nat.div_add_mod _ _
  rw [h1, Nat.mul_comm]; exact Nat.div_add_mod _ _

theorem translate_eq (info : hd_i_struct) (s : Nat)
    (hh : 1 ≤ info.head) (hh2 : info.head < 2147483648)
    (hs : 1 ≤ info.sect) (hs2 : info.sect < 2147483648) :
    translate info s = some (s / info.sect.toNat / info.head.toNat,
      s / info.sect.toNat % info.head.toNat, s % info.sect.toNat + 1) := by
  have eS : u32 info.sect = info.sect.toNat := u32_of_range _ (by omega) (by omega)
  have eH : u32 info.head = info.head.toNat := u32_of_range _ (by omega) (by omega)
  have pS : 0 < info.sect.toNat := by omega
  have pH : 0 < info.head.toNat := by omega
  have hlt : s % info.sect.toNat < info.sect.toNat := Nat.mod_lt _ pS
  have hm : (s % info.sect.toNat + 1) % U32 = s % info.sect.toNat + 1 := by
    apply Nat.mod_eq_of_lt
    unfold U32
    omega
  simp only [translate, divl, eS, eH, Nat.pos_iff_ne_zero.mp pS, Nat.pos_iff_ne_zero.mp pH,
    if_false, hm]

/-- C1 (CHS round trip).  For every drive geometry whose `int` fields `head` and
`sect` are at least 1, and every absolute sector `s` below
`head * sect * cyl`, the translation of `do_hd_request` succeeds and yields
`sec = s mod sect + 1`, `head = (s div sect) mod head`,
`cyl = (s div sect) div head`; these satisfy
`(cyl * heads + head) * sect + (sec - 1) = s`, `1 ≤ sec ≤ sect`,
`head < heads` and `cyl < cylinders`. -/
theorem chs_round_trip (info : hd_i_struct) (s : Nat)
    (hh : 1 ≤ info.head) (hh2 : info.head < 2147483648)
    (hs : 1 ≤ info.sect) (hs2 : info.sect < 2147483648)
    (hlt : (s : Int) < info.head * info.sect * info.cyl) :
    ∃ cyl head sec : Nat, translate info s = some (cyl, head, sec) ∧
      (sec : Int) = (s : Int) % info.sect + 1 ∧
      (head : Int) = ((s : Int) / info.sect) % info.head ∧
      (cyl : Int) = ((s : Int) / info.sect) / info.head ∧
      ((cyl : Int) * info.head + head) * info.sect + ((sec : Int) - 1) = s ∧
      1 ≤ sec ∧ (sec : Int) ≤ info.sect ∧ (head : Int) < info.head ∧ (cyl : Int) < info.cyl := by
  refine ⟨_, _, _, translate_eq info s hh hh2 hs hs2, ?_⟩
  have eH : ((info.head.toNat : Nat) : Int) = info.head := Int.toNat_of_nonneg (by omega)
  have eS : ((info.sect.toNat : Nat) : Int) = info.sect := Int.toNat_of_nonneg (by omega)
  have pS : 0 < info.sect.toNat := by omega
  have pH : 0 < info.head.toNat := by omega
  generalize info.head.toNat = H at *
  generalize info.sect.toNat = S at *
  rw [← eH, ← eS] at hlt ⊢
  have key := chs_nat H S s
  have hm : s % S < S := Nat.mod_lt _ pS
  have hm2 : s / S % H < H := Nat.mod_lt _ pH
  refine ⟨by push_cast; rfl, by push_cast; rfl, by push_cast; rfl, ?_, by omega, ?_, ?_, ?_⟩
  · have : (((s / S / H * H + s / S % H) * S + s % S : Nat) : Int) = s := by rw [key]
    push_cast at this ⊢
    linarith
  · exact_mod_cast hm
  · exact_mod_cast hm2
  · by_contra hc
    push_neg at hc
    have h1 : (H : Int) * S * info.cyl ≤ H * S * (s / S / H : Nat) := by
      apply mul_le_mul_of_nonneg_left hc
      positivity
    have h2 : H * S * (s / S / H) ≤ s := by
      calc H * S * (s / S / H) = S * (H * (s / S / H)) := by ring
        _ ≤ S * (s / S) := Nat.mul_le_mul_left _ (Nat.mul_div_le _ _)
        _ ≤ s := Nat.mul_div_le _ _
    have h3 : ((H * S * (s / S / H) : Nat) : Int) ≤ s := by exact_mod_cast h2
    push_cast at h1 h3
    linarith

/-- Witness of C1: geometry 4/17/306 and absolute sector 0 give cylinder 0,
head 0, sector 1. -/
theorem chs_round_trip_witness :
    translate geometry_A 0 = some (0, 0, 1) ∧
    ∃ cyl head sec : Nat, translate geometry_A 0 = some (cyl, head, sec) ∧
      (sec : Int) = ((0 : Nat) : Int) % geometry_A.sect + 1 ∧
      (head : Int) = (((0 : Nat) : Int) / geometry_A.sect) % geometry_A.head ∧
      (cyl : Int) = (((0 : Nat) : Int) / geometry_A.sect) / geometry_A.head ∧
      ((cyl : Int) * geometry_A.head + head) * geometry_A.sect + ((sec : Int) - 1)
        = ((0 : Nat) : Int) ∧
      1 ≤ sec ∧ (sec : Int) ≤ geometry_A.sect ∧ (head : Int) < geometry_A.head ∧
      (cyl : Int) < geometry_A.cyl :=
  ⟨by decide, chs_round_trip geometry_A 0 (by decide) (by decide) (by decide) (by decide)
    (by decide)⟩

/-! ## Request validation -/

/-- C2 (request validation), evaluated where the code and the claim part.  On a
drive of 20808 sectors, a READ of minor 0 that starts at sector 4294967294 has
`start + 2 > nr_sects` as integers, yet `block+2` wraps to 0 in 32 bits: the
dispatcher does not reject the request, completes nothing, and sends WIN_READ to
the controller. -/
theorem validation_wraps_at_top_sector :
    ((4294967294 : Int) + 2 > ((machine_A false false []).hd 0).nr_sects) ∧
    ¬ rejected (machine_A false false [⟨0x300, READ, 0, 4294967294, 2, 0x10000⟩])
        ⟨0x300, READ, 0, 4294967294, 2, 0x10000⟩ ∧
    commands (do_hd_request hw_good 1
        (machine_A false false [⟨0x300, READ, 0, 4294967294, 2, 0x10000⟩])).state.trace
      = [WIN_READ] ∧
    completions (do_hd_request hw_good 1
        (machine_A false false [⟨0x300, READ, 0, 4294967294, 2, 0x10000⟩])).state.trace
      = [] := by
  decide

/-! ## Frame lemmas -/

theorem commands_append (a b : List Event) : commands (a ++ b) = commands a ++ commands b := by
  induction a with
  | nil => rfl
  | cons e a ih =>
    rw [List.cons_append]
    cases e <;> simp only [commands, ih]
    case outb v port => split <;> simp

theorem pushes_append (a b : List Event) : pushes (a ++ b) = pushes a ++ pushes b := by
  induction a with
  | nil => rfl
  | cons e a ih =>
    rw [List.cons_append]
    cases e <;> simp only [pushes, ih]
    case port_write port buf nr => split <;> simp

theorem completions_append (a b : List Event) :
    completions (a ++ b) = completions a ++ completions b := by
  induction a with
  | nil => rfl
  | cons e a ih =>
    cases e <;> simp [completions, ih]

theorem quiet_nil : quiet [] := ⟨rfl, rfl, rfl⟩

theorem quiet_append {a b : List Event} (ha : quiet a) (hb : quiet b) : quiet (a ++ b) := by
  obtain ⟨a1, a2, a3⟩ := ha
  obtain ⟨b1, b2, b3⟩ := hb
  exact ⟨by rw [commands_append, a1, b1]; rfl, by rw [pushes_append, a2, b2]; rfl,
    by rw [completions_append, a3, b3]; rfl⟩

theorem quiet_inb (port v : Nat) : quiet [Event.inb port v] := ⟨rfl, rfl, rfl⟩

theorem quiet_printk (m : Msg) : quiet [Event.printk m] := ⟨rfl, rfl, rfl⟩

theorem quiet_outb_ctl (v : Nat) : quiet [Event.outb v HD_CMD] :=
  ⟨by simp [commands, HD_CMD, HD_COMMAND], rfl, rfl⟩

theorem events_since_of_trace {s s' : State} {evs : List Event}
    (h : s'.trace = s.trace ++ evs) : events_since s s' = evs := by
  unfold events_since
  rw [h, List.drop_left]

theorem events_since_self (s : State) : events_since s s = [] := by
  simp [events_since]

theorem Polls.refl (s : State) : Polls s s := ⟨[], quiet_nil, by simp⟩

theorem Polls.trans {a b c : State} (h1 : Polls a b) (h2 : Polls b c) : Polls a c := by
  obtain ⟨e1, q1, h1⟩ := h1
  obtain ⟨e2, q2, h2⟩ := h2
  refine ⟨e1 ++ e2, quiet_append q1 q2, ?_⟩
  rw [h2, h1]
  simp

theorem Polls.step {s : State} {evs : List Event} (c : Nat) (q : quiet evs) :
    Polls s { s with clock := c, trace := s.trace ++ evs } := ⟨evs, q, rfl⟩

theorem polls_inb (hw : Nat → Nat) (port : Nat) (s : State) : Polls s (inb hw port s).2 :=
  ⟨_, quiet_inb port _, rfl⟩

theorem polls_printk (m : Msg) (s : State) : Polls s (printk m s) :=
  ⟨_, quiet_printk m, rfl⟩

theorem polls_outb_ctl (v : Nat) (s : State) : Polls s (outb v HD_CMD s) :=
  ⟨_, quiet_outb_ctl _, rfl⟩

theorem polls_controller_ready_loop (hw : Nat → Nat) (n : Nat) (s : State) :
    Polls s (controller_ready_loop hw n s).2 := by
  induction n generalizing s with
  | zero => exact Polls.refl s
  | succ n ih =>
    unfold controller_ready_loop
    split
    · exact Polls.refl s
    · dsimp only
      split
      · exact (polls_inb hw _ s).trans (ih _)
      · exact polls_inb hw _ s

theorem polls_controller_ready (hw : Nat → Nat) (s : State) :
    Polls s (controller_ready hw s).2 := polls_controller_ready_loop hw _ s

theorem polls_drq_poll (hw : Nat → Nat) (n : Nat) (s : State) :
    Polls s (drq_poll hw n s).2 := by
  induction n generalizing s with
  | zero => exact Polls.refl s
  | succ n ih =>
    unfold drq_poll
    dsimp only
    split
    · exact (polls_inb hw _ s).trans (ih _)
    · exact polls_inb hw _ s

theorem polls_drive_busy_loop (hw : Nat → Nat) (n : Nat) (s : State) :
    Polls s (drive_busy_loop hw n s) := by
  induction n generalizing s with
  | zero => exact Polls.refl s
  | succ n ih =>
    unfold drive_busy_loop
    dsimp only
    split
    · exact polls_inb hw _ s
    · exact (polls_inb hw _ s).trans (ih _)

theorem polls_drive_busy (hw : Nat → Nat) (s : State) : Polls s (drive_busy hw s).2 := by
  unfold drive_busy
  have h1 := polls_drive_busy_loop hw 10000 s
  have h2 := polls_inb hw HD_STATUS (drive_busy_loop hw 10000 s)
  dsimp only
  split
  · exact h1.trans h2
  · exact (h1.trans h2).trans (polls_printk _ _)

theorem polls_reset_controller (hw : Nat → Nat) (s : State) :
    Polls s (reset_controller hw s) := by
  unfold reset_controller
  have h1 := polls_outb_ctl 4 s
  have h2 := polls_outb_ctl (u32 ((outb 4 HD_CMD s).hd_info 0).ctl &&& 0x0f) (outb 4 HD_CMD s)
  have h3 := polls_drive_busy hw
    (outb (u32 ((outb 4 HD_CMD s).hd_info 0).ctl &&& 0x0f) HD_CMD (outb 4 HD_CMD s))
  have h123 := (h1.trans h2).trans h3
  dsimp only
  split <;> split
  · exact ((h123.trans (polls_printk _ _)).trans (polls_inb hw _ _)).trans (polls_printk _ _)
  · exact (h123.trans (polls_printk _ _)).trans (polls_inb hw _ _)
  · exact (h123.trans (polls_inb hw _ _)).trans (polls_printk _ _)
  · exact h123.trans (polls_inb hw _ _)

theorem polls_win_result (hw : Nat → Nat) (s : State) : Polls s (win_result hw s).2 := by
  unfold win_result
  dsimp only
  split
  · exact polls_inb hw _ s
  · split
    · exact (polls_inb hw _ s).trans (polls_inb hw _ _)
    · exact polls_inb hw _ s

theorem do_hd_request_nil (hw : Nat → Nat) (fuel : Nat) (s : State) (hq : s.queue = []) :
    do_hd_request hw (fuel + 1) s = Res.ret s := by
  simp [do_hd_request, hq]

theorem do_hd_request_rejected (hw : Nat → Nat) (fuel : Nat) (s : State) (r : request)
    (rest : List request) (hq : s.queue = r :: rest) (hv : rejected s r) :
    do_hd_request hw (fuel + 1) s = do_hd_request hw fuel (end_request 0 s) := by
  simp [do_hd_request, hq, hv]

theorem do_hd_request_divide (hw : Nat → Nat) (fuel : Nat) (s : State) (r : request)
    (rest : List request) (hq : s.queue = r :: rest) (hv : ¬ rejected s r)
    (ht : translate (s.hd_info (MINOR r.dev / 5)) (abs_sector s r) = none) :
    do_hd_request hw (fuel + 1) s = Res.stop Stop.divide_error s := by
  unfold abs_sector at ht
  simp [do_hd_request, hq, hv, ht]

theorem do_hd_request_reset (hw : Nat → Nat) (fuel : Nat) (s : State) (r : request)
    (rest : List request) (c : Nat × Nat × Nat) (hq : s.queue = r :: rest) (hv : ¬ rejected s r)
    (ht : translate (s.hd_info (MINOR r.dev / 5)) (abs_sector s r) = some c)
    (hr : s.reset = true) :
    do_hd_request hw (fuel + 1) s
      = reset_hd hw (CURRENT_DEV r) { s with reset := false, recalibrate := true } := by
  unfold abs_sector at ht
  simp [do_hd_request, hq, hv, ht, hr]

theorem do_hd_request_recal (hw : Nat → Nat) (fuel : Nat) (s : State) (r : request)
    (rest : List request) (c : Nat × Nat × Nat) (hq : s.queue = r :: rest) (hv : ¬ rejected s r)
    (ht : translate (s.hd_info (MINOR r.dev / 5)) (abs_sector s r) = some c)
    (hr : s.reset = false) (hc : s.recalibrate = true) :
    do_hd_request hw (fuel + 1) s
      = hd_out hw (MINOR r.dev / 5) (u32 (s.hd_info (CURRENT_DEV r)).sect) 0 0 0 WIN_RESTORE
          Handler.recal_intr { s with recalibrate := false } := by
  unfold abs_sector at ht
  simp [do_hd_request, hq, hv, ht, hr, hc]

theorem do_hd_request_write (hw : Nat → Nat) (fuel : Nat) (s : State) (r : request)
    (rest : List request) (cyl head sec : Nat) (hq : s.queue = r :: rest)
    (hv : ¬ rejected s r)
    (ht : translate (s.hd_info (MINOR r.dev / 5)) (abs_sector s r) = some (cyl, head, sec))
    (hr : s.reset = false) (hc : s.recalibrate = false) (hw1 : r.cmd = WRITE) :
    do_hd_request hw (fuel + 1) s
      = (hd_out hw (MINOR r.dev / 5) r.nr_sectors sec head cyl WIN_WRITE Handler.write_intr s).bind
          (fun s1 =>
            if (drq_poll hw 3000 s1).1 = 0 then
              (bad_rw_intr (drq_poll hw 3000 s1).2).bind (do_hd_request hw fuel)
            else Res.ret (port_write HD_DATA r.buffer 256 (drq_poll hw 3000 s1).2)) := by
  unfold abs_sector at ht
  simp only [do_hd_request, hq, hv, ht, hr, hc, hw1, if_false, if_true, Bool.false_eq_true]
  cases hd_out hw (MINOR r.dev / 5) r.nr_sectors sec head cyl WIN_WRITE Handler.write_intr s with
  | stop w s1 => rfl
  | ret s1 =>
    simp only [Res.bind]
    split
    · cases bad_rw_intr (drq_poll hw 3000 s1).2 <;> rfl
    · rfl

theorem do_hd_request_read (hw : Nat → Nat) (fuel : Nat) (s : State) (r : request)
    (rest : List request) (cyl head sec : Nat) (hq : s.queue = r :: rest)
    (hv : ¬ rejected s r)
    (ht : translate (s.hd_info (MINOR r.dev / 5)) (abs_sector s r) = some (cyl, head, sec))
    (hr : s.reset = false) (hc : s.recalibrate = false) (hr1 : r.cmd = READ) :
    do_hd_request hw (fuel + 1) s
      = hd_out hw (MINOR r.dev / 5) r.nr_sectors sec head cyl WIN_READ Handler.read_intr s := by
  unfold abs_sector at ht
  have hne : READ ≠ WRITE := by decide
  simp [do_hd_request, hq, hv, ht, hr, hc, hr1, hne]

theorem do_hd_request_unknown (hw : Nat → Nat) (fuel : Nat) (s : State) (r : request)
    (rest : List request) (c : Nat × Nat × Nat) (hq : s.queue = r :: rest)
    (hv : ¬ rejected s r)
    (ht : translate (s.hd_info (MINOR r.dev / 5)) (abs_sector s r) = some c)
    (hr : s.reset = false) (hc : s.recalibrate = false) (hw1 : r.cmd ≠ WRITE)
    (hr1 : r.cmd ≠ READ) :
    do_hd_request hw (fuel + 1) s = Res.stop (Stop.panic Panic.unknown_command) s := by
  unfold abs_sector at ht
  simp [do_hd_request, hq, hv, ht, hr, hc, hw1, hr1]

theorem hd_out_cases (hw : Nat → Nat) (drive nsect sect head cyl cmd : Nat) (intr : Handler)
    (s : State) :
    hd_out hw drive nsect sect head cyl cmd intr s = Res.stop (Stop.panic Panic.bad_sector) s ∨
    ∃ p, Polls s p ∧ drive ≤ 1 ∧ head ≤ 15 ∧
      (hd_out hw drive nsect sect head cyl cmd intr s = Res.stop (Stop.panic Panic.not_ready) p ∨
       hd_out hw drive nsect sect head cyl cmd intr s
         = Res.ret (command_block drive nsect sect head cyl cmd intr p)) := by
  unfold hd_out
  split
  · exact Or.inl rfl
  · rename_i h
    push_neg at h
    refine Or.inr ⟨(controller_ready hw s).2, polls_controller_ready hw s, h.1, h.2, ?_⟩
    dsimp only
    split
    · exact Or.inl rfl
    · refine Or.inr ?_
      simp [command_block, outb]

/-! ## Error handling -/

theorem i32_of_range (x : Int) (h0 : -2147483648 ≤ x) (h1 : x < 2147483648) : i32 x = x := by
  unfold i32
  omega

theorem bad_rw_intr_stay (s : State) (r : request) (rest : List request)
    (hq : s.queue = r :: rest) (h : i32 (r.errors + 1) < MAX_ERRORS) :
    bad_rw_intr s = Res.ret
      { s with bad_rw_calls := s.bad_rw_calls + 1,
               queue := { r with errors := i32 (r.errors + 1) } :: rest,
               reset := s.reset || decide (MAX_ERRORS / 2 < i32 (r.errors + 1)) } := by
  have h' : ¬ MAX_ERRORS ≤ i32 (r.errors + 1) := not_le.mpr h
  simp only [bad_rw_intr, hq, ge_iff_le, h', if_false, gt_iff_lt]
  split <;> rename_i h2 <;> simp [h2]

theorem bad_rw_intr_fail_last (s : State) (r : request)
    (hq : s.queue = [r]) (h : MAX_ERRORS ≤ i32 (r.errors + 1)) :
    bad_rw_intr s = Res.stop Stop.null_pointer
      { s with bad_rw_calls := s.bad_rw_calls + 1, queue := [],
               trace := s.trace ++ [Event.end_request 0 { r with errors := i32 (r.errors + 1) }] } := by
  simp [bad_rw_intr, hq, h, end_request]

theorem bad_rw_intr_fail_next (s : State) (r c : request) (rest : List request)
    (hq : s.queue = r :: c :: rest) (h : MAX_ERRORS ≤ i32 (r.errors + 1)) :
    bad_rw_intr s = Res.ret
      { s with bad_rw_calls := s.bad_rw_calls + 1, queue := c :: rest,
               trace := s.trace ++ [Event.end_request 0 { r with errors := i32 (r.errors + 1) }],
               reset := s.reset || decide (MAX_ERRORS / 2 < c.errors) } := by
  simp only [bad_rw_intr, hq, ge_iff_le, h, if_true, gt_iff_lt, end_request]
  split <;> rename_i h2 <;> simp [h2]

/-- C4 (failure ceiling).  A call of `bad_rw_intr` on the current request `r`
completes it with failure (`end_request(0)`) exactly when the incremented error
counter is at least `MAX_ERRORS = 7`, and completes nothing otherwise.  In
particular a request whose counter reaches 7 is failed and leaves the queue,
whatever the session flags of the state; a request whose incremented counter is
below 7 stays at the head of the queue, not completed. -/
theorem failure_ceiling (s : State) (r : request) (rest : List request)
    (hq : s.queue = r :: rest) :
    completions (events_since s (bad_rw_intr s).state)
      = (if MAX_ERRORS ≤ i32 (r.errors + 1)
          then [(0, { r with errors := i32 (r.errors + 1) })] else []) ∧
    (r.errors = 6 →
      completions (events_since s (bad_rw_intr s).state) = [(0, { r with errors := 7 })] ∧
      (bad_rw_intr s).state.queue = rest) ∧
    (0 ≤ r.errors → r.errors + 1 < 7 →
      completions (events_since s (bad_rw_intr s).state) = [] ∧
      (bad_rw_intr s).state.queue = { r with errors := r.errors + 1 } :: rest) := by
  have main : completions (events_since s (bad_rw_intr s).state)
      = (if MAX_ERRORS ≤ i32 (r.errors + 1)
          then [(0, { r with errors := i32 (r.errors + 1) })] else []) ∧
      (bad_rw_intr s).state.queue
        = (if MAX_ERRORS ≤ i32 (r.errors + 1) then rest
           else { r with errors := i32 (r.errors + 1) } :: rest) := by
    by_cases h : MAX_ERRORS ≤ i32 (r.errors + 1)
    · rw [if_pos h, if_pos h]
      cases rest with
      | nil =>
        rw [bad_rw_intr_fail_last s r hq h]
        exact ⟨by rw [@events_since_of_trace _ _ [Event.end_request 0 _] rfl]; rfl, rfl⟩
      | cons c rest =>
        rw [bad_rw_intr_fail_next s r c rest hq h]
        exact ⟨by rw [@events_since_of_trace _ _ [Event.end_request 0 _] rfl]; rfl, rfl⟩
    · rw [if_neg h, if_neg h, bad_rw_intr_stay s r rest hq (not_le.mp h)]
      exact ⟨by rw [@events_since_of_trace _ _ [] (by simp [Res.state])]; rfl, rfl⟩
  refine ⟨main.1, ?_, ?_⟩
  · intro h6
    have e : i32 (r.errors + 1) = 7 := by rw [h6]; decide
    have h7 : MAX_ERRORS ≤ i32 (r.errors + 1) := by rw [e]; decide
    rw [main.1, main.2, if_pos h7, if_pos h7, e]
    exact ⟨rfl, rfl⟩
  · intro h0 h7
    have e : i32 (r.errors + 1) = r.errors + 1 := i32_of_range _ (by omega) (by omega)
    have hn : ¬ MAX_ERRORS ≤ i32 (r.errors + 1) := by rw [e]; unfold MAX_ERRORS; omega
    rw [main.1, main.2, if_neg hn, if_neg hn, e]
    exact ⟨rfl, rfl⟩

/-- Witness of C4: a request with six errors, alone in the queue. -/
theorem failure_ceiling_witness :
    (machine_A false false [⟨0x300, READ, 6, 0, 2, 0x10000⟩]).queue
      = [⟨0x300, READ, 6, 0, 2, 0x10000⟩] ∧
    completions (events_since (machine_A false false [⟨0x300, READ, 6, 0, 2, 0x10000⟩])
      (bad_rw_intr (machine_A false false [⟨0x300, READ, 6, 0, 2, 0x10000⟩])).state)
      = [(0, ⟨0x300, READ, 7, 0, 2, 0x10000⟩)] :=
  ⟨rfl, ((failure_ceiling (machine_A false false [⟨0x300, READ, 6, 0, 2, 0x10000⟩])
    ⟨0x300, READ, 6, 0, 2, 0x10000⟩ [] rfl).2.1 rfl).1⟩

/-- C6 (reset flag above half the ceiling), evaluated where the code and the
claim part.  With the reset flag clear and two requests queued, the first
having six errors, `bad_rw_intr` raises the counter to 7 (> 3), fails the
request, and then tests the counter of the next request, which is 0: it returns
with the reset flag still clear.  When the failed request is the only one, the
second test dereferences a null `CURRENT`. -/
theorem reset_flag_missed_at_ceiling :
    (∃ s', bad_rw_intr (machine_A false false
        [⟨0x300, READ, 6, 0, 2, 0x10000⟩, ⟨0x300, READ, 0, 8, 2, 0x20000⟩]) = Res.ret s' ∧
      s'.reset = false ∧
      completions s'.trace = [(0, ⟨0x300, READ, 7, 0, 2, 0x10000⟩)] ∧
      s'.queue = [⟨0x300, READ, 0, 8, 2, 0x20000⟩]) ∧
    (∃ s', bad_rw_intr (machine_A false false [⟨0x300, READ, 6, 0, 2, 0x10000⟩])
        = Res.stop Stop.null_pointer s' ∧
      s'.reset = false ∧
      completions s'.trace = [(0, ⟨0x300, READ, 7, 0, 2, 0x10000⟩)]) :=
  ⟨⟨_, rfl, by decide, by decide, by decide⟩, ⟨_, rfl, by decide, by decide⟩⟩

theorem commands_command_block (drive nsect sect head cyl cmd : Nat) (x : hd_i_struct) :
    commands
      [Event.outb (u32 x.ctl % 256) HD_CMD,
       Event.outb (u32 (x.wpcom >>> 2) % 256) (HD_DATA + 1),
       Event.outb (nsect % 256) (HD_DATA + 2),
       Event.outb (sect % 256) (HD_DATA + 3),
       Event.outb (cyl % 256) (HD_DATA + 4),
       Event.outb ((cyl >>> 8) % 256) (HD_DATA + 5),
       Event.outb ((0xA0 ||| (drive <<< 4) ||| head) % 256) (HD_DATA + 6),
       Event.outb (cmd % 256) (HD_DATA + 7)] = [cmd % 256] := by
  simp [commands, HD_CMD, HD_DATA, HD_COMMAND]

theorem Polls.issued {cmd : Nat} {s p q : State} (h1 : Polls s p) (h2 : Issued cmd p q) :
    Issued cmd s q := by
  obtain ⟨e1, q1, h1⟩ := h1
  obtain ⟨e2, c2, p2, d2, h2⟩ := h2
  refine ⟨e1 ++ e2, ?_, ?_, ?_, ?_⟩
  · rw [commands_append, q1.1]; simpa using c2
  · rw [pushes_append, q1.2.1, p2]; rfl
  · rw [completions_append, q1.2.2, d2]; rfl
  · rw [h2, h1]; simp

theorem Polls.to_issued {cmd : Nat} {s p : State} (h1 : Polls s p) : Issued cmd s p := by
  obtain ⟨e1, q1, h1⟩ := h1
  refine ⟨e1, Or.inl q1.1, q1.2.1, q1.2.2, ?_⟩
  rw [h1]

theorem issued_command_block (drive nsect sect head cyl cmd : Nat) (intr : Handler)
    (p : State) : Issued cmd p (command_block drive nsect sect head cyl cmd intr p) :=
  ⟨_, Or.inr (commands_command_block drive nsect sect head cyl cmd (p.hd_info drive)),
    rfl, rfl, rfl⟩

theorem issued_hd_out (hw : Nat → Nat) (drive nsect sect head cyl cmd : Nat) (intr : Handler)
    (s : State) : Issued cmd s (hd_out hw drive nsect sect head cyl cmd intr s).state := by
  rcases hd_out_cases hw drive nsect sect head cyl cmd intr s with h | ⟨p, hp, -, -, h | h⟩
  · rw [h]; exact (Polls.refl s).to_issued
  · rw [h]; exact hp.to_issued
  · rw [h]; exact hp.issued (issued_command_block _ _ _ _ _ _ _ _)

theorem issued_reset_hd (hw : Nat → Nat) (nr : Nat) (s : State) :
    Issued WIN_SPECIFY s (reset_hd hw nr s).state :=
  (polls_reset_controller hw s).issued (issued_hd_out hw _ _ _ _ _ _ _ _)

theorem Issued.dispatched {cmd : Nat} {s s' : State} (h : Issued cmd s s') :
    Dispatched s s' := by
  obtain ⟨evs, c, -, -, h⟩ := h
  rw [h]
  refine ⟨rfl, rfl, rfl, le_refl _, le_refl _, ⟨evs, rfl, ?_⟩, ?_⟩
  · rcases c with c | c <;> rw [c] <;> simp
  · intro _ r rest hq _ _
    simp [hq]

/-- The relation only looks at the registry, the queue, the trace and the call
counter of its first state. -/
theorem Dispatched.congr_left {s0 s s' : State} (h : Dispatched s0 s')
    (h1 : s0.NR_HD = s.NR_HD) (h2 : s0.hd_info = s.hd_info) (h3 : s0.hd = s.hd)
    (h4 : s0.bad_rw_calls = s.bad_rw_calls) (h5 : s0.queue = s.queue)
    (h6 : s0.trace = s.trace) : Dispatched s s' := by
  unfold Dispatched at *
  rw [h1, h2, h3, h4, h5, h6] at h
  exact h

theorem Dispatched.unchanged (s : State) : Dispatched s s :=
  (@Polls.to_issued 0 _ _ (Polls.refl s)).dispatched

theorem bumped_bad_rw_intr (s : State) : Bumped s (bad_rw_intr s).state := by
  cases hq : s.queue with
  | nil =>
    have : bad_rw_intr s = Res.stop Stop.null_pointer
        { s with bad_rw_calls := s.bad_rw_calls + 1 } := by
      simp [bad_rw_intr, hq]
    rw [this]
    refine ⟨rfl, rfl, rfl, rfl, rfl, rfl, rfl, le_refl _, ⟨[], by simp [Res.state], rfl, rfl⟩, ?_⟩
    intro _ r rest hq'
    simp [Res.state, hq] at hq'
  | cons r rest =>
    by_cases h : MAX_ERRORS ≤ i32 (r.errors + 1)
    · cases rest with
      | nil =>
        rw [bad_rw_intr_fail_last s r hq h]
        refine ⟨rfl, rfl, rfl, rfl, rfl, rfl, rfl, by simp [Res.state],
          ⟨_, rfl, rfl, rfl⟩, ?_⟩
        intro hl
        simp [Res.state, hq] at hl
      | cons c rest =>
        rw [bad_rw_intr_fail_next s r c rest hq h]
        refine ⟨rfl, rfl, rfl, rfl, rfl, rfl, rfl, by simp [Res.state, hq],
          ⟨_, rfl, rfl, rfl⟩, ?_⟩
        intro hl
        simp [Res.state, hq] at hl
    · rw [bad_rw_intr_stay s r rest hq (not_le.mp h)]
      refine ⟨rfl, rfl, rfl, rfl, rfl, rfl, rfl, by simp [Res.state, hq],
        ⟨[], by simp [Res.state], rfl, rfl⟩, ?_⟩
      intro _ r' rest' hq'
      rw [hq] at hq'
      cases hq'
      exact ⟨not_le.mp h, rfl, rfl, rfl⟩

theorem Issued.polls {cmd : Nat} {s p q : State} (h1 : Issued cmd s p) (h2 : Polls p q) :
    Issued cmd s q := by
  obtain ⟨e1, c1, p1, d1, h1⟩ := h1
  obtain ⟨e2, q2, h2⟩ := h2
  refine ⟨e1 ++ e2, ?_, ?_, ?_, ?_⟩
  · rw [commands_append, q2.1]; simpa using c1
  · rw [pushes_append, q2.2.1, p1]; rfl
  · rw [completions_append, q2.2.2, d1]; rfl
  · rw [h2, h1]; simp

theorem dispatched_after_end_request {u : Nat} {s s' : State} {r : request}
    {rest : List request} (hq : s.queue = r :: rest) (h : Dispatched (end_request u s) s') :
    Dispatched s s' := by
  have he : end_request u s
      = { s with queue := rest, trace := s.trace ++ [Event.end_request u r] } := by
    simp [end_request, hq]
  rw [he] at h
  obtain ⟨h1, h2, h3, h4, h5, ⟨evs, h6, h7⟩, -⟩ := h
  simp only at h1 h2 h3 h4 h5 h6 h7
  refine ⟨h1, h2, h3, h4, by rw [hq]; simp; omega, ⟨Event.end_request u r :: evs, ?_, ?_⟩, ?_⟩
  · rw [h6]; simp
  · simpa [commands] using h7
  · intro hl
    rw [hq] at hl
    simp at hl
    omega

theorem Issued.dispatched_port_write {cmd : Nat} {s p : State} (h : Issued cmd s p)
    (port buf nr : Nat) : Dispatched s (port_write port buf nr p) := by
  obtain ⟨evs, c, -, -, h⟩ := h
  rw [h]
  refine ⟨rfl, rfl, rfl, le_refl _, le_refl _, ⟨evs ++ [Event.port_write port buf nr], ?_, ?_⟩, ?_⟩
  · simp [port_write]
  · rw [commands_append]
    rcases c with c | c <;> rw [c] <;> simp [commands, port_write]
  · intro _ r rest hq _ _
    simp [hq, port_write]

theorem dispatched_after_timeout {cmd : Nat} {s p s2 s' : State} (h1 : Issued cmd s p)
    (hb : Bumped p s2) (h : Dispatched s2 s') : Dispatched s s' := by
  obtain ⟨e1, c1, -, -, h1⟩ := h1
  obtain ⟨b1, b2, b3, -, -, -, b7, b8, ⟨e2, b9, b10, -⟩, b11⟩ := hb
  obtain ⟨d1, d2, d3, d4, d5, ⟨e3, d6, d7⟩, d8⟩ := h
  have pq : p.queue = s.queue := by rw [h1]
  have pl : p.queue.length = s.queue.length := by rw [pq]
  have pc : p.bad_rw_calls = s.bad_rw_calls := by rw [h1]
  have pt : p.trace = s.trace ++ e1 := by rw [h1]
  have pn : p.NR_HD = s.NR_HD := by rw [h1]
  have pi : p.hd_info = s.hd_info := by rw [h1]
  have ph : p.hd = s.hd := by rw [h1]
  have c1' : (commands e1).length ≤ 1 := by rcases c1 with c | c <;> rw [c] <;> simp
  refine ⟨by rw [d1, b1, pn], by rw [d2, b2, pi], by rw [d3, b3, ph], by omega, by omega,
    ⟨e1 ++ e2 ++ e3, ?_, ?_⟩, ?_⟩
  · rw [d6, b9, pt]; simp
  · rw [commands_append, commands_append, b10]
    simp only [List.append_nil, List.length_append]
    omega
  · intro hl r rest hq hlo hhi
    have hl2 : s2.queue.length = p.queue.length := by omega
    obtain ⟨hlt, hq2, -, -⟩ := b11 hl2 r rest (by rw [pq, hq])
    have e : i32 (r.errors + 1) = r.errors + 1 := i32_of_range _ (by omega) (by omega)
    rw [e] at hq2 hlt
    have hl3 : s'.queue.length = s2.queue.length := by omega
    unfold MAX_ERRORS at hlt
    have := d8 hl3 _ rest hq2 (by simp; omega) (by simp; omega)
    rw [this]
    simp only [List.cons.injEq, and_true]
    congr 1
    omega

theorem dispatched_do_hd_request (hw : Nat → Nat) (fuel : Nat) (s : State) :
    Dispatched s (do_hd_request hw fuel s).state := by
  induction fuel generalizing s with
  | zero => exact Dispatched.unchanged s
  | succ fuel ih =>
    cases hq : s.queue with
    | nil => rw [do_hd_request_nil hw fuel s hq]; exact Dispatched.unchanged s
    | cons r rest =>
      by_cases hv : rejected s r
      · rw [do_hd_request_rejected hw fuel s r rest hq hv]
        exact dispatched_after_end_request hq (ih _)
      · cases ht : translate (s.hd_info (MINOR r.dev / 5)) (abs_sector s r) with
        | none =>
          rw [do_hd_request_divide hw fuel s r rest hq hv ht]; exact Dispatched.unchanged s
        | some c =>
          obtain ⟨cyl, head, sec⟩ := c
          cases hr : s.reset with
          | true =>
            rw [do_hd_request_reset hw fuel s r rest _ hq hv ht hr]
            exact (issued_reset_hd hw _ _).dispatched.congr_left rfl rfl rfl rfl rfl rfl
          | false =>
            cases hc : s.recalibrate with
            | true =>
              rw [do_hd_request_recal hw fuel s r rest _ hq hv ht hr hc]
              exact (issued_hd_out hw _ _ _ _ _ _ _ _).dispatched.congr_left
                rfl rfl rfl rfl rfl rfl
            | false =>
              by_cases hw1 : r.cmd = WRITE
              · rw [do_hd_request_write hw fuel s r rest cyl head sec hq hv ht hr hc hw1]
                have hI := issued_hd_out hw (MINOR r.dev / 5) r.nr_sectors sec head cyl
                  WIN_WRITE Handler.write_intr s
                cases hR : hd_out hw (MINOR r.dev / 5) r.nr_sectors sec head cyl
                    WIN_WRITE Handler.write_intr s with
                | stop w s1 =>
                  rw [hR] at hI
                  exact hI.dispatched
                | ret s1 =>
                  rw [hR] at hI
                  have hP := hI.polls (polls_drq_poll hw 3000 s1)
                  simp only [Res.bind]
                  split
                  · have hB := bumped_bad_rw_intr (drq_poll hw 3000 s1).2
                    cases hb : bad_rw_intr (drq_poll hw 3000 s1).2 with
                    | stop w s2 =>
                      rw [hb] at hB
                      exact dispatched_after_timeout hP hB (Dispatched.unchanged _)
                    | ret s2 =>
                      rw [hb] at hB
                      exact dispatched_after_timeout hP hB (ih s2)
                  · exact hP.dispatched_port_write _ _ _
              · by_cases hr1 : r.cmd = READ
                · rw [do_hd_request_read hw fuel s r rest cyl head sec hq hv ht hr hc hr1]
                  exact (issued_hd_out hw _ _ _ _ _ _ _ _).dispatched
                · rw [do_hd_request_unknown hw fuel s r rest _ hq hv ht hr hc hw1 hr1]
                  exact Dispatched.unchanged s

/-! ## One command per dispatch pass -/

theorem commands_of_polls {s p : State} (h : Polls s p) : commands p.trace = commands s.trace := by
  obtain ⟨evs, q, h⟩ := h
  rw [h]
  simp [commands_append, q.1]

theorem controller_ready_first (hw : Nat → Nat) (s : State)
    (h : hw s.clock % 256 &&& 0xc0 = 0x40) :
    controller_ready hw s = (9999, (inb hw HD_STATUS s).2) := by
  unfold controller_ready
  rw [show (10000 : Nat) = 9999 + 1 from rfl, controller_ready_loop]
  simp [inb, h]

theorem hd_out_of_ready (hw : Nat → Nat) (drive nsect sect head cyl cmd : Nat) (intr : Handler)
    (s : State) (hd : drive ≤ 1) (hh : head ≤ 15) (h : hw s.clock % 256 &&& 0xc0 = 0x40) :
    hd_out hw drive nsect sect head cyl cmd intr s
      = Res.ret (command_block drive nsect sect head cyl cmd intr (inb hw HD_STATUS s).2) := by
  have hn : ¬ (drive > 1 ∨ head > 15) := by omega
  simp [hd_out, hn, controller_ready_first hw s h, command_block, outb]

theorem commands_command_block_trace (drive nsect sect head cyl cmd : Nat) (intr : Handler)
    (p : State) :
    commands (command_block drive nsect sect head cyl cmd intr p).trace
      = commands p.trace ++ [cmd % 256] := by
  unfold command_block
  simp only [commands_append, commands_command_block]

theorem drq_poll_timeout (hw : Nat → Nat) (h : ∀ t, hw t % 256 &&& DRQ_STAT = 0) (n : Nat)
    (s : State) : (drq_poll hw n s).1 = 0 := by
  induction n generalizing s with
  | zero => rfl
  | succ n ih =>
    unfold drq_poll
    simp [inb, h, ih]

/-- One pass of the dispatcher over a WRITE request whose data request never
shows: the command is issued, the poll runs out, the error counter is raised
and the loop restarts on the same request. -/
theorem timeout_pass (hw : Nat → Nat) (hready : ∀ t, hw t % 256 &&& 0xc0 = 0x40)
    (hnodrq : ∀ t, hw t % 256 &&& DRQ_STAT = 0) (fuel : Nat) (s : State) (r : request)
    (cyl head sec : Nat) (hq : s.queue = [r]) (hv : ¬ rejected s r)
    (ht : translate (s.hd_info (MINOR r.dev / 5)) (abs_sector s r) = some (cyl, head, sec))
    (hd : MINOR r.dev / 5 ≤ 1) (hh : head ≤ 15)
    (hr : s.reset = false) (hc : s.recalibrate = false) (hw1 : r.cmd = WRITE)
    (he : i32 (r.errors + 1) < MAX_ERRORS) :
    ∃ s2, do_hd_request hw (fuel + 1) s = do_hd_request hw fuel s2 ∧
      s2.queue = [{ r with errors := i32 (r.errors + 1) }] ∧
      commands s2.trace = commands s.trace ++ [WIN_WRITE] ∧
      s2.NR_HD = s.NR_HD ∧ s2.hd_info = s.hd_info ∧ s2.hd = s.hd ∧
      s2.recalibrate = false ∧
      s2.reset = decide (MAX_ERRORS / 2 < i32 (r.errors + 1)) := by
  rw [do_hd_request_write hw fuel s r [] cyl head sec hq hv ht hr hc hw1,
    hd_out_of_ready hw _ _ _ _ _ _ _ s hd hh (hready _)]
  simp only [Res.bind]
  rw [if_pos (drq_poll_timeout hw hnodrq _ _)]
  generalize hs1 : command_block (MINOR r.dev / 5) r.nr_sectors sec head cyl WIN_WRITE
    Handler.write_intr (inb hw HD_STATUS s).2 = s1
  have hP := polls_drq_poll hw 3000 s1
  have hc1 : commands s1.trace = commands s.trace ++ [WIN_WRITE] := by
    rw [← hs1, commands_command_block_trace,
      commands_of_polls (polls_inb hw HD_STATUS s)]
    rfl
  obtain ⟨evs, q, hp⟩ := hP
  have f1 : s1.queue = [r] := by rw [← hs1]; exact hq
  have f2 : s1.reset = false := by rw [← hs1]; exact hr
  have f3 : s1.recalibrate = false := by rw [← hs1]; exact hc
  have f4 : s1.NR_HD = s.NR_HD := by rw [← hs1]; rfl
  have f5 : s1.hd_info = s.hd_info := by rw [← hs1]; rfl
  have f6 : s1.hd = s.hd := by rw [← hs1]; rfl
  have hq2 : (drq_poll hw 3000 s1).2.queue = [r] := by rw [hp]; exact f1
  rw [bad_rw_intr_stay _ r [] hq2 he]
  refine ⟨_, rfl, rfl, ?_, ?_, ?_, ?_, ?_, ?_⟩
  · rw [hp]
    simp [commands_append, q.1, hc1]
  · rw [hp]; exact f4
  · rw [hp]; exact f5
  · rw [hp]; exact f6
  · rw [hp]; exact f3
  · rw [hp]; simp [f2]

/-- The pass of the dispatcher that finds the reset flag set, on a controller
that always shows ready: `reset_hd` sends WIN_SPECIFY. -/
theorem reset_pass (hw : Nat → Nat) (hready : ∀ t, hw t % 256 &&& 0xc0 = 0x40)
    (fuel : Nat) (s : State) (r : request) (rest : List request) (c : Nat × Nat × Nat)
    (hq : s.queue = r :: rest) (hv : ¬ rejected s r)
    (ht : translate (s.hd_info (MINOR r.dev / 5)) (abs_sector s r) = some c)
    (hd : CURRENT_DEV r ≤ 1) (hh : u32 ((s.hd_info (CURRENT_DEV r)).head - 1) ≤ 15)
    (hr : s.reset = true) :
    ∃ s2, do_hd_request hw (fuel + 1) s = Res.ret s2 ∧
      commands s2.trace = commands s.trace ++ [WIN_SPECIFY] := by
  rw [do_hd_request_reset hw fuel s r rest c hq hv ht hr]
  unfold reset_hd
  have hP := polls_reset_controller hw { s with reset := false, recalibrate := true }
  generalize reset_controller hw { s with reset := false, recalibrate := true } = p at hP
  have hi : p.hd_info = s.hd_info := by
    obtain ⟨evs, -, hp⟩ := hP
    rw [hp]
  dsimp only
  rw [hd_out_of_ready hw _ _ _ _ _ _ _ p hd (by rw [hi]; exact hh) (hready _)]
  refine ⟨_, rfl, ?_⟩
  rw [commands_command_block_trace, commands_of_polls (polls_inb hw HD_STATUS p),
    commands_of_polls hP]
  rfl

/-- C3 (one command per dispatch pass), refuted as stated.  A single invocation
of `do_hd_request` on one WRITE request, with a controller that is ready but
never raises its data request, sends five commands: WIN_WRITE four times, each
after the poll for the data request of the one before ran out and the loop
restarted, and then WIN_SPECIFY. -/
theorem several_commands_in_one_invocation :
    ∃ s', do_hd_request hw_no_drq 5
        (machine_A false false [⟨0x300, WRITE, 0, 0, 2, 0x10000⟩]) = Res.ret s' ∧
      commands s'.trace = [WIN_WRITE, WIN_WRITE, WIN_WRITE, WIN_WRITE, WIN_SPECIFY] := by
  have hready : ∀ t, hw_no_drq t % 256 &&& 0xc0 = 0x40 := by
    intro t
    show 0x50 % 256 &&& 0xc0 = 0x40
    decide
  have hnodrq : ∀ t, hw_no_drq t % 256 &&& DRQ_STAT = 0 := by
    intro t
    show 0x50 % 256 &&& DRQ_STAT = 0
    decide
  have key : ∀ (s : State) (e : Int), s.NR_HD = 1 → s.hd_info = (machine_A false false []).hd_info →
      s.hd = (machine_A false false []).hd →
      (¬ rejected s ⟨0x300, WRITE, e, 0, 2, 0x10000⟩) ∧
      translate (s.hd_info (MINOR (0x300 : Nat) / 5)) (abs_sector s ⟨0x300, WRITE, e, 0, 2, 0x10000⟩)
        = some (0, 0, 1) := by
    intro s e h1 h2 h3
    constructor
    · unfold rejected
      rw [h1, h3]
      dsimp only
      decide
    · unfold abs_sector
      rw [h2, h3]
      dsimp only
      decide
  obtain ⟨s1, e1, q1, c1, n1, i1, d1, r1, x1⟩ := timeout_pass hw_no_drq hready hnodrq 4
    (machine_A false false [⟨0x300, WRITE, 0, 0, 2, 0x10000⟩]) ⟨0x300, WRITE, 0, 0, 2, 0x10000⟩
    0 0 1 rfl (key _ _ rfl rfl rfl).1 (key _ _ rfl rfl rfl).2 (by decide) (by decide) rfl rfl rfl
    (by decide)
  obtain ⟨s2, e2, q2, c2, n2, i2, d2, r2, x2⟩ := timeout_pass hw_no_drq hready hnodrq 3
    s1 _ 0 0 1 q1 (key _ _ n1 i1 d1).1 (key _ _ n1 i1 d1).2 (by decide) (by decide)
    (by rw [x1]; decide) r1 rfl (by decide)
  obtain ⟨s3, e3, q3, c3, n3, i3, d3, r3, x3⟩ := timeout_pass hw_no_drq hready hnodrq 2
    s2 _ 0 0 1 q2 (key _ _ (n2.trans n1) (i2.trans i1) (d2.trans d1)).1
    (key _ _ (n2.trans n1) (i2.trans i1) (d2.trans d1)).2 (by decide) (by decide)
    (by rw [x2]; decide) r2 rfl (by decide)
  obtain ⟨s4, e4, q4, c4, n4, i4, d4, r4, x4⟩ := timeout_pass hw_no_drq hready hnodrq 1
    s3 _ 0 0 1 q3 (key _ _ (n3.trans (n2.trans n1)) (i3.trans (i2.trans i1))
      (d3.trans (d2.trans d1))).1
    (key _ _ (n3.trans (n2.trans n1)) (i3.trans (i2.trans i1)) (d3.trans (d2.trans d1))).2
    (by decide) (by decide) (by rw [x3]; decide) r3 rfl (by decide)
  have i4' : s4.hd_info = (machine_A false false []).hd_info :=
    i4.trans (i3.trans (i2.trans i1))
  obtain ⟨s5, e5, c5⟩ := reset_pass hw_no_drq hready 0 s4 _ [] (0, 0, 1) q4
    (key _ _ (n4.trans (n3.trans (n2.trans n1))) i4' (d4.trans (d3.trans (d2.trans d1)))).1
    (key _ _ (n4.trans (n3.trans (n2.trans n1))) i4' (d4.trans (d3.trans (d2.trans d1)))).2
    (by decide) (by rw [i4']; decide) (by rw [x4]; decide)
  refine ⟨s5, by rw [e1, e2, e3, e4, e5], ?_⟩
  rw [c5, c4, c3, c2, c1]
  rfl

/-- C3 as amended.  A single invocation of `do_hd_request` sends at most one
command per pass of its loop: the number of opcodes it writes to the command
register is at most one more than the number of calls of `bad_rw_intr` it makes
(one for each WRITE whose poll for the data request ran out before the loop
restarted).  An invocation in which no such poll runs out sends at most one
command. -/
theorem one_command_per_pass (hw : Nat → Nat) (fuel : Nat) (s : State) :
    (commands (events_since s (do_hd_request hw fuel s).state)).length
      ≤ 1 + ((do_hd_request hw fuel s).state.bad_rw_calls - s.bad_rw_calls) ∧
    ((do_hd_request hw fuel s).state.bad_rw_calls = s.bad_rw_calls →
      (commands (events_since s (do_hd_request hw fuel s).state)).length ≤ 1) := by
  obtain ⟨-, -, -, -, -, ⟨evs, h1, h2⟩, -⟩ := dispatched_do_hd_request hw fuel s
  rw [events_since_of_trace h1]
  refine ⟨h2, fun h => ?_⟩
  rw [h] at h2
  simpa using h2

/-! ## Reset escalation -/

theorem bad_rw_intr_count (s : State) (r : request) (rest : List request) (e : Int)
    (h0 : 0 ≤ e) (h6 : e < 6) (hs : s.queue = { r with errors := e } :: rest) :
    bad_rw_intr s = Res.ret
      { s with bad_rw_calls := s.bad_rw_calls + 1,
               queue := { r with errors := e + 1 } :: rest,
               reset := s.reset || decide (MAX_ERRORS / 2 < e + 1) } := by
  have e1 : i32 (e + 1) = e + 1 := i32_of_range _ (by omega) (by omega)
  have := bad_rw_intr_stay s _ rest hs (by dsimp only; rw [e1]; unfold MAX_ERRORS; omega)
  dsimp only at this
  rw [e1] at this
  exact this

theorem reset_pass_only_specify (hw : Nat → Nat) (fuel : Nat) (s : State) (r : request)
    (rest : List request) (hq : s.queue = r :: rest) (hr : s.reset = true)
    (hv : ¬ rejected s r)
    (ht : translate (s.hd_info (MINOR r.dev / 5)) (abs_sector s r) ≠ none) :
    do_hd_request hw (fuel + 1) s
      = reset_hd hw (CURRENT_DEV r) { s with reset := false, recalibrate := true } ∧
    ∀ c ∈ commands (events_since s (do_hd_request hw (fuel + 1) s).state), c = WIN_SPECIFY := by
  obtain ⟨c, hc⟩ := Option.ne_none_iff_exists'.mp ht
  have eq := do_hd_request_reset hw fuel s r rest c hq hv hc hr
  refine ⟨eq, ?_⟩
  rw [eq]
  obtain ⟨evs, hcm, -, -, hst⟩ :=
    issued_reset_hd hw (CURRENT_DEV r) { s with reset := false, recalibrate := true }
  have htr : (reset_hd hw (CURRENT_DEV r)
      { s with reset := false, recalibrate := true }).state.trace = s.trace ++ evs := by
    rw [hst]
  rw [events_since_of_trace htr]
  intro c hc
  rcases hcm with h | h <;> rw [h] at hc
  · simp at hc
  · simpa [WIN_SPECIFY] using hc

/-- C5 (reset escalation).  Take a request whose error counter is 0 and four
calls of `bad_rw_intr` on it, between which the state may change in any way
that leaves the queue alone (dispatcher passes that re-issue the command,
status reads).  The first three calls leave the reset flag as they found it;
the fourth returns with the counter at 4 and the reset flag set.  If the
request passes the dispatcher's validation and its geometry translates, the
next dispatcher pass is the reset path: it clears the flag, sets
`recalibrate`, runs `reset_hd`, and the only opcode it can send is
WIN_SPECIFY, not the READ/WRITE of the request. -/
theorem reset_escalation (hw : Nat → Nat) (fuel : Nat) (s1 s2 s3 s4 : State) (r : request)
    (rest : List request) (hq : s1.queue = r :: rest) (he : r.errors = 0)
    (h2 : s2.queue = (bad_rw_intr s1).state.queue)
    (h3 : s3.queue = (bad_rw_intr s2).state.queue)
    (h4 : s4.queue = (bad_rw_intr s3).state.queue) :
    (bad_rw_intr s1).state.reset = s1.reset ∧
    (bad_rw_intr s2).state.reset = s2.reset ∧
    (bad_rw_intr s3).state.reset = s3.reset ∧
    bad_rw_intr s4 = Res.ret (bad_rw_intr s4).state ∧
    (bad_rw_intr s4).state.reset = true ∧
    (bad_rw_intr s4).state.queue = { r with errors := 4 } :: rest ∧
    (¬ rejected (bad_rw_intr s4).state r →
      translate ((bad_rw_intr s4).state.hd_info (MINOR r.dev / 5))
        (abs_sector (bad_rw_intr s4).state r) ≠ none →
      do_hd_request hw (fuel + 1) (bad_rw_intr s4).state
        = reset_hd hw (CURRENT_DEV r)
            { (bad_rw_intr s4).state with reset := false, recalibrate := true } ∧
      ∀ c ∈ commands (events_since (bad_rw_intr s4).state
          (do_hd_request hw (fuel + 1) (bad_rw_intr s4).state).state), c = WIN_SPECIFY) := by
  have b1 : bad_rw_intr s1 = Res.ret
      { s1 with bad_rw_calls := s1.bad_rw_calls + 1,
                queue := { r with errors := 1 } :: rest } := by
    rw [bad_rw_intr_count s1 r rest 0 (by decide) (by decide) (by rw [hq, ← he])]
    simp [MAX_ERRORS]
  rw [b1] at h2
  have b2 : bad_rw_intr s2 = Res.ret
      { s2 with bad_rw_calls := s2.bad_rw_calls + 1,
                queue := { r with errors := 2 } :: rest } := by
    rw [bad_rw_intr_count s2 r rest 1 (by decide) (by decide) h2]
    simp [MAX_ERRORS]
  rw [b2] at h3
  have b3 : bad_rw_intr s3 = Res.ret
      { s3 with bad_rw_calls := s3.bad_rw_calls + 1,
                queue := { r with errors := 3 } :: rest } := by
    rw [bad_rw_intr_count s3 r rest 2 (by decide) (by decide) h3]
    simp [MAX_ERRORS]
  rw [b3] at h4
  have b4 : bad_rw_intr s4 = Res.ret
      { s4 with bad_rw_calls := s4.bad_rw_calls + 1,
                queue := { r with errors := 4 } :: rest,
                reset := true } := by
    rw [bad_rw_intr_count s4 r rest 3 (by decide) (by decide) h4]
    simp [MAX_ERRORS]
  rw [b1, b2, b3, b4]
  refine ⟨rfl, rfl, rfl, rfl, rfl, rfl, ?_⟩
  exact fun hv ht =>
    reset_pass_only_specify hw fuel _ { r with errors := 4 } rest rfl rfl hv ht

/-- Witness of C5: a READ request on the machine of scenario A, the four error
calls following each other directly; the dispatcher pass after the fourth sends
WIN_SPECIFY. -/
theorem reset_escalation_witness :
    (bad_rw_intr (machine_A false false [⟨0x300, READ, 3, 0, 2, 0x10000⟩])).state.reset = true ∧
    (bad_rw_intr (machine_A false false [⟨0x300, READ, 3, 0, 2, 0x10000⟩])).state.queue
      = [⟨0x300, READ, 4, 0, 2, 0x10000⟩] ∧
    ∀ c ∈ commands (events_since
        (bad_rw_intr (machine_A false false [⟨0x300, READ, 3, 0, 2, 0x10000⟩])).state
        (do_hd_request hw_good 1
          (bad_rw_intr (machine_A false false [⟨0x300, READ, 3, 0, 2, 0x10000⟩])).state).state),
      c = WIN_SPECIFY :=
  have h := (reset_escalation hw_good 0
    (machine_A false false [⟨0x300, READ, 0, 0, 2, 0x10000⟩])
    (machine_A false false [⟨0x300, READ, 1, 0, 2, 0x10000⟩])
    (machine_A false false [⟨0x300, READ, 2, 0, 2, 0x10000⟩])
    (machine_A false false [⟨0x300, READ, 3, 0, 2, 0x10000⟩])
    ⟨0x300, READ, 0, 0, 2, 0x10000⟩ [] rfl rfl rfl rfl rfl).2.2.2.2
  ⟨h.1, h.2.1, (h.2.2 (by decide) (by decide)).2⟩

/-! ## Error counter monotonicity -/

theorem Polls.dispatched_trans {s p s' : State} (h1 : Polls s p) (h : Dispatched p s') :
    Dispatched s s' := by
  obtain ⟨e1, q1, h1⟩ := h1
  obtain ⟨d1, d2, d3, d4, d5, ⟨e3, d6, d7⟩, d8⟩ := h
  have pq : p.queue = s.queue := by rw [h1]
  have pc : p.bad_rw_calls = s.bad_rw_calls := by rw [h1]
  have pt : p.trace = s.trace ++ e1 := by rw [h1]
  have pn : p.NR_HD = s.NR_HD := by rw [h1]
  have pi : p.hd_info = s.hd_info := by rw [h1]
  have ph : p.hd = s.hd := by rw [h1]
  rw [pq, pc] at d8
  refine ⟨by rw [d1, pn], by rw [d2, pi], by rw [d3, ph], by omega, by rw [← pq]; exact d5,
    ⟨e1 ++ e3, ?_, ?_⟩, d8⟩
  · rw [d6, pt]; simp
  · rw [commands_append, q1.1]
    simpa [pc] using d7

theorem dispatched_bad_rw_intr (s : State) : Dispatched s (bad_rw_intr s).state :=
  dispatched_after_timeout (@Polls.to_issued 0 _ _ (Polls.refl s)) (bumped_bad_rw_intr s)
    (Dispatched.unchanged _)

theorem dispatched_error_path (hw : Nat → Nat) (fuel : Nat) (s : State) :
    Dispatched s ((bad_rw_intr s).bind (do_hd_request hw fuel)).state := by
  have hB := bumped_bad_rw_intr s
  cases hb : bad_rw_intr s with
  | stop w s2 =>
    rw [hb] at hB
    exact dispatched_after_timeout (@Polls.to_issued 0 _ _ (Polls.refl s)) hB (Dispatched.unchanged _)
  | ret s2 =>
    rw [hb] at hB
    exact dispatched_after_timeout (@Polls.to_issued 0 _ _ (Polls.refl s)) hB
      (dispatched_do_hd_request hw fuel s2)

theorem dispatched_recal_intr (hw : Nat → Nat) (fuel : Nat) (s : State) :
    Dispatched s (recal_intr hw fuel s).state := by
  unfold recal_intr
  dsimp only
  split
  · exact (polls_win_result hw s).dispatched_trans (dispatched_error_path hw fuel _)
  · exact (polls_win_result hw s).dispatched_trans (dispatched_do_hd_request hw fuel _)

theorem handler_error_path (hw : Nat → Nat) (fuel : Nat) (s : State)
    (h : (win_result hw s).1 ≠ 0) :
    read_intr hw fuel s = (bad_rw_intr (win_result hw s).2).bind (do_hd_request hw fuel) ∧
    write_intr hw fuel s = (bad_rw_intr (win_result hw s).2).bind (do_hd_request hw fuel) ∧
    recal_intr hw fuel s = (bad_rw_intr (win_result hw s).2).bind (do_hd_request hw fuel) := by
  simp [read_intr, write_intr, recal_intr, h]

theorem read_intr_more (hw : Nat → Nat) (fuel : Nat) (s : State) (r : request)
    (rest : List request) (hok : (win_result hw s).1 = 0)
    (hq : (win_result hw s).2.queue = r :: rest)
    (hn : (r.nr_sectors + (U32 - 1)) % U32 ≠ 0) :
    read_intr hw fuel s = Res.ret
      { port_read HD_DATA r.buffer 256 (win_result hw s).2 with
        queue := { r with errors := 0, buffer := (r.buffer + 512) % U32,
                          sector := (r.sector + 1) % U32,
                          nr_sectors := (r.nr_sectors + (U32 - 1)) % U32 } :: rest,
        do_hd := some Handler.read_intr } := by
  simp [read_intr, hok, hq, hn]

theorem read_intr_last (hw : Nat → Nat) (fuel : Nat) (s : State) (r : request)
    (rest : List request) (hok : (win_result hw s).1 = 0)
    (hq : (win_result hw s).2.queue = r :: rest)
    (hn : (r.nr_sectors + (U32 - 1)) % U32 = 0) :
    read_intr hw fuel s = do_hd_request hw fuel (end_request 1
      { port_read HD_DATA r.buffer 256 (win_result hw s).2 with
        queue := { r with errors := 0, buffer := (r.buffer + 512) % U32,
                          sector := (r.sector + 1) % U32,
                          nr_sectors := (r.nr_sectors + (U32 - 1)) % U32 } :: rest }) := by
  simp [read_intr, hok, hq, hn]

theorem write_intr_more (hw : Nat → Nat) (fuel : Nat) (s : State) (r : request)
    (rest : List request) (hok : (win_result hw s).1 = 0)
    (hq : (win_result hw s).2.queue = r :: rest)
    (hn : (r.nr_sectors + (U32 - 1)) % U32 ≠ 0) :
    write_intr hw fuel s = Res.ret (port_write HD_DATA ((r.buffer + 512) % U32) 256
      { (win_result hw s).2 with
        queue := { r with nr_sectors := (r.nr_sectors + (U32 - 1)) % U32,
                          sector := (r.sector + 1) % U32,
                          buffer := (r.buffer + 512) % U32 } :: rest,
        do_hd := some Handler.write_intr }) := by
  simp [write_intr, hok, hq, hn]

theorem write_intr_last (hw : Nat → Nat) (fuel : Nat) (s : State) (r : request)
    (rest : List request) (hok : (win_result hw s).1 = 0)
    (hq : (win_result hw s).2.queue = r :: rest)
    (hn : (r.nr_sectors + (U32 - 1)) % U32 = 0) :
    write_intr hw fuel s = do_hd_request hw fuel (end_request 1
      { (win_result hw s).2 with
        queue := { r with nr_sectors := (r.nr_sectors + (U32 - 1)) % U32 } :: rest }) := by
  simp [write_intr, hok, hq, hn]

/-- C7 (error counter monotonicity).  Let a step of the driver
(`do_hd_request`, `read_intr`, `write_intr`, `recal_intr` or `bad_rw_intr`)
run on a state whose current request `r` has an `int` error counter below
`INT_MAX`, and let the request still be at the head of the queue afterwards (the
queue has kept its length).  Then the rest of the queue is unchanged and
either the counter has grown by exactly the number of calls of `bad_rw_intr`
made during the step, so that it did not decrease, each call added exactly 1 and
nothing else added anything; or the step is `read_intr` with a good status,
which transferred a sector and reset the counter to 0.  A step that is a call of
`bad_rw_intr` adds exactly 1. -/
theorem error_counter_monotone (hw : Nat → Nat) (fuel : Nat) (st : Step) (s : State)
    (r : request) (rest : List request) (hq : s.queue = r :: rest)
    (hlo : -2147483648 ≤ r.errors) (hhi : r.errors < 2147483647)
    (hl : (st.run hw fuel s).state.queue.length = s.queue.length) :
    ∃ r', (st.run hw fuel s).state.queue = r' :: rest ∧
      s.bad_rw_calls ≤ (st.run hw fuel s).state.bad_rw_calls ∧
      ((r'.errors = r.errors
          + (((st.run hw fuel s).state.bad_rw_calls : Int) - s.bad_rw_calls) ∧
        r.errors ≤ r'.errors) ∨
       (st = Step.read_intr ∧ (win_result hw s).1 = 0 ∧ r'.errors = 0 ∧
        (st.run hw fuel s).state.bad_rw_calls = s.bad_rw_calls)) ∧
      (st = Step.bad_rw_intr → r'.errors = r.errors + 1) := by
  have of_dispatched : ∀ S' : State, Dispatched s S' → S'.queue.length = s.queue.length →
      ∃ r', S'.queue = r' :: rest ∧ s.bad_rw_calls ≤ S'.bad_rw_calls ∧
        (r'.errors = r.errors + ((S'.bad_rw_calls : Int) - s.bad_rw_calls) ∧
          r.errors ≤ r'.errors) := by
    intro S' hD hlen
    obtain ⟨-, -, -, d4, -, -, d8⟩ := hD
    refine ⟨_, d8 hlen r rest hq hlo hhi, d4, rfl, ?_⟩
    dsimp only
    omega
  have hP := polls_win_result hw s
  have pq : (win_result hw s).2.queue = r :: rest := by
    obtain ⟨e1, -, h1⟩ := hP
    rw [h1]; exact hq
  have pc : (win_result hw s).2.bad_rw_calls = s.bad_rw_calls := by
    obtain ⟨e1, -, h1⟩ := hP
    rw [h1]
  cases st with
  | do_hd_request =>
    obtain ⟨r', h1, h2, h3⟩ := of_dispatched _ (dispatched_do_hd_request hw fuel s) hl
    exact ⟨r', h1, h2, Or.inl h3, fun h => by cases h⟩
  | recal_intr =>
    obtain ⟨r', h1, h2, h3⟩ := of_dispatched _ (dispatched_recal_intr hw fuel s) hl
    exact ⟨r', h1, h2, Or.inl h3, fun h => by cases h⟩
  | bad_rw_intr =>
    obtain ⟨r', h1, h2, h3⟩ := of_dispatched _ (dispatched_bad_rw_intr s) hl
    refine ⟨r', h1, h2, Or.inl h3, fun _ => ?_⟩
    have hB := (bumped_bad_rw_intr s).2.2.2.2.2.2.1
    rw [h3.1, hB]
    push_cast
    ring
  | read_intr =>
    simp only [Step.run] at hl ⊢
    by_cases hw0 : (win_result hw s).1 ≠ 0
    · rw [(handler_error_path hw fuel s hw0).1] at hl ⊢
      obtain ⟨r', h1, h2, h3⟩ := of_dispatched _
        (hP.dispatched_trans (dispatched_error_path hw fuel _)) hl
      exact ⟨r', h1, h2, Or.inl h3, fun h => by cases h⟩
    · have hok := not_not.mp hw0
      by_cases hn : (r.nr_sectors + (U32 - 1)) % U32 = 0
      · exfalso
        rw [read_intr_last hw fuel s r rest hok pq hn] at hl
        have h5 := (dispatched_do_hd_request hw fuel (end_request 1
          { port_read HD_DATA r.buffer 256 (win_result hw s).2 with
            queue := { r with errors := 0, buffer := (r.buffer + 512) % U32,
                              sector := (r.sector + 1) % U32,
                              nr_sectors := (r.nr_sectors + (U32 - 1)) % U32 } :: rest })).2.2.2.2.1
        rw [hq] at hl
        simp only [end_request, List.length_cons] at h5 hl
        omega
      · rw [read_intr_more hw fuel s r rest hok pq hn]
        refine ⟨_, rfl, ?_, Or.inr ⟨trivial, hok, rfl, ?_⟩, fun h => by cases h⟩
        · simp [Res.state, port_read, pc]
        · simp [Res.state, port_read, pc]
  | write_intr =>
    simp only [Step.run] at hl ⊢
    by_cases hw0 : (win_result hw s).1 ≠ 0
    · rw [(handler_error_path hw fuel s hw0).2.1] at hl ⊢
      obtain ⟨r', h1, h2, h3⟩ := of_dispatched _
        (hP.dispatched_trans (dispatched_error_path hw fuel _)) hl
      exact ⟨r', h1, h2, Or.inl h3, fun h => by cases h⟩
    · have hok := not_not.mp hw0
      by_cases hn : (r.nr_sectors + (U32 - 1)) % U32 = 0
      · exfalso
        rw [write_intr_last hw fuel s r rest hok pq hn] at hl
        have h5 := (dispatched_do_hd_request hw fuel (end_request 1
          { (win_result hw s).2 with
            queue := { r with nr_sectors := (r.nr_sectors + (U32 - 1)) % U32 } :: rest })).2.2.2.2.1
        rw [hq] at hl
        simp only [end_request, List.length_cons] at h5 hl
        omega
      · rw [write_intr_more hw fuel s r rest hok pq hn]
        refine ⟨_, rfl, ?_, Or.inl ⟨?_, ?_⟩, fun h => by cases h⟩
        · simp [Res.state, port_write, pc]
        · simp [Res.state, port_write, pc]
        · simp [Res.state, port_write]

/-- Witness of C7: a call of `bad_rw_intr` on a request with two errors. -/
theorem error_counter_monotone_witness :
    ∃ r', (bad_rw_intr (machine_A false false [⟨0x300, READ, 2, 0, 2, 0x10000⟩])).state.queue
        = [r'] ∧ r'.errors = 3 :=
  (error_counter_monotone hw_good 1 Step.bad_rw_intr
    (machine_A false false [⟨0x300, READ, 2, 0, 2, 0x10000⟩]) ⟨0x300, READ, 2, 0, 2, 0x10000⟩ []
    rfl (by decide) (by decide) rfl).elim
    fun r' h => ⟨r', h.1, (h.2.2.2 rfl).trans (by decide)⟩

/-! ## Scenario C -/

/-- C8 (scenario C for both kinds), evaluated where the code and the claim
part.  A WRITE request of two sectors, flags clear, counter 0: the first two
attempts complete with an error status, the third with a good one.  After the
three completions the error counter is 1, 2 and again 2: `write_intr` does not
clear it when a sector went well.  The reset flag stays clear, three WIN_WRITE
were sent and the second sector was pushed after the third completion.  For
the READ request the counter is 1, 2, 0. -/
theorem write_success_keeps_error_count :
    ((interrupts hw_C_write 1 1
        (do_hd_request hw_C_write 1 (machine_A false false [request_C_write])).state
      ).state.queue.map (fun r => r.errors) = [1]) ∧
    ((interrupts hw_C_write 1 2
        (do_hd_request hw_C_write 1 (machine_A false false [request_C_write])).state
      ).state.queue.map (fun r => r.errors) = [2]) ∧
    ((interrupts hw_C_write 1 3
        (do_hd_request hw_C_write 1 (machine_A false false [request_C_write])).state
      ).state.queue.map (fun r => r.errors) = [2]) ∧
    ((interrupts hw_C_write 1 3
        (do_hd_request hw_C_write 1 (machine_A false false [request_C_write])).state
      ).state.reset = false) ∧
    (commands (interrupts hw_C_write 1 3
        (do_hd_request hw_C_write 1 (machine_A false false [request_C_write])).state
      ).state.trace = [WIN_WRITE, WIN_WRITE, WIN_WRITE]) ∧
    (pushes (interrupts hw_C_write 1 3
        (do_hd_request hw_C_write 1 (machine_A false false [request_C_write])).state
      ).state.trace = [0x10000, 0x10000, 0x10000, 0x10200]) ∧
    ((interrupts hw_C_read 1 1
        (do_hd_request hw_C_read 1 (machine_A false false [request_C_read])).state
      ).state.queue.map (fun r => r.errors) = [1]) ∧
    ((interrupts hw_C_read 1 2
        (do_hd_request hw_C_read 1 (machine_A false false [request_C_read])).state
      ).state.queue.map (fun r => r.errors) = [2]) ∧
    ((interrupts hw_C_read 1 3
        (do_hd_request hw_C_read 1 (machine_A false false [request_C_read])).state
      ).state.queue.map (fun r => r.errors) = [0]) := by
  decide

/-! ## The mandatory initial reset and recalibration -/

theorem hd_out_ret {hw : Nat → Nat} {drive nsect sect head cyl cmd : Nat} {intr : Handler}
    {s s1 : State} (h : hd_out hw drive nsect sect head cyl cmd intr s = Res.ret s1) :
    ∃ p, Polls s p ∧ drive ≤ 1 ∧ head ≤ 15 ∧
      s1 = command_block drive nsect sect head cyl cmd intr p := by
  rcases hd_out_cases hw drive nsect sect head cyl cmd intr s with h' | ⟨p, hp, hd, hh, h' | h'⟩
  · rw [h'] at h; cases h
  · rw [h'] at h; cases h
  · rw [h'] at h
    exact ⟨p, hp, hd, hh, (Res.ret.inj h).symm⟩

theorem Polls.fields {s p : State} (h : Polls s p) :
    p.queue = s.queue ∧ p.NR_HD = s.NR_HD ∧ p.hd_info = s.hd_info ∧ p.hd = s.hd ∧
    p.bad_rw_calls = s.bad_rw_calls ∧ p.reset = s.reset ∧ p.recalibrate = s.recalibrate ∧
    p.do_hd = s.do_hd ∧
    ∃ evs, p.trace = s.trace ++ evs ∧ commands evs = [] ∧ pushes evs = [] ∧
      completions evs = [] := by
  obtain ⟨evs, q, h⟩ := h
  rw [h]
  exact ⟨rfl, rfl, rfl, rfl, rfl, rfl, rfl, rfl, evs, rfl, q.1, q.2.1, q.2.2⟩

theorem sent_of_polls_command_block {s p : State} (hp : Polls s p)
    (drive nsect sect head cyl cmd : Nat) (intr : Handler) (hcmd : cmd < 256) :
    Sent cmd s (command_block drive nsect sect head cyl cmd intr p) ∧
    (command_block drive nsect sect head cyl cmd intr p).reset = s.reset ∧
    (command_block drive nsect sect head cyl cmd intr p).recalibrate = s.recalibrate ∧
    (command_block drive nsect sect head cyl cmd intr p).do_hd = some intr ∧
    pushes (events_since s (command_block drive nsect sect head cyl cmd intr p)) = [] := by
  obtain ⟨f1, f2, f3, f4, f5, f6, f7, -, evs, f9, f10, f11, f12⟩ := hp.fields
  have ht : (command_block drive nsect sect head cyl cmd intr p).trace
      = s.trace ++ (evs ++
        [Event.outb (u32 (p.hd_info drive).ctl % 256) HD_CMD,
         Event.outb (u32 ((p.hd_info drive).wpcom >>> 2) % 256) (HD_DATA + 1),
         Event.outb (nsect % 256) (HD_DATA + 2),
         Event.outb (sect % 256) (HD_DATA + 3),
         Event.outb (cyl % 256) (HD_DATA + 4),
         Event.outb ((cyl >>> 8) % 256) (HD_DATA + 5),
         Event.outb ((0xA0 ||| (drive <<< 4) ||| head) % 256) (HD_DATA + 6),
         Event.outb (cmd % 256) (HD_DATA + 7)]) := by
    simp [command_block, f9]
  refine ⟨⟨f1, f2, f3, f4, f5, _, ht, ?_, ?_⟩, f6, f7, rfl, ?_⟩
  · rw [commands_append, f10, commands_command_block, Nat.mod_eq_of_lt hcmd]
    rfl
  · rw [completions_append, f12]
    rfl
  · rw [events_since_of_trace ht, pushes_append, f11]
    rfl

/-- The reset pass, when it returns. -/
theorem reset_pass_ret (hw : Nat → Nat) (fuel : Nat) (s s1 : State) (r : request)
    (rest : List request) (hq : s.queue = r :: rest) (hv : ¬ rejected s r)
    (hr : s.reset = true) (h : do_hd_request hw (fuel + 1) s = Res.ret s1) :
    Sent WIN_SPECIFY s s1 ∧ s1.reset = false ∧ s1.recalibrate = true ∧
    s1.do_hd = some Handler.recal_intr := by
  cases ht : translate (s.hd_info (MINOR r.dev / 5)) (abs_sector s r) with
  | none => rw [do_hd_request_divide hw fuel s r rest hq hv ht] at h; cases h
  | some c =>
    rw [do_hd_request_reset hw fuel s r rest c hq hv ht hr] at h
    unfold reset_hd at h
    dsimp only at h
    obtain ⟨p, hp, -, -, h1⟩ := hd_out_ret h
    have hP := (polls_reset_controller hw { s with reset := false, recalibrate := true }).trans hp
    rw [h1]
    obtain ⟨a, b, c, d, -⟩ := sent_of_polls_command_block hP (CURRENT_DEV r)
      (u32 ((reset_controller hw
        { s with reset := false, recalibrate := true }).hd_info (CURRENT_DEV r)).sect)
      (u32 ((reset_controller hw
        { s with reset := false, recalibrate := true }).hd_info (CURRENT_DEV r)).sect)
      (u32 (((reset_controller hw
        { s with reset := false, recalibrate := true }).hd_info (CURRENT_DEV r)).head - 1))
      (u32 ((reset_controller hw
        { s with reset := false, recalibrate := true }).hd_info (CURRENT_DEV r)).cyl)
      WIN_SPECIFY Handler.recal_intr (by decide)
    exact ⟨a, b, c, d⟩

/-- The recalibration pass, when it returns. -/
theorem recal_pass_ret (hw : Nat → Nat) (fuel : Nat) (s s1 : State) (r : request)
    (rest : List request) (hq : s.queue = r :: rest) (hv : ¬ rejected s r)
    (hr : s.reset = false) (hc : s.recalibrate = true)
    (h : do_hd_request hw (fuel + 1) s = Res.ret s1) :
    Sent WIN_RESTORE s s1 ∧ s1.reset = false ∧ s1.recalibrate = false ∧
    s1.do_hd = some Handler.recal_intr := by
  cases ht : translate (s.hd_info (MINOR r.dev / 5)) (abs_sector s r) with
  | none => rw [do_hd_request_divide hw fuel s r rest hq hv ht] at h; cases h
  | some c =>
    rw [do_hd_request_recal hw fuel s r rest c hq hv ht hr hc] at h
    obtain ⟨p, hp, -, -, h1⟩ := hd_out_ret h
    rw [h1]
    obtain ⟨a, b, c, d, -⟩ := sent_of_polls_command_block hp (MINOR r.dev / 5)
      (u32 (s.hd_info (CURRENT_DEV r)).sect) 0 0 0 WIN_RESTORE Handler.recal_intr (by decide)
    exact ⟨a, hr ▸ b, c, d⟩

theorem calls_error_path (hw : Nat → Nat) (fuel : Nat) (s : State) :
    s.bad_rw_calls + 1 ≤ ((bad_rw_intr s).bind (do_hd_request hw fuel)).state.bad_rw_calls := by
  have hB := (bumped_bad_rw_intr s).2.2.2.2.2.2.1
  cases hb : bad_rw_intr s with
  | stop w s2 =>
    rw [hb] at hB
    change s2.bad_rw_calls = _ at hB
    change _ ≤ s2.bad_rw_calls
    omega
  | ret s2 =>
    rw [hb] at hB
    have hD := (dispatched_do_hd_request hw fuel s2).2.2.2.1
    change s2.bad_rw_calls = _ at hB
    change _ ≤ (do_hd_request hw fuel s2).state.bad_rw_calls
    omega

/-- The pass that sends the command of the request, when it returns without a
call of `bad_rw_intr`. -/
theorem command_pass_ret (hw : Nat → Nat) (fuel : Nat) (s s1 : State) (r : request)
    (rest : List request) (hq : s.queue = r :: rest) (hv : ¬ rejected s r)
    (hr : s.reset = false) (hc : s.recalibrate = false)
    (h : do_hd_request hw (fuel + 1) s = Res.ret s1)
    (hn : s1.bad_rw_calls = s.bad_rw_calls) :
    (r.cmd = READ ∨ r.cmd = WRITE) ∧
    Sent (if r.cmd = READ then WIN_READ else WIN_WRITE) s s1 ∧ s1.reset = false ∧
    s1.recalibrate = false ∧
    s1.do_hd = some (if r.cmd = READ then Handler.read_intr else Handler.write_intr) ∧
    pushes (events_since s s1) = (if r.cmd = READ then [] else [r.buffer]) := by
  cases ht : translate (s.hd_info (MINOR r.dev / 5)) (abs_sector s r) with
  | none => rw [do_hd_request_divide hw fuel s r rest hq hv ht] at h; cases h
  | some c =>
    obtain ⟨cyl, head, sec⟩ := c
    by_cases hw1 : r.cmd = WRITE
    · have hnr : ¬ r.cmd = READ := by rw [hw1]; decide
      rw [do_hd_request_write hw fuel s r rest cyl head sec hq hv ht hr hc hw1] at h
      cases hR : hd_out hw (MINOR r.dev / 5) r.nr_sectors sec head cyl
          WIN_WRITE Handler.write_intr s with
      | stop w s0 => rw [hR] at h; cases h
      | ret s0 =>
        rw [hR] at h
        change (if (drq_poll hw 3000 s0).1 = 0 then
            (bad_rw_intr (drq_poll hw 3000 s0).2).bind (do_hd_request hw fuel)
          else Res.ret (port_write HD_DATA r.buffer 256 (drq_poll hw 3000 s0).2)) = Res.ret s1 at h
        obtain ⟨p, hp, -, -, h1⟩ := hd_out_ret hR
        obtain ⟨a, b, c, d, e⟩ := sent_of_polls_command_block hp (MINOR r.dev / 5)
          r.nr_sectors sec head cyl WIN_WRITE Handler.write_intr (by decide)
        rw [← h1] at a b c d e
        obtain ⟨g1, g2, g3, g4, g5, g6, g7, g8, evs, g9, g10, g11, g12⟩ :=
          (polls_drq_poll hw 3000 s0).fields
        obtain ⟨a1, a2, a3, a4, a5, ev0, a6, a7, a8⟩ := a
        split at h
        · exfalso
          have hc1 := calls_error_path hw fuel (drq_poll hw 3000 s0).2
          rw [h] at hc1
          simp only [Res.state] at hc1
          omega
        · have h2 := (Res.ret.inj h).symm
          have ht1 : s1.trace = s.trace ++ (ev0 ++ evs ++ [Event.port_write HD_DATA r.buffer 256])
              := by
            rw [h2]; simp [port_write, g9, a6]
          rw [if_neg hnr, if_neg hnr, if_neg hnr]
          refine ⟨Or.inr hw1, ⟨?_, ?_, ?_, ?_, ?_, _, ht1, ?_, ?_⟩, ?_, ?_, ?_, ?_⟩
          · rw [h2]; simp [port_write, g1, a1]
          · rw [h2]; simp [port_write, g2, a2]
          · rw [h2]; simp [port_write, g3, a3]
          · rw [h2]; simp [port_write, g4, a4]
          · rw [h2]; simp [port_write, g5, a5]
          · simp [commands_append, a7, g10, commands]
          · simp [completions_append, a8, g12, completions]
          · rw [h2]; simp [port_write, g6, b, hr]
          · rw [h2]; simp [port_write, g7, c, hc]
          · rw [h2]; simp [port_write, g8, d]
          · rw [events_since_of_trace ht1]
            rw [events_since_of_trace a6] at e
            simp [pushes_append, e, g11, pushes]
    · by_cases hr1 : r.cmd = READ
      · rw [do_hd_request_read hw fuel s r rest cyl head sec hq hv ht hr hc hr1] at h
        obtain ⟨p, hp, -, -, h1⟩ := hd_out_ret h
        obtain ⟨a, b, c, d, e⟩ := sent_of_polls_command_block hp (MINOR r.dev / 5)
          r.nr_sectors sec head cyl WIN_READ Handler.read_intr (by decide)
        rw [← h1] at a b c d e
        rw [if_pos hr1, if_pos hr1, if_pos hr1]
        exact ⟨Or.inl hr1, a, hr ▸ b, hc ▸ c, d, e⟩
      · rw [do_hd_request_unknown hw fuel s r rest _ hq hv ht hr hc hw1 hr1] at h
        cases h

theorem rejected_congr {s s' : State} (r : request) (h1 : s'.NR_HD = s.NR_HD)
    (h2 : s'.hd = s.hd) : rejected s' r ↔ rejected s r := by
  unfold rejected
  rw [h1, h2]

theorem Sent.after {c : Nat} {a p y : State} (hq : p.queue = a.queue)
    (hn : p.NR_HD = a.NR_HD) (hi : p.hd_info = a.hd_info) (hh : p.hd = a.hd)
    (hc : p.bad_rw_calls = a.bad_rw_calls)
    (ht : ∃ evs, p.trace = a.trace ++ evs ∧ commands evs = [] ∧ pushes evs = [] ∧
      completions evs = [])
    (h : Sent c p y) : Sent c a y := by
  obtain ⟨e1, t1, c1, -, d1⟩ := ht
  obtain ⟨s1, s2, s3, s4, s5, e2, t2, c2, d2⟩ := h
  refine ⟨s1.trans hq, s2.trans hn, s3.trans hi, s4.trans hh, s5.trans hc, e1 ++ e2, ?_, ?_, ?_⟩
  · rw [t2, t1, List.append_assoc]
  · rw [commands_append, c1, c2]; rfl
  · rw [completions_append, d1, d2]; rfl

theorem Sent.commands_since {c : Nat} {s s' : State} (h : Sent c s s') :
    commands (events_since s s') = [c] := by
  obtain ⟨-, -, -, -, -, evs, t, hc, -⟩ := h
  rw [events_since_of_trace t, hc]

theorem Sent.commands_since_three {c1 c2 c3 : Nat} {s s1 s2 s3 : State} (h1 : Sent c1 s s1)
    (h2 : Sent c2 s1 s2) (h3 : Sent c3 s2 s3) : commands (events_since s s3) = [c1, c2, c3] := by
  obtain ⟨-, -, -, -, -, e1, t1, hc1, -⟩ := h1
  obtain ⟨-, -, -, -, -, e2, t2, hc2, -⟩ := h2
  obtain ⟨-, -, -, -, -, e3, t3, hc3, -⟩ := h3
  have t : s3.trace = s.trace ++ (e1 ++ (e2 ++ e3)) := by
    rw [t3, t2, t1, List.append_assoc, List.append_assoc]
  rw [events_since_of_trace t, commands_append, commands_append, hc1, hc2, hc3]
  rfl

/-- A completion interrupt handled by `recal_intr` that returns without a call
of `bad_rw_intr` found a good status and went on into the dispatcher. -/
theorem recal_interrupt_ok (hw : Nat → Nat) (fuel : Nat) (s s' : State)
    (hd : s.do_hd = some Handler.recal_intr) (h : hd_interrupt hw fuel s = Res.ret s')
    (hn : s'.bad_rw_calls ≤ s.bad_rw_calls) :
    ∃ p, Polls { s with do_hd := none } p ∧ do_hd_request hw fuel p = Res.ret s' := by
  unfold hd_interrupt at h
  rw [hd] at h
  change recal_intr hw fuel { s with do_hd := none } = Res.ret s' at h
  unfold recal_intr at h
  dsimp only at h
  have hP := polls_win_result hw { s with do_hd := none }
  split at h
  · exfalso
    have hc := calls_error_path hw fuel (win_result hw { s with do_hd := none }).2
    rw [h] at hc
    have := hP.fields.2.2.2.2.1
    change s'.bad_rw_calls ≥ _ at hc
    change _ = s.bad_rw_calls at this
    omega
  · exact ⟨_, hP, h⟩

theorem calls_mono_hd_interrupt (hw : Nat → Nat) (fuel : Nat) (s : State) :
    s.bad_rw_calls ≤ (hd_interrupt hw fuel s).state.bad_rw_calls := by
  unfold hd_interrupt
  cases hd : s.do_hd with
  | none => exact le_refl _
  | some h =>
    have hP := polls_win_result hw { s with do_hd := none }
    have hc : (win_result hw { s with do_hd := none }).2.bad_rw_calls = s.bad_rw_calls :=
      hP.fields.2.2.2.2.1
    have herr : s.bad_rw_calls ≤ ((bad_rw_intr (win_result hw { s with do_hd := none }).2).bind
        (do_hd_request hw fuel)).state.bad_rw_calls := by
      have := calls_error_path hw fuel (win_result hw { s with do_hd := none }).2
      omega
    cases h with
    | recal_intr =>
      exact (dispatched_recal_intr hw fuel { s with do_hd := none }).2.2.2.1
    | read_intr =>
      change s.bad_rw_calls ≤ (read_intr hw fuel { s with do_hd := none }).state.bad_rw_calls
      by_cases hw0 : (win_result hw { s with do_hd := none }).1 ≠ 0
      · rw [(handler_error_path hw fuel _ hw0).1]
        exact herr
      · have hok := not_not.mp hw0
        cases hq : (win_result hw { s with do_hd := none }).2.queue with
        | nil =>
          have : read_intr hw fuel { s with do_hd := none }
              = Res.stop Stop.null_pointer (win_result hw { s with do_hd := none }).2 := by
            simp [read_intr, hok, hq]
          rw [this]
          exact le_of_eq hc.symm
        | cons r rest =>
          by_cases hn : (r.nr_sectors + (U32 - 1)) % U32 = 0
          · rw [read_intr_last hw fuel _ r rest hok hq hn]
            have := (dispatched_do_hd_request hw fuel (end_request 1
              { port_read HD_DATA r.buffer 256 (win_result hw { s with do_hd := none }).2 with
                queue := { r with errors := 0, buffer := (r.buffer + 512) % U32,
                                  sector := (r.sector + 1) % U32,
                                  nr_sectors := (r.nr_sectors + (U32 - 1)) % U32 } :: rest
              })).2.2.2.1
            simp only [end_request, port_read] at this ⊢
            omega
          · rw [read_intr_more hw fuel _ r rest hok hq hn]
            simp only [Res.state, port_read]
            omega
    | write_intr =>
      change s.bad_rw_calls ≤ (write_intr hw fuel { s with do_hd := none }).state.bad_rw_calls
      by_cases hw0 : (win_result hw { s with do_hd := none }).1 ≠ 0
      · rw [(handler_error_path hw fuel _ hw0).2.1]
        exact herr
      · have hok := not_not.mp hw0
        cases hq : (win_result hw { s with do_hd := none }).2.queue with
        | nil =>
          have : write_intr hw fuel { s with do_hd := none }
              = Res.stop Stop.null_pointer (win_result hw { s with do_hd := none }).2 := by
            simp [write_intr, hok, hq]
          rw [this]
          exact le_of_eq hc.symm
        | cons r rest =>
          by_cases hn : (r.nr_sectors + (U32 - 1)) % U32 = 0
          · rw [write_intr_last hw fuel _ r rest hok hq hn]
            have := (dispatched_do_hd_request hw fuel (end_request 1
              { (win_result hw { s with do_hd := none }).2 with
                queue := { r with nr_sectors := (r.nr_sectors + (U32 - 1)) % U32 } :: rest
              })).2.2.2.1
            simp only [end_request] at this ⊢
            omega
          · rw [write_intr_more hw fuel _ r rest hok hq hn]
            simp only [Res.state, port_write]
            omega

/-- Three passes from a state with the reset flag set.  If the first dispatcher
pass and the two completion interrupts that follow return, and no call of
`bad_rw_intr` is made, then the passes sent WIN_SPECIFY, WIN_RESTORE and the
opcode of the request, one each, and the flags are as the passes leave them. -/
theorem three_passes (hw : Nat → Nat) (fuel : Nat) (s s1 s2 s3 : State)
    (r : request) (rest : List request) (hq : s.queue = r :: rest)
    (hreset : s.reset = true) (_hrecal : s.recalibrate = true) (hv : ¬ rejected s r)
    (_hk : r.cmd = READ ∨ r.cmd = WRITE)
    (h1 : do_hd_request hw (fuel + 1) s = Res.ret s1)
    (h2 : hd_interrupt hw (fuel + 1) s1 = Res.ret s2)
    (h3 : hd_interrupt hw (fuel + 1) s2 = Res.ret s3)
    (hc : s3.bad_rw_calls = s.bad_rw_calls) :
    commands (events_since s s1) = [WIN_SPECIFY] ∧
    commands (events_since s1 s2) = [WIN_RESTORE] ∧
    commands (events_since s2 s3) = [if r.cmd = READ then WIN_READ else WIN_WRITE] ∧
    commands (events_since s s3)
      = [WIN_SPECIFY, WIN_RESTORE, if r.cmd = READ then WIN_READ else WIN_WRITE] ∧
    (s1.reset = false ∧ s1.recalibrate = true) ∧
    (s2.reset = false ∧ s2.recalibrate = false) ∧
    (s3.reset = false ∧ s3.recalibrate = false) := by
  obtain ⟨a1, b1, c1, d1⟩ := reset_pass_ret hw fuel s s1 r rest hq hv hreset h1
  have k1 : s1.bad_rw_calls = s.bad_rw_calls := a1.2.2.2.2.1
  have m2 : s1.bad_rw_calls ≤ s2.bad_rw_calls := by
    have := calls_mono_hd_interrupt hw (fuel + 1) s1
    rw [h2] at this
    exact this
  have m3 : s2.bad_rw_calls ≤ s3.bad_rw_calls := by
    have := calls_mono_hd_interrupt hw (fuel + 1) s2
    rw [h3] at this
    exact this
  -- the first interrupt
  obtain ⟨p, hp, hp2⟩ := recal_interrupt_ok hw _ s1 s2 d1 h2 (by omega)
  obtain ⟨f1, f2, f3, f4, f5, f6, f7, -, f9⟩ := hp.fields
  have q1 : s1.queue = r :: rest := a1.1.trans hq
  have hvp : ¬ rejected p r := by
    rw [rejected_congr r (f2.trans a1.2.1) (f4.trans a1.2.2.2.1)]
    exact hv
  obtain ⟨a2, b2, c2, d2⟩ := recal_pass_ret hw fuel p s2 r rest (f1.trans q1) hvp
    (f6.trans b1) (f7.trans c1) hp2
  have a2' : Sent WIN_RESTORE s1 s2 := Sent.after f1 f2 f3 f4 f5 f9 a2
  -- the second interrupt
  obtain ⟨p', hp', hp2'⟩ := recal_interrupt_ok hw _ s2 s3 d2 h3 (by omega)
  obtain ⟨g1, g2, g3, g4, g5, g6, g7, -, g9⟩ := hp'.fields
  have q2 : s2.queue = r :: rest := a2'.1.trans q1
  have hvp' : ¬ rejected p' r := by
    rw [rejected_congr r (g2.trans (a2'.2.1.trans a1.2.1))
      (g4.trans (a2'.2.2.2.1.trans a1.2.2.2.1))]
    exact hv
  have k3 : s3.bad_rw_calls = p'.bad_rw_calls := by
    have : p'.bad_rw_calls = s2.bad_rw_calls := g5
    omega
  obtain ⟨-, a3, b3, c3, -, -⟩ := command_pass_ret hw fuel p' s3 r rest (g1.trans q2) hvp'
    (g6.trans b2) (g7.trans c2) hp2' k3
  have a3' : Sent (if r.cmd = READ then WIN_READ else WIN_WRITE) s2 s3 :=
    Sent.after g1 g2 g3 g4 g5 g9 a3
  exact ⟨a1.commands_since, a2'.commands_since, a3'.commands_since,
    a1.commands_since_three a2' a3', ⟨b1, c1⟩, ⟨b2, c2⟩, ⟨b3, c3⟩⟩

/-! ## Multi-sector write -/

theorem win_result_good (hw : Nat → Nat) (s : State) (h : status_good (hw s.clock % 256)) :
    win_result hw s = (0, (inb hw HD_STATUS s).2) := by
  unfold status_good at h
  simp [win_result, inb, h]

theorem interrupts_succ (hw : Nat → Nat) (fuel k : Nat) (s sk : State)
    (h : interrupts hw fuel k s = Res.ret sk) :
    interrupts hw fuel (k + 1) s = hd_interrupt hw fuel sk := by
  rw [interrupts, h]
  rfl

theorem write_interrupt_eq (hw : Nat → Nat) (fuel : Nat) (s : State)
    (hd : s.do_hd = some Handler.write_intr) :
    hd_interrupt hw fuel s = write_intr hw fuel { s with do_hd := none } := by
  unfold hd_interrupt
  rw [hd]
  rfl

/-- The state after `k` of the completions of a multi-sector write. -/
theorem write_run (hw : Nat → Nat) (fuel : Nat) (sD : State) (r : request)
    (rest : List request) (n : Nat) (hq : sD.queue = r :: rest)
    (hd : sD.do_hd = some Handler.write_intr) (hn : r.nr_sectors = n) (hn2 : n < U32)
    (hs : r.sector < U32) (hb : r.buffer < U32)
    (hok : ∀ i < n, status_good (hw (sD.clock + i) % 256)) :
    ∀ k < n, ∃ sk, interrupts hw fuel k sD = Res.ret sk ∧
      sk.queue = { r with nr_sectors := n - k, sector := (r.sector + k) % U32,
                          buffer := (r.buffer + 512 * k) % U32 } :: rest ∧
      sk.do_hd = some Handler.write_intr ∧ sk.clock = sD.clock + k ∧
      ∃ evs, sk.trace = sD.trace ++ evs ∧ commands evs = [] ∧
        pushes evs = (List.range k).map (fun i => (r.buffer + 512 * (i + 1)) % U32) ∧
        completions evs = [] := by
  intro k
  induction k with
  | zero =>
    intro _
    refine ⟨sD, rfl, ?_, hd, rfl, [], by simp, rfl, rfl, rfl⟩
    rw [hq]
    congr 1
    cases r
    simp only [request.mk.injEq, true_and] at hn hs hb ⊢
    refine ⟨(Nat.mod_eq_of_lt hs).symm, by omega, ?_⟩
    simpa using (Nat.mod_eq_of_lt hb).symm
  | succ k ih =>
    intro hk
    obtain ⟨sk, e1, q1, d1, c1, evs, t1, m1, p1, x1⟩ := ih (by omega)
    have hgood : status_good (hw ({ sk with do_hd := none } : State).clock % 256) := by
      have := hok k (by omega)
      rw [← c1] at this
      exact this
    have hwr := win_result_good hw { sk with do_hd := none } hgood
    have hne : ((n - k) + (U32 - 1)) % U32 ≠ 0 := by
      unfold U32 at hn2 ⊢
      omega
    have hmore := write_intr_more hw fuel { sk with do_hd := none }
      { r with nr_sectors := n - k, sector := (r.sector + k) % U32,
               buffer := (r.buffer + 512 * k) % U32 } rest
      (by rw [hwr]) (by rw [hwr]; exact q1) hne
    rw [interrupts_succ hw fuel k sD sk e1, write_interrupt_eq hw fuel sk d1, hmore, hwr]
    refine ⟨_, rfl, ?_, rfl, ?_, evs ++ [Event.inb HD_STATUS (hw sk.clock % 256),
      Event.port_write HD_DATA (((r.buffer + 512 * k) % U32 + 512) % U32) 256], ?_, ?_, ?_, ?_⟩
    · simp only [port_write, inb, List.cons.injEq, and_true, request.mk.injEq, true_and]
      unfold U32 at hn2 ⊢
      refine ⟨by omega, by omega, by omega⟩
    · simp only [port_write, inb]
      omega
    · simp [port_write, inb, t1]
    · simp [commands_append, m1, commands]
    · have hp : ∀ v b, pushes [Event.inb HD_STATUS v, Event.port_write HD_DATA b 256] = [b] := by
        intro v b
        simp [pushes]
      have hb' : ((r.buffer + 512 * k) % U32 + 512) % U32 = (r.buffer + 512 * (k + 1)) % U32 := by
        unfold U32
        omega
      rw [pushes_append, p1, hp, hb', List.range_succ, List.map_append]
      rfl
    · simp [completions_append, x1, completions]

theorem pushes_list (b k : Nat) (hb : b < U32) :
    b :: (List.range k).map (fun i => (b + 512 * (i + 1)) % U32)
      = (List.range (k + 1)).map (fun i => (b + 512 * i) % U32) := by
  rw [List.range_succ_eq_map, List.map_cons, List.map_map]
  congr 1
  exact (Nat.mod_eq_of_lt hb).symm

theorem hd_out_of_controller_ready (hw : Nat → Nat) (drive nsect sect head cyl cmd : Nat)
    (intr : Handler) (s : State) (hd : drive ≤ 1) (hh : head ≤ 15)
    (h : (controller_ready hw s).1 ≠ 0) :
    hd_out hw drive nsect sect head cyl cmd intr s
      = Res.ret (command_block drive nsect sect head cyl cmd intr (controller_ready hw s).2) := by
  have hn : ¬ (drive > 1 ∨ head > 15) := by omega
  simp [hd_out, hn, h, command_block, outb]

/-- C10 (multi-sector write).  Take a WRITE request of `n ≥ 1` sectors at the
head of the queue that passes the dispatcher's validation, both flags clear,
32-bit `sector` and `buffer` fields, drive at most 1 and translated head at most
15.  Let the controller be ready within the polls of `controller_ready`, let
the data request show within the 3000 polls that follow the command block, and
let the status read by each of the next `n` completion interrupts be good.  Then the
dispatcher returns having sent exactly WIN_WRITE and pushed the first sector
from the start of the buffer; after `k < n` interrupts the commands sent are
still exactly that one WIN_WRITE, the sectors pushed are those at buffer
offsets `512 * i` for `i ≤ k` (`k + 1` pushes), `write_intr` is again the
registered handler and no request has been completed; the `n`-th interrupt
completes the request with `end_request(1)` as its last act before re-entering
the dispatcher on the rest of the queue: by then one command was sent, `n`
sectors were pushed and this is the only completion. -/
theorem multi_sector_write (hw : Nat → Nat) (fuel : Nat) (s s1 : State) (r : request)
    (rest : List request) (cyl head sec n : Nat) (hq : s.queue = r :: rest)
    (hr : s.reset = false) (hc : s.recalibrate = false) (hv : ¬ rejected s r)
    (hw1 : r.cmd = WRITE) (hn : r.nr_sectors = n) (hn1 : 1 ≤ n) (hn2 : n < U32)
    (hs : r.sector < U32) (hb : r.buffer < U32)
    (ht : translate (s.hd_info (MINOR r.dev / 5)) (abs_sector s r) = some (cyl, head, sec))
    (hd : MINOR r.dev / 5 ≤ 1) (hh : head ≤ 15) (hrdy : (controller_ready hw s).1 ≠ 0)
    (hs1 : s1 = command_block (MINOR r.dev / 5) n sec head cyl WIN_WRITE Handler.write_intr
      (controller_ready hw s).2)
    (hdrq : (drq_poll hw 3000 s1).1 ≠ 0)
    (hok : ∀ i < n, status_good (hw ((drq_poll hw 3000 s1).2.clock + i) % 256)) :
    ∃ sD, do_hd_request hw (fuel + 1) s = Res.ret sD ∧
      commands (events_since s sD) = [WIN_WRITE] ∧
      pushes (events_since s sD) = [r.buffer] ∧
      completions (events_since s sD) = [] ∧
      (∀ k < n, ∃ sk, interrupts hw fuel k sD = Res.ret sk ∧
        commands (events_since s sk) = [WIN_WRITE] ∧
        pushes (events_since s sk)
          = (List.range (k + 1)).map (fun i => (r.buffer + 512 * i) % U32) ∧
        completions (events_since s sk) = [] ∧
        sk.do_hd = some Handler.write_intr) ∧
      ∃ sF, interrupts hw fuel n sD = do_hd_request hw fuel sF ∧
        sF.queue = rest ∧
        commands (events_since s sF) = [WIN_WRITE] ∧
        pushes (events_since s sF)
          = (List.range n).map (fun i => (r.buffer + 512 * i) % U32) ∧
        completions (events_since s sF)
          = [(1, { r with nr_sectors := 0, sector := (r.sector + (n - 1)) % U32,
                          buffer := (r.buffer + 512 * (n - 1)) % U32 })] := by
  have hout : hd_out hw (MINOR r.dev / 5) n sec head cyl WIN_WRITE Handler.write_intr s
      = Res.ret s1 := by
    rw [hs1]
    exact hd_out_of_controller_ready hw _ _ _ _ _ _ _ s hd hh hrdy
  -- the dispatcher pass
  have hD : do_hd_request hw (fuel + 1) s
      = Res.ret (port_write HD_DATA r.buffer 256 (drq_poll hw 3000 s1).2) := by
    rw [do_hd_request_write hw fuel s r rest cyl head sec hq hv ht hr hc hw1, hn, hout]
    change (if (drq_poll hw 3000 s1).1 = 0 then _ else _) = _
    rw [if_neg hdrq]
  obtain ⟨p, hp, -, -, h1⟩ := hd_out_ret hout
  obtain ⟨⟨a1, -, -, -, -, e0, a6, a7, a8⟩, -, -, d, e⟩ := sent_of_polls_command_block hp
    (MINOR r.dev / 5) n sec head cyl WIN_WRITE Handler.write_intr (by decide)
  rw [← h1] at a1 a6 d e
  rw [events_since_of_trace a6] at e
  obtain ⟨g1, -, -, -, -, -, -, g8, e1, g9, g10, g11, g12⟩ := (polls_drq_poll hw 3000 s1).fields
  generalize hsD : port_write HD_DATA r.buffer 256 (drq_poll hw 3000 s1).2 = sD at hD
  have qD : sD.queue = r :: rest := by rw [← hsD]; exact (g1.trans a1).trans hq
  have dD : sD.do_hd = some Handler.write_intr := by rw [← hsD]; exact g8.trans d
  have cD : sD.clock = (drq_poll hw 3000 s1).2.clock := by rw [← hsD]; rfl
  have tD : sD.trace = s.trace ++ (e0 ++ e1 ++ [Event.port_write HD_DATA r.buffer 256]) := by
    rw [← hsD]; simp [port_write, g9, a6]
  have cmD : commands (e0 ++ e1 ++ [Event.port_write HD_DATA r.buffer 256]) = [WIN_WRITE] := by
    simp [commands_append, a7, g10, commands]
  have puD : pushes (e0 ++ e1 ++ [Event.port_write HD_DATA r.buffer 256]) = [r.buffer] := by
    simp [pushes_append, e, g11, pushes]
  have coD : completions (e0 ++ e1 ++ [Event.port_write HD_DATA r.buffer 256]) = [] := by
    simp [completions_append, a8, g12, completions]
  have hok' : ∀ i < n, status_good (hw (sD.clock + i) % 256) := by
    intro i hi; rw [cD]; exact hok i hi
  have run := write_run hw fuel sD r rest n qD dD hn hn2 hs hb hok'
  refine ⟨sD, hD, ?_, ?_, ?_, ?_, ?_⟩
  · rw [events_since_of_trace tD, cmD]
  · rw [events_since_of_trace tD, puD]
  · rw [events_since_of_trace tD, coD]
  · intro k hk
    obtain ⟨sk, i1, -, i3, -, evs, i5, i6, i7, i8⟩ := run k hk
    have tk : sk.trace
        = s.trace ++ (e0 ++ e1 ++ [Event.port_write HD_DATA r.buffer 256] ++ evs) := by
      rw [i5, tD]; simp
    refine ⟨sk, i1, ?_, ?_, ?_, i3⟩
    · rw [events_since_of_trace tk, commands_append, cmD, i6]; rfl
    · rw [events_since_of_trace tk, pushes_append, puD, i7]
      exact pushes_list r.buffer k hb
    · rw [events_since_of_trace tk, completions_append, coD, i8]; rfl
  · obtain ⟨sk, i1, i2, i3, i4, evs, i5, i6, i7, i8⟩ := run (n - 1) (by omega)
    have hgood : status_good (hw ({ sk with do_hd := none } : State).clock % 256) := by
      have := hok' (n - 1) (by omega)
      rw [← i4] at this
      exact this
    have hwr := win_result_good hw { sk with do_hd := none } hgood
    have hz : ((n - (n - 1)) + (U32 - 1)) % U32 = 0 := by
      unfold U32 at hn2 ⊢
      omega
    have hlast := write_intr_last hw fuel { sk with do_hd := none }
      { r with nr_sectors := n - (n - 1), sector := (r.sector + (n - 1)) % U32,
               buffer := (r.buffer + 512 * (n - 1)) % U32 } rest
      (by rw [hwr]) (by rw [hwr]; exact i2) hz
    have hint : interrupts hw fuel n sD = hd_interrupt hw fuel sk := by
      have := interrupts_succ hw fuel (n - 1) sD sk i1
      rw [Nat.sub_add_cancel hn1] at this
      exact this
    rw [hint, write_interrupt_eq hw fuel sk i3, hlast, hwr]
    have tk : sk.trace
        = s.trace ++ (e0 ++ e1 ++ [Event.port_write HD_DATA r.buffer 256] ++ evs) := by
      rw [i5, tD]; simp
    refine ⟨_, rfl, ?_, ?_, ?_, ?_⟩
    · simp [end_request, inb]
    · have tF : ∀ rq : request, (end_request 1
          { (inb hw HD_STATUS { sk with do_hd := none }).2 with queue := rq :: rest }).trace
          = s.trace ++ ((e0 ++ e1 ++ [Event.port_write HD_DATA r.buffer 256] ++ evs)
              ++ [Event.inb HD_STATUS (hw sk.clock % 256), Event.end_request 1 rq]) := by
        intro rq
        simp [end_request, inb, tk]
      rw [events_since_of_trace (tF _), commands_append, commands_append, cmD, i6]
      rfl
    · have tF : ∀ rq : request, (end_request 1
          { (inb hw HD_STATUS { sk with do_hd := none }).2 with queue := rq :: rest }).trace
          = s.trace ++ ((e0 ++ e1 ++ [Event.port_write HD_DATA r.buffer 256] ++ evs)
              ++ [Event.inb HD_STATUS (hw sk.clock % 256), Event.end_request 1 rq]) := by
        intro rq
        simp [end_request, inb, tk]
      rw [events_since_of_trace (tF _), pushes_append, pushes_append, puD, i7]
      have := pushes_list r.buffer (n - 1) hb
      rw [Nat.sub_add_cancel hn1] at this
      rw [← this]
      simp [pushes]
    · have tF : ∀ rq : request, (end_request 1
          { (inb hw HD_STATUS { sk with do_hd := none }).2 with queue := rq :: rest }).trace
          = s.trace ++ ((e0 ++ e1 ++ [Event.port_write HD_DATA r.buffer 256] ++ evs)
              ++ [Event.inb HD_STATUS (hw sk.clock % 256), Event.end_request 1 rq]) := by
        intro rq
        simp [end_request, inb, tk]
      rw [events_since_of_trace (tF _), completions_append, completions_append, coD, i8]
      simp only [completions, List.nil_append, List.cons.injEq, Prod.mk.injEq, true_and,
        and_true, request.mk.injEq]
      exact hz

/-- Witness of C10: a WRITE of three sectors on the machine of scenario A with
a controller that always reads 0x58: three pushes, at buffer offsets 0, 512 and
1024, and the completion at the third interrupt. -/
theorem multi_sector_write_witness :
    ∃ sF, interrupts hw_good 1 3
        (do_hd_request hw_good 2 (machine_A false false [request_B])).state
        = do_hd_request hw_good 1 sF ∧
      sF.queue = [] ∧
      commands (events_since (machine_A false false [request_B]) sF) = [WIN_WRITE] ∧
      pushes (events_since (machine_A false false [request_B]) sF)
        = [0x10000, 0x10200, 0x10400] ∧
      completions (events_since (machine_A false false [request_B]) sF)
        = [(1, ⟨0x300, WRITE, 0, 2, 0, 0x10400⟩)] := by
  obtain ⟨sD, hD, -, -, -, -, sF, h1, h2, h3, h4, h5⟩ :=
    multi_sector_write hw_good 1 (machine_A false false [request_B])
      (command_block 0 3 1 0 0 WIN_WRITE Handler.write_intr
        (controller_ready hw_good (machine_A false false [request_B])).2)
      request_B [] 0 0 1 3 rfl rfl rfl (by decide) rfl rfl (by decide) (by decide) (by decide)
      (by decide) (by decide) (by decide) (by decide) (by decide) rfl (by decide)
      (fun _ _ => (by decide : status_good (0x58 % 256)))
  rw [hD]
  exact ⟨sF, h1, h2, h3, h4, h5⟩

theorem drq_poll_first (hw : Nat → Nat) (n : Nat) (s : State)
    (h : hw s.clock % 256 &&& DRQ_STAT ≠ 0) : (drq_poll hw (n + 1) s).1 ≠ 0 := by
  unfold drq_poll
  simp [inb, h]

theorem recal_intr_good (hw : Nat → Nat) (fuel : Nat) (s : State)
    (h : status_good (hw s.clock % 256)) :
    recal_intr hw fuel s = do_hd_request hw fuel (inb hw HD_STATUS s).2 := by
  unfold recal_intr
  rw [win_result_good hw s h]
  simp

theorem drive_le_one_of_valid (s : State) (r : request) (hv : ¬ rejected s r)
    (hnr : s.NR_HD ≤ 2) : MINOR r.dev / 5 ≤ 1 := by
  unfold rejected at hv
  push_neg at hv
  omega

theorem drq_poll_found (hw : Nat → Nat) (n : Nat) (s : State)
    (h : ∃ i, i < n ∧ hw (s.clock + i) % 256 &&& DRQ_STAT ≠ 0) : (drq_poll hw n s).1 ≠ 0 := by
  induction n generalizing s with
  | zero =>
    obtain ⟨i, hi, -⟩ := h
    omega
  | succ n ih =>
    obtain ⟨i, hi, hv⟩ := h
    unfold drq_poll
    dsimp only
    by_cases h0 : (inb hw HD_STATUS s).1 &&& DRQ_STAT = 0
    · rw [if_pos h0]
      apply ih
      cases i with
      | zero => exact absurd h0 hv
      | succ i =>
        refine ⟨i, by omega, ?_⟩
        simp only [inb]
        rw [show s.clock + 1 + i = s.clock + (i + 1) by omega]
        exact hv
    · rw [if_neg h0]
      exact h0

/-- When the status checks of a dispatcher pass over a valid READ or WRITE
request return OK and the drive geometry is within the range of `hd_out`, the
pass returns and makes no call of `bad_rw_intr`. -/
theorem checked_pass_returns (hw : Nat → Nat) (fuel : Nat) (x : State)
    (r : request) (rest : List request) (hq : x.queue = r :: rest) (hv : ¬ rejected x r)
    (hk : r.cmd = READ ∨ r.cmd = WRITE) (hnr : x.NR_HD ≤ 2)
    (hh1 : 1 ≤ (x.hd_info (MINOR r.dev / 5)).head)
    (hh2 : (x.hd_info (MINOR r.dev / 5)).head ≤ 16)
    (hs1 : 1 ≤ (x.hd_info (MINOR r.dev / 5)).sect)
    (hs2 : (x.hd_info (MINOR r.dev / 5)).sect < 2147483648)
    (hok : pass_ok hw x r) :
    ∃ y, do_hd_request hw (fuel + 1) x = Res.ret y ∧ y.bad_rw_calls = x.bad_rw_calls := by
  have hd := drive_le_one_of_valid x r hv hnr
  have ht := translate_eq (x.hd_info (MINOR r.dev / 5)) (abs_sector x r) hh1 (by omega) hs1 hs2
  have hhead : abs_sector x r / (x.hd_info (MINOR r.dev / 5)).sect.toNat
      % (x.hd_info (MINOR r.dev / 5)).head.toNat ≤ 15 := by
    have : abs_sector x r / (x.hd_info (MINOR r.dev / 5)).sect.toNat
        % (x.hd_info (MINOR r.dev / 5)).head.toNat < (x.hd_info (MINOR r.dev / 5)).head.toNat :=
      Nat.mod_lt _ (by omega)
    omega
  unfold pass_ok at hok
  cases hr : x.reset with
  | true =>
    rw [if_pos hr] at hok
    have hi : (reset_controller hw { x with reset := false, recalibrate := true }).hd_info
        = x.hd_info := by
      obtain ⟨evs, -, e⟩ := polls_reset_controller hw { x with reset := false, recalibrate := true }
      rw [e]
    have hu : u32 ((x.hd_info (CURRENT_DEV r)).head - 1) ≤ 15 := by
      change u32 ((x.hd_info (MINOR r.dev / 5)).head - 1) ≤ 15
      rw [u32_of_range _ (by omega) (by omega)]
      omega
    have hy := do_hd_request_reset hw fuel x r rest _ hq hv ht hr
    unfold reset_hd at hy
    dsimp only at hy
    rw [hd_out_of_controller_ready hw _ _ _ _ _ _ _ _ (show CURRENT_DEV r ≤ 1 from hd)
      (by rw [hi]; exact hu) hok] at hy
    exact ⟨_, hy, (reset_pass_ret hw fuel x _ r rest hq hv hr hy).1.2.2.2.2.1⟩
  | false =>
    rw [if_neg (show ¬ x.reset = true by rw [hr]; decide)] at hok
    cases hc : x.recalibrate with
    | true =>
      rw [if_pos hc] at hok
      have hy := do_hd_request_recal hw fuel x r rest _ hq hv ht hr hc
      rw [hd_out_of_controller_ready hw _ _ _ _ _ _ _ _ hd (Nat.zero_le 15) hok] at hy
      exact ⟨_, hy, (recal_pass_ret hw fuel x _ r rest hq hv hr hc hy).1.2.2.2.2.1⟩
    | false =>
      rw [if_neg (show ¬ x.recalibrate = true by rw [hc]; decide)] at hok
      obtain ⟨hrdy, hdrq⟩ := hok
      have hcr : (controller_ready hw x).2.bad_rw_calls = x.bad_rw_calls :=
        (polls_controller_ready hw x).fields.2.2.2.2.1
      rcases hk with hk | hk
      · have hy := do_hd_request_read hw fuel x r rest _ _ _ hq hv ht hr hc hk
        rw [hd_out_of_controller_ready hw _ _ _ _ _ _ _ _ hd hhead hrdy] at hy
        exact ⟨_, hy, hcr⟩
      · have hy := do_hd_request_write hw fuel x r rest _ _ _ hq hv ht hr hc hk
        rw [hd_out_of_controller_ready hw _ _ _ _ _ _ _ _ hd hhead hrdy] at hy
        change do_hd_request hw (fuel + 1) x = (if (drq_poll hw 3000 _).1 = 0 then _ else _) at hy
        split at hy
        · rename_i h0
          exact absurd h0 (drq_poll_found hw 3000 _ (hdrq hk))
        · refine ⟨_, hy, ?_⟩
          have := (polls_drq_poll hw 3000 (command_block (MINOR r.dev / 5) r.nr_sectors
            (abs_sector x r % (x.hd_info (MINOR r.dev / 5)).sect.toNat + 1)
            (abs_sector x r / (x.hd_info (MINOR r.dev / 5)).sect.toNat
              % (x.hd_info (MINOR r.dev / 5)).head.toNat)
            (abs_sector x r / (x.hd_info (MINOR r.dev / 5)).sect.toNat
              / (x.hd_info (MINOR r.dev / 5)).head.toNat)
            WIN_WRITE Handler.write_intr (controller_ready hw x).2)).fields.2.2.2.2.1
          simp only [port_write]
          rw [this]
          exact hcr

/-- A completion interrupt handled by `recal_intr` that reads a good status,
when the checks of the dispatcher pass it leads into return OK: the handler goes
on into the dispatcher, which returns without a call of `bad_rw_intr`. -/
theorem checked_interrupt_returns (hw : Nat → Nat) (fuel : Nat) (x : State)
    (r : request) (rest : List request) (hd : x.do_hd = some Handler.recal_intr)
    (hq : x.queue = r :: rest) (hv : ¬ rejected x r)
    (hk : r.cmd = READ ∨ r.cmd = WRITE) (hnr : x.NR_HD ≤ 2)
    (hh1 : 1 ≤ (x.hd_info (MINOR r.dev / 5)).head)
    (hh2 : (x.hd_info (MINOR r.dev / 5)).head ≤ 16)
    (hs1 : 1 ≤ (x.hd_info (MINOR r.dev / 5)).sect)
    (hs2 : (x.hd_info (MINOR r.dev / 5)).sect < 2147483648)
    (hg : status_good (hw x.clock % 256))
    (hok : pass_ok hw (win_result hw { x with do_hd := none }).2 r) :
    ∃ y, hd_interrupt hw (fuel + 1) x = Res.ret y ∧ y.bad_rw_calls = x.bad_rw_calls := by
  have e : hd_interrupt hw (fuel + 1) x
      = do_hd_request hw (fuel + 1) (inb hw HD_STATUS { x with do_hd := none }).2 := by
    unfold hd_interrupt
    rw [hd]
    exact recal_intr_good hw (fuel + 1) { x with do_hd := none } hg
  rw [win_result_good hw { x with do_hd := none } hg] at hok
  rw [e]
  exact checked_pass_returns hw fuel (inb hw HD_STATUS { x with do_hd := none }).2 r rest hq hv hk
    hnr hh1 hh2 hs1 hs2 hok

/-- C9 (mandatory initial reset and recalibration).  Start with both session
flags set and a READ or WRITE request at the head of the queue that passes the
dispatcher's validation, on a drive within the range of `hd_out` (at most two
drives, 1 to 16 heads, at least one sector per track).  Let every status check
the three passes depend on return OK: `controller_ready` finds the controller
ready in each pass, the status read by each of the two completion interrupts is
good, and for a WRITE the data request shows within the poll; what the error
register and `drive_busy` show after the reset is left free.  Then the first
dispatcher pass and the two completion interrupts that follow all return; the
commands sent are exactly WIN_SPECIFY by the first pass, WIN_RESTORE by the
second and the request's WIN_READ or WIN_WRITE by the third, in this order and
nothing else; both flags are clear before and after the pass that sends the
READ/WRITE opcode. -/
theorem initial_reset_recalibrate (hw : Nat → Nat) (fuel : Nat) (s : State)
    (r : request) (rest : List request) (hq : s.queue = r :: rest)
    (hreset : s.reset = true) (hrecal : s.recalibrate = true) (hv : ¬ rejected s r)
    (hk : r.cmd = READ ∨ r.cmd = WRITE) (hnr : s.NR_HD ≤ 2)
    (hh1 : 1 ≤ (s.hd_info (MINOR r.dev / 5)).head)
    (hh2 : (s.hd_info (MINOR r.dev / 5)).head ≤ 16)
    (hs1 : 1 ≤ (s.hd_info (MINOR r.dev / 5)).sect)
    (hs2 : (s.hd_info (MINOR r.dev / 5)).sect < 2147483648)
    (hp1 : pass_ok hw s r)
    (hg1 : status_good (hw (do_hd_request hw (fuel + 1) s).state.clock % 256))
    (hp2 : pass_ok hw
      (win_result hw { (do_hd_request hw (fuel + 1) s).state with do_hd := none }).2 r)
    (hg2 : status_good
      (hw (hd_interrupt hw (fuel + 1) (do_hd_request hw (fuel + 1) s).state).state.clock % 256))
    (hp3 : pass_ok hw
      (win_result hw
        { (hd_interrupt hw (fuel + 1) (do_hd_request hw (fuel + 1) s).state).state with
          do_hd := none }).2 r) :
    ∃ s1 s2 s3, do_hd_request hw (fuel + 1) s = Res.ret s1 ∧
      hd_interrupt hw (fuel + 1) s1 = Res.ret s2 ∧
      hd_interrupt hw (fuel + 1) s2 = Res.ret s3 ∧
      commands (events_since s s1) = [WIN_SPECIFY] ∧
      commands (events_since s1 s2) = [WIN_RESTORE] ∧
      commands (events_since s2 s3) = [if r.cmd = READ then WIN_READ else WIN_WRITE] ∧
      commands (events_since s s3)
        = [WIN_SPECIFY, WIN_RESTORE, if r.cmd = READ then WIN_READ else WIN_WRITE] ∧
      (s1.reset = false ∧ s1.recalibrate = true) ∧
      (s2.reset = false ∧ s2.recalibrate = false) ∧
      (s3.reset = false ∧ s3.recalibrate = false) := by
  obtain ⟨s1, h1, k1⟩ := checked_pass_returns hw fuel s r rest hq hv hk hnr hh1 hh2 hs1 hs2 hp1
  rw [h1] at hg1 hp2 hg2 hp3
  change status_good (hw s1.clock % 256) at hg1
  change pass_ok hw (win_result hw { s1 with do_hd := none }).2 r at hp2
  change status_good (hw (hd_interrupt hw (fuel + 1) s1).state.clock % 256) at hg2
  change pass_ok hw
    (win_result hw { (hd_interrupt hw (fuel + 1) s1).state with do_hd := none }).2 r at hp3
  obtain ⟨⟨q1, n1, i1, d1, -, -⟩, b1, c1, x1⟩ := reset_pass_ret hw fuel s s1 r rest hq hv hreset h1
  have hv1 : ¬ rejected s1 r := by rw [rejected_congr r n1 d1]; exact hv
  obtain ⟨s2, h2, k2⟩ := checked_interrupt_returns hw fuel s1 r rest x1 (q1.trans hq) hv1 hk
    (by rw [n1]; exact hnr) (by rw [i1]; exact hh1) (by rw [i1]; exact hh2)
    (by rw [i1]; exact hs1) (by rw [i1]; exact hs2) hg1 hp2
  rw [h2] at hg2 hp3
  change status_good (hw s2.clock % 256) at hg2
  change pass_ok hw (win_result hw { s2 with do_hd := none }).2 r at hp3
  -- what the second pass left
  obtain ⟨p, hp, hpr⟩ := recal_interrupt_ok hw _ s1 s2 x1 h2 (by omega)
  obtain ⟨f1, f2, f3, f4, f5, f6, f7, -, f9⟩ := hp.fields
  have hvp : ¬ rejected p r := by rw [rejected_congr r f2 f4]; exact hv1
  obtain ⟨a2, -, -, x2⟩ := recal_pass_ret hw fuel p s2 r rest (f1.trans (q1.trans hq)) hvp
    (f6.trans b1) (f7.trans c1) hpr
  obtain ⟨q2, n2, i2, d2, -, -⟩ : Sent WIN_RESTORE s1 s2 := Sent.after f1 f2 f3 f4 f5 f9 a2
  have hv2 : ¬ rejected s2 r := by rw [rejected_congr r n2 d2]; exact hv1
  obtain ⟨s3, h3, k3⟩ := checked_interrupt_returns hw fuel s2 r rest x2
    (q2.trans (q1.trans hq)) hv2 hk
    (by rw [n2, n1]; exact hnr) (by rw [i2, i1]; exact hh1) (by rw [i2, i1]; exact hh2)
    (by rw [i2, i1]; exact hs1) (by rw [i2, i1]; exact hs2) hg2 hp3
  exact ⟨s1, s2, s3, h1, h2, h3,
    three_passes hw fuel s s1 s2 s3 r rest hq hreset hrecal hv hk h1 h2 h3 (by omega)⟩

/-- Witness of C9: the READ request of scenario C on the machine of scenario
A with both flags set and the nominal controller, whose status reads 0x50 and
whose error register reads 1 after the reset: the reset reports no failure. -/
theorem initial_reset_recalibrate_witness :
    (∃ s1 s2 s3,
      do_hd_request hw_nominal 1 (machine_A true true [request_C_read]) = Res.ret s1 ∧
      hd_interrupt hw_nominal 1 s1 = Res.ret s2 ∧
      hd_interrupt hw_nominal 1 s2 = Res.ret s3 ∧
      commands (events_since (machine_A true true [request_C_read]) s3)
        = [WIN_SPECIFY, WIN_RESTORE, WIN_READ]) ∧
    reads_of HD_ERROR
      (do_hd_request hw_nominal 1 (machine_A true true [request_C_read])).state.trace = [1] := by
  refine ⟨?_, by decide⟩
  obtain ⟨s1, s2, s3, h1, h2, h3, -, -, -, h, -⟩ :=
    initial_reset_recalibrate hw_nominal 0 (machine_A true true [request_C_read])
      request_C_read []
      rfl rfl rfl (by decide) (by decide) (by decide) (by decide) (by decide) (by decide)
      (by decide) (by decide) (by decide) (by decide) (by decide) (by decide)
  exact ⟨s1, s2, s3, h1, h2, h3, h⟩

/-! ## Multi-sector read -/

theorem pulls_append (a b : List Event) : pulls (a ++ b) = pulls a ++ pulls b := by
  induction a with
  | nil => rfl
  | cons e a ih =>
    rw [List.cons_append]
    cases e <;> simp [pulls, ih]

theorem reads_only_nil : reads_only [] := by
  intro e he
  cases he

theorem reads_only_append {a b : List Event} (ha : reads_only a) (hb : reads_only b) :
    reads_only (a ++ b) := by
  intro e he
  rcases List.mem_append.mp he with h | h
  · exact ha e h
  · exact hb e h

theorem reads_only_inb (port v : Nat) : reads_only [Event.inb port v] := by
  intro e he
  rw [List.mem_singleton] at he
  exact ⟨port, v, he⟩

theorem reads_only_observed {evs : List Event} (h : reads_only evs) :
    commands evs = [] ∧ pushes evs = [] ∧ pulls evs = [] ∧ completions evs = [] ∧
    port_writes evs = [] := by
  induction evs with
  | nil => exact ⟨rfl, rfl, rfl, rfl, rfl⟩
  | cons e evs ih =>
    obtain ⟨port, v, he⟩ := h e (List.mem_cons_self _ _)
    have := ih (fun e' he' => h e' (List.mem_cons_of_mem _ he'))
    rw [he]
    simpa [commands, pushes, pulls, completions, port_writes] using this

/-- The polls of `controller_ready` only read and only advance the clock. -/
theorem controller_ready_loop_reads (hw : Nat → Nat) (n : Nat) (s : State) :
    ∃ evs, reads_only evs ∧ (controller_ready_loop hw n s).2
      = { s with clock := s.clock + evs.length, trace := s.trace ++ evs } := by
  induction n generalizing s with
  | zero => exact ⟨[], reads_only_nil, by simp [controller_ready_loop]⟩
  | succ n ih =>
    unfold controller_ready_loop
    split
    · exact ⟨[], reads_only_nil, by simp⟩
    · dsimp only
      split
      · obtain ⟨evs, h1, h2⟩ := ih (inb hw HD_STATUS s).2
        refine ⟨Event.inb HD_STATUS (hw s.clock % 256) :: evs,
          reads_only_append (reads_only_inb _ _) h1, ?_⟩
        rw [h2]
        simp [inb]
        omega
      · exact ⟨[Event.inb HD_STATUS (hw s.clock % 256)], reads_only_inb _ _, by simp [inb]⟩

theorem controller_ready_reads (hw : Nat → Nat) (s : State) :
    ∃ evs, reads_only evs ∧ (controller_ready hw s).2
      = { s with clock := s.clock + evs.length, trace := s.trace ++ evs } :=
  controller_ready_loop_reads hw 10000 s

theorem read_interrupt_eq (hw : Nat → Nat) (fuel : Nat) (s : State)
    (hd : s.do_hd = some Handler.read_intr) :
    hd_interrupt hw fuel s = read_intr hw fuel { s with do_hd := none } := by
  unfold hd_interrupt
  rw [hd]
  rfl

/-- The state after `k` of the completions of a multi-sector read. -/
theorem read_run (hw : Nat → Nat) (fuel : Nat) (sD : State) (r : request)
    (rest : List request) (n : Nat) (hq : sD.queue = r :: rest)
    (hd : sD.do_hd = some Handler.read_intr) (hn : r.nr_sectors = n) (hn2 : n < U32)
    (hs : r.sector < U32) (hb : r.buffer < U32)
    (hok : ∀ i < n, status_good (hw (sD.clock + i) % 256)) :
    ∀ k < n, ∃ sk, interrupts hw fuel k sD = Res.ret sk ∧
      sk.queue = { r with errors := if k = 0 then r.errors else 0,
                          nr_sectors := n - k, sector := (r.sector + k) % U32,
                          buffer := (r.buffer + 512 * k) % U32 } :: rest ∧
      sk.do_hd = some Handler.read_intr ∧ sk.clock = sD.clock + k ∧
      ∃ evs, sk.trace = sD.trace ++ evs ∧ commands evs = [] ∧ pushes evs = [] ∧
        pulls evs = (List.range k).map (fun i => (HD_DATA, (r.buffer + 512 * i) % U32, 256)) ∧
        completions evs = [] := by
  intro k
  induction k with
  | zero =>
    intro _
    refine ⟨sD, rfl, ?_, hd, rfl, [], by simp, rfl, rfl, rfl, rfl⟩
    rw [hq]
    congr 1
    cases r
    simp only [request.mk.injEq, true_and, if_true] at hn hs hb ⊢
    refine ⟨(Nat.mod_eq_of_lt hs).symm, by omega, ?_⟩
    simpa using (Nat.mod_eq_of_lt hb).symm
  | succ k ih =>
    intro hk
    obtain ⟨sk, e1, q1, d1, c1, evs, t1, m1, u1, p1, x1⟩ := ih (by omega)
    have hgood : status_good (hw ({ sk with do_hd := none } : State).clock % 256) := by
      have := hok k (by omega)
      rw [← c1] at this
      exact this
    have hwr := win_result_good hw { sk with do_hd := none } hgood
    have hne : ((n - k) + (U32 - 1)) % U32 ≠ 0 := by
      unfold U32 at hn2 ⊢
      omega
    have hmore := read_intr_more hw fuel { sk with do_hd := none }
      { r with errors := if k = 0 then r.errors else 0,
               nr_sectors := n - k, sector := (r.sector + k) % U32,
               buffer := (r.buffer + 512 * k) % U32 } rest
      (by rw [hwr]) (by rw [hwr]; exact q1) hne
    rw [interrupts_succ hw fuel k sD sk e1, read_interrupt_eq hw fuel sk d1, hmore, hwr]
    refine ⟨_, rfl, ?_, rfl, ?_, evs ++ [Event.inb HD_STATUS (hw sk.clock % 256),
      Event.port_read HD_DATA ((r.buffer + 512 * k) % U32) 256], ?_, ?_, ?_, ?_, ?_⟩
    · simp only [port_read, inb, List.cons.injEq, and_true, request.mk.injEq, true_and]
      unfold U32 at hn2 ⊢
      refine ⟨by simp, by omega, by omega, by omega⟩
    · simp only [port_read, inb]
      omega
    · simp [port_read, inb, t1]
    · simp [commands_append, m1, commands]
    · simp [pushes_append, u1, pushes]
    · rw [pulls_append, p1, List.range_succ, List.map_append]
      rfl
    · simp [completions_append, x1, completions]

theorem command_block_events (drive nsect sect head cyl cmd : Nat) (intr : Handler)
    (p : State) :
    ∃ E, (command_block drive nsect sect head cyl cmd intr p).trace = p.trace ++ E ∧
      commands E = [cmd % 256] ∧ pushes E = [] ∧ pulls E = [] ∧ completions E = [] :=
  ⟨_, rfl, commands_command_block drive nsect sect head cyl cmd (p.hd_info drive), rfl, rfl, rfl⟩

theorem pulls_list (b n : Nat) :
    (List.range n).map (fun i => (HD_DATA, (b + 512 * i) % U32, 256))
      ++ [(HD_DATA, (b + 512 * n) % U32, 256)]
      = (List.range (n + 1)).map (fun i => (HD_DATA, (b + 512 * i) % U32, 256)) := by
  rw [List.range_succ, List.map_append]
  rfl

/-- C11 (multi-sector read).  Take a READ request of `n ≥ 1` sectors at the head
of the queue that passes the dispatcher's validation, both flags clear, 32-bit
`sector` and `buffer` fields, drive at most 1 and translated head at most 15,
and let the controller be ready within the polls of `controller_ready`.  Then
the dispatcher returns having called `hd_out` once, with sector count `n`, the
cylinder, head and sector that `translate` gives for the absolute start sector,
opcode WIN_READ and handler `read_intr`; it transfers no data.  If the status
read by each of the next `n` completion interrupts is good, then after `k < n`
interrupts the sectors pulled are 256 words each from the data port into
buffer offsets `512 * i`, `i < k`, `read_intr` is again the registered handler
and nothing is completed; the `n`-th interrupt pulls the last sector and
completes the request with `end_request(1)` as its last act before re-entering
the dispatcher on the rest of the queue: one command, `n` pulls, one
completion. -/
theorem multi_sector_read (hw : Nat → Nat) (fuel : Nat) (s s1 : State) (r : request)
    (rest : List request) (cyl head sec n : Nat) (hq : s.queue = r :: rest)
    (hr : s.reset = false) (hc : s.recalibrate = false) (hv : ¬ rejected s r)
    (hk : r.cmd = READ) (hn : r.nr_sectors = n) (hn1 : 1 ≤ n) (hn2 : n < U32)
    (hs : r.sector < U32) (hb : r.buffer < U32)
    (ht : translate (s.hd_info (MINOR r.dev / 5)) (abs_sector s r) = some (cyl, head, sec))
    (hd : MINOR r.dev / 5 ≤ 1) (hh : head ≤ 15) (hrdy : (controller_ready hw s).1 ≠ 0)
    (hs1 : s1 = command_block (MINOR r.dev / 5) n sec head cyl WIN_READ Handler.read_intr
      (controller_ready hw s).2)
    (hok : ∀ i < n, status_good (hw (s1.clock + i) % 256)) :
    do_hd_request hw (fuel + 1) s = Res.ret s1 ∧
    commands (events_since s s1) = [WIN_READ] ∧
    pushes (events_since s s1) = [] ∧ pulls (events_since s s1) = [] ∧
    completions (events_since s s1) = [] ∧
    (∀ k < n, ∃ sk, interrupts hw fuel k s1 = Res.ret sk ∧
      commands (events_since s sk) = [WIN_READ] ∧
      pushes (events_since s sk) = [] ∧
      pulls (events_since s sk)
        = (List.range k).map (fun i => (HD_DATA, (r.buffer + 512 * i) % U32, 256)) ∧
      completions (events_since s sk) = [] ∧
      sk.do_hd = some Handler.read_intr) ∧
    ∃ sF, interrupts hw fuel n s1 = do_hd_request hw fuel sF ∧
      sF.queue = rest ∧
      commands (events_since s sF) = [WIN_READ] ∧
      pushes (events_since s sF) = [] ∧
      pulls (events_since s sF)
        = (List.range n).map (fun i => (HD_DATA, (r.buffer + 512 * i) % U32, 256)) ∧
      completions (events_since s sF)
        = [(1, { r with errors := 0, nr_sectors := 0, sector := (r.sector + n) % U32,
                        buffer := (r.buffer + 512 * n) % U32 })] := by
  have hD : do_hd_request hw (fuel + 1) s = Res.ret s1 := by
    rw [do_hd_request_read hw fuel s r rest cyl head sec hq hv ht hr hc hk, hn, hs1]
    exact hd_out_of_controller_ready hw _ _ _ _ _ _ _ s hd hh hrdy
  obtain ⟨e0, ro, hp⟩ := controller_ready_reads hw s
  obtain ⟨o1, o2, o3, o4, -⟩ := reads_only_observed ro
  obtain ⟨E, hE, b1, b2, b3, b4⟩ := command_block_events (MINOR r.dev / 5) n sec head cyl
    WIN_READ Handler.read_intr (controller_ready hw s).2
  have tD : s1.trace = s.trace ++ (e0 ++ E) := by
    rw [hs1, hE, hp]
    simp
  have qD : s1.queue = r :: rest := by rw [hs1, hp]; exact hq
  have dD : s1.do_hd = some Handler.read_intr := by rw [hs1]; rfl
  have cmD : commands (e0 ++ E) = [WIN_READ] := by
    rw [commands_append, o1, b1]; rfl
  have puD : pushes (e0 ++ E) = [] := by rw [pushes_append, o2, b2]; rfl
  have plD : pulls (e0 ++ E) = [] := by rw [pulls_append, o3, b3]; rfl
  have coD : completions (e0 ++ E) = [] := by rw [completions_append, o4, b4]; rfl
  have run := read_run hw fuel s1 r rest n qD dD hn hn2 hs hb hok
  refine ⟨hD, ?_, ?_, ?_, ?_, ?_, ?_⟩
  · rw [events_since_of_trace tD, cmD]
  · rw [events_since_of_trace tD, puD]
  · rw [events_since_of_trace tD, plD]
  · rw [events_since_of_trace tD, coD]
  · intro k hk'
    obtain ⟨sk, i1, -, i3, -, evs, i5, i6, i7, i8, i9⟩ := run k hk'
    have tk : sk.trace = s.trace ++ (e0 ++ E ++ evs) := by
      rw [i5, tD]; simp
    refine ⟨sk, i1, ?_, ?_, ?_, ?_, i3⟩
    · rw [events_since_of_trace tk, commands_append, cmD, i6]; rfl
    · rw [events_since_of_trace tk, pushes_append, puD, i7]; rfl
    · rw [events_since_of_trace tk, pulls_append, plD, i8]; rfl
    · rw [events_since_of_trace tk, completions_append, coD, i9]; rfl
  · obtain ⟨sk, i1, i2, i3, i4, evs, i5, i6, i7, i8, i9⟩ := run (n - 1) (by omega)
    have hgood : status_good (hw ({ sk with do_hd := none } : State).clock % 256) := by
      have := hok (n - 1) (by omega)
      rw [← i4] at this
      exact this
    have hwr := win_result_good hw { sk with do_hd := none } hgood
    have hz : ((n - (n - 1)) + (U32 - 1)) % U32 = 0 := by
      unfold U32 at hn2 ⊢
      omega
    have hlast := read_intr_last hw fuel { sk with do_hd := none }
      { r with errors := if n - 1 = 0 then r.errors else 0,
               nr_sectors := n - (n - 1), sector := (r.sector + (n - 1)) % U32,
               buffer := (r.buffer + 512 * (n - 1)) % U32 } rest
      (by rw [hwr]) (by rw [hwr]; exact i2) hz
    have hint : interrupts hw fuel n s1 = hd_interrupt hw fuel sk := by
      have := interrupts_succ hw fuel (n - 1) s1 sk i1
      rw [Nat.sub_add_cancel hn1] at this
      exact this
    rw [hint, read_interrupt_eq hw fuel sk i3, hlast, hwr]
    have tk : sk.trace = s.trace ++ (e0 ++ E ++ evs) := by
      rw [i5, tD]; simp
    have tF : ∀ rq : request, (end_request 1
        { port_read HD_DATA ((r.buffer + 512 * (n - 1)) % U32) 256
            (inb hw HD_STATUS { sk with do_hd := none }).2 with queue := rq :: rest }).trace
        = s.trace ++ ((e0 ++ E ++ evs)
            ++ [Event.inb HD_STATUS (hw sk.clock % 256),
                Event.port_read HD_DATA ((r.buffer + 512 * (n - 1)) % U32) 256,
                Event.end_request 1 rq]) := by
      intro rq
      simp [end_request, inb, port_read, tk]
    refine ⟨_, rfl, ?_, ?_, ?_, ?_, ?_⟩
    · simp [end_request, inb, port_read]
    · rw [events_since_of_trace (tF _), commands_append, commands_append, cmD, i6]
      rfl
    · rw [events_since_of_trace (tF _), pushes_append, pushes_append, puD, i7]
      rfl
    · rw [events_since_of_trace (tF _), pulls_append, pulls_append, plD, i8]
      have := pulls_list r.buffer (n - 1)
      rw [Nat.sub_add_cancel hn1] at this
      rw [← this]
      rfl
    · rw [events_since_of_trace (tF _), completions_append, completions_append, coD, i9]
      simp only [completions, List.nil_append, List.cons.injEq, Prod.mk.injEq, true_and,
        and_true, request.mk.injEq]
      unfold U32 at hn2 ⊢
      refine ⟨by omega, by omega, by omega⟩

/-- Witness of C11 (scenario A): geometry 4/17/306, minor 0, start sector 0, one
sector: cylinder 0, head 0, sector 1, one WIN_READ, one interrupt, one pull of
256 words (512 bytes), request completed. -/
theorem multi_sector_read_witness :
    translate geometry_A 0 = some (0, 0, 1) ∧
    ∃ sF, interrupts hw_good 1 1
        (do_hd_request hw_good 2 (machine_A false false [request_A])).state
        = do_hd_request hw_good 1 sF ∧
      sF.queue = [] ∧
      commands (events_since (machine_A false false [request_A]) sF) = [WIN_READ] ∧
      pulls (events_since (machine_A false false [request_A]) sF) = [(HD_DATA, 0x10000, 256)] ∧
      completions (events_since (machine_A false false [request_A]) sF)
        = [(1, ⟨0x300, READ, 0, 1, 0, 0x10200⟩)] := by
  obtain ⟨hD, -, -, -, -, -, sF, h1, h2, h3, -, h4, h5⟩ :=
    multi_sector_read hw_good 1 (machine_A false false [request_A])
      (command_block 0 1 1 0 0 WIN_READ Handler.read_intr
        (controller_ready hw_good (machine_A false false [request_A])).2)
      request_A [] 0 0 1 1 rfl rfl rfl (by decide) rfl rfl (by decide) (by decide) (by decide)
      (by decide) (by decide) (by decide) (by decide) (by decide) rfl
      (fun _ _ => (by decide : status_good (0x58 % 256)))
  rw [hD]
  exact ⟨by decide, sF, h1, h2, h3, h4, h5⟩

/-! ## The result check `win_result` -/

set_option maxRecDepth 100000 in
theorem status_good_iff_bits : ∀ st, st < 256 →
    (status_good st ↔
      (st &&& READY_STAT ≠ 0 ∧ st &&& SEEK_STAT ≠ 0 ∧ st &&& BUSY_STAT = 0 ∧
       st &&& WRERR_STAT = 0 ∧ st &&& ERR_STAT = 0)) := by
  decide

set_option maxRecDepth 100000 in
theorem status_good_masked : ∀ st, st < 256 →
    (status_good st ↔ st &&& 0xF1 = 0x50) := by
  decide

theorem win_result_fst (hw : Nat → Nat) (s : State) :
    (win_result hw s).1 = if status_good (hw s.clock % 256) then 0 else 1 := by
  unfold win_result status_good
  dsimp only [inb]
  split
  · rfl
  · split <;> rfl

/-- C12 (classification by `win_result`).  For every state and every byte `st`
that the status register returns, `win_result` returns 0 exactly when the ready
and seek-complete bits of `st` are set and the busy, write-fault and error
bits are clear, and 1 for every other value; two status bytes that agree
outside the index, ECC and data-request bits (mask 0xF1) give the same
result. -/
theorem win_result_classification (hw : Nat → Nat) (s : State) :
    ((win_result hw s).1 = 0 ↔
      (hw s.clock % 256 &&& READY_STAT ≠ 0 ∧ hw s.clock % 256 &&& SEEK_STAT ≠ 0 ∧
       hw s.clock % 256 &&& BUSY_STAT = 0 ∧ hw s.clock % 256 &&& WRERR_STAT = 0 ∧
       hw s.clock % 256 &&& ERR_STAT = 0)) ∧
    ((win_result hw s).1 ≠ 0 → (win_result hw s).1 = 1) ∧
    (∀ hw' : Nat → Nat,
      hw' s.clock % 256 &&& (255 - (INDEX_STAT ||| ECC_STAT ||| DRQ_STAT))
        = hw s.clock % 256 &&& (255 - (INDEX_STAT ||| ECC_STAT ||| DRQ_STAT)) →
      (win_result hw' s).1 = (win_result hw s).1) := by
  have hlt : ∀ f : Nat → Nat, f s.clock % 256 < 256 := fun f => Nat.mod_lt _ (by decide)
  refine ⟨?_, ?_, ?_⟩
  · rw [win_result_fst, ← status_good_iff_bits _ (hlt hw)]
    split <;> simp [*]
  · rw [win_result_fst]
    split <;> simp
  · intro hw' h
    rw [win_result_fst, win_result_fst]
    have e : (255 - (INDEX_STAT ||| ECC_STAT ||| DRQ_STAT)) = 0xF1 := by decide
    rw [e] at h
    have : status_good (hw' s.clock % 256) ↔ status_good (hw s.clock % 256) := by
      rw [status_good_masked _ (hlt hw'), status_good_masked _ (hlt hw), h]
    simp only [this]

/-- C13 (error register drained on every ERROR), refuted as stated.  With a
busy status (0x80) `win_result` returns 1 and does not read the error
register. -/
theorem error_result_without_error_read :
    (win_result hw_busy (machine_A false false [])).1 = 1 ∧
    reads_of HD_ERROR (events_since (machine_A false false [])
      (win_result hw_busy (machine_A false false [])).2) = [] := by
  decide

/-- C13 as amended.  `win_result` reads the error register exactly once when the
error bit of the status is set, and then it returns 1; for every other status,
whether it returns 1 (busy, not ready, write fault, seek not complete) or 0, it
does not read the error register. -/
theorem error_register_read_iff_error_bit (hw : Nat → Nat) (s : State) :
    (reads_of HD_ERROR (events_since s (win_result hw s).2)).length
      = (if hw s.clock % 256 &&& ERR_STAT ≠ 0 then 1 else 0) ∧
    (hw s.clock % 256 &&& ERR_STAT ≠ 0 → (win_result hw s).1 = 1) ∧
    ((win_result hw s).1 = 0 →
      reads_of HD_ERROR (events_since s (win_result hw s).2) = []) := by
  have hlt : hw s.clock % 256 < 256 := Nat.mod_lt _ (by decide)
  have key : ∀ st, st < 256 → status_good st → st &&& ERR_STAT = 0 := by
    intro st h1 h2
    exact ((status_good_iff_bits st h1).mp h2).2.2.2.2
  have hne : HD_STATUS ≠ HD_ERROR := by decide
  by_cases hg : status_good (hw s.clock % 256)
  · have e0 := key _ hlt hg
    have hw1 : win_result hw s = (0, (inb hw HD_STATUS s).2) := win_result_good hw s hg
    have ht : (win_result hw s).2.trace
        = s.trace ++ [Event.inb HD_STATUS (hw s.clock % 256)] := by rw [hw1]; rfl
    rw [events_since_of_trace ht]
    refine ⟨by simp [reads_of, hne, e0], fun h => absurd e0 h, fun _ => by simp [reads_of, hne]⟩
  · have h1 : (win_result hw s).1 = 1 := by rw [win_result_fst, if_neg hg]
    unfold status_good at hg
    by_cases he : hw s.clock % 256 &&& ERR_STAT ≠ 0
    · have ht : (win_result hw s).2.trace
          = s.trace ++ [Event.inb HD_STATUS (hw s.clock % 256),
              Event.inb HD_ERROR (hw (s.clock + 1) % 256)] := by
        have hg2 : ¬ ((inb hw HD_STATUS s).1
            &&& (BUSY_STAT ||| READY_STAT ||| WRERR_STAT ||| SEEK_STAT ||| ERR_STAT)
              = (READY_STAT ||| SEEK_STAT)) := hg
        have he2 : (inb hw HD_STATUS s).1 &&& 1 ≠ 0 := he
        unfold win_result
        dsimp only
        rw [if_neg hg2, if_pos he2]
        simp [inb]
      rw [events_since_of_trace ht]
      refine ⟨by simp [reads_of, hne, he], fun _ => h1, fun h => ?_⟩
      rw [h1] at h
      cases h
    · have ht : (win_result hw s).2.trace
          = s.trace ++ [Event.inb HD_STATUS (hw s.clock % 256)] := by
        have hg2 : ¬ ((inb hw HD_STATUS s).1
            &&& (BUSY_STAT ||| READY_STAT ||| WRERR_STAT ||| SEEK_STAT ||| ERR_STAT)
              = (READY_STAT ||| SEEK_STAT)) := hg
        have he2 : ¬ (inb hw HD_STATUS s).1 &&& 1 ≠ 0 := he
        unfold win_result
        dsimp only
        rw [if_neg hg2, if_neg he2]
        simp [inb]
      rw [events_since_of_trace ht]
      refine ⟨by simp [reads_of, hne, he], fun h => absurd h he, fun _ => by simp [reads_of, hne]⟩

/-! ## The command block `hd_out` -/

theorem controller_ready_loop_zero (hw : Nat → Nat) (n : Nat) (s : State) :
    (controller_ready_loop hw (n + 1) s).1 = 0 ↔
      ∀ i < n, hw (s.clock + i) % 256 &&& 0xc0 ≠ 0x40 := by
  induction n generalizing s with
  | zero => simp [controller_ready_loop]
  | succ n ih =>
    rw [controller_ready_loop]
    rw [if_neg (Nat.succ_ne_zero n)]
    dsimp only
    by_cases h : (inb hw HD_STATUS s).1 &&& 0xc0 ≠ 0x40
    · rw [if_pos h, ih]
      constructor
      · intro hall i hi
        cases i with
        | zero => exact h
        | succ i =>
          have := hall i (by omega)
          simp only [inb] at this
          rw [show s.clock + (i + 1) = s.clock + 1 + i by omega]
          exact this
      · intro hall i hi
        have := hall (i + 1) (by omega)
        simp only [inb]
        rw [show s.clock + 1 + i = s.clock + (i + 1) by omega]
        exact this
    · rw [if_neg h]
      constructor
      · intro h0
        exact absurd h0 (Nat.succ_ne_zero n)
      · intro hall
        exact absurd (hall 0 (by omega)) h

/-- C14 (failure conditions of `hd_out`).  For all arguments and every state,
`hd_out` halts in a panic exactly when `drive > 1` or `head > 15` or
`controller_ready` returns 0, and `controller_ready` returns 0 exactly when
none of its 9999 status reads shows ready and not busy.  Whenever `hd_out`
halts, the registered completion handler is the one found on entry and no byte
has been written to any port: the events added are status reads only. -/
theorem hd_out_halts (hw : Nat → Nat) (drive nsect sect head cyl cmd : Nat) (intr : Handler)
    (s : State) :
    ((∃ p s', hd_out hw drive nsect sect head cyl cmd intr s = Res.stop (Stop.panic p) s') ↔
      (drive > 1 ∨ head > 15 ∨ (controller_ready hw s).1 = 0)) ∧
    ((controller_ready hw s).1 = 0 ↔ ∀ i < 9999, hw (s.clock + i) % 256 &&& 0xc0 ≠ 0x40) ∧
    (∀ w s', hd_out hw drive nsect sect head cyl cmd intr s = Res.stop w s' →
      (∃ p, w = Stop.panic p) ∧ s'.do_hd = s.do_hd ∧
      port_writes (events_since s s') = [] ∧ reads_only (events_since s s')) := by
  obtain ⟨e0, ro, hp⟩ := controller_ready_reads hw s
  refine ⟨?_, controller_ready_loop_zero hw 9999 s, ?_⟩
  · unfold hd_out
    by_cases h1 : drive > 1 ∨ head > 15
    · rw [if_pos h1]
      exact ⟨fun _ => by omega, fun _ => ⟨_, _, rfl⟩⟩
    · rw [if_neg h1]
      dsimp only
      by_cases h2 : (controller_ready hw s).1 = 0
      · rw [if_pos h2]
        exact ⟨fun _ => Or.inr (Or.inr h2), fun _ => ⟨_, _, rfl⟩⟩
      · rw [if_neg h2]
        constructor
        · rintro ⟨p, s', h⟩
          cases h
        · intro h
          omega
  · intro w s' h
    unfold hd_out at h
    by_cases h1 : drive > 1 ∨ head > 15
    · rw [if_pos h1] at h
      cases h
      refine ⟨⟨_, rfl⟩, rfl, ?_, ?_⟩
      · rw [events_since_self]; rfl
      · rw [events_since_self]; exact reads_only_nil
    · rw [if_neg h1] at h
      dsimp only at h
      by_cases h2 : (controller_ready hw s).1 = 0
      · rw [if_pos h2] at h
        cases h
        have ht : (controller_ready hw s).2.trace = s.trace ++ e0 := by rw [hp]
        refine ⟨⟨_, rfl⟩, by rw [hp], ?_, ?_⟩
        · rw [events_since_of_trace ht]
          exact (reads_only_observed ro).2.2.2.2
        · rw [events_since_of_trace ht]
          exact ro
      · rw [if_neg h2] at h
        cases h

theorem read_tables_frame (bread : Nat → Nat → Option (Nat → Nat)) (n drive : Nat) (b : Boot) :
    (read_tables bread n drive b).boot.st.NR_HD = b.st.NR_HD ∧
    (read_tables bread n drive b).boot.st.hd_info = b.st.hd_info ∧
    (read_tables bread n drive b).boot.callable = b.callable ∧
    ∀ k, (k % 5 = 0 ∨ k < 5 * drive) → (read_tables bread n drive b).boot.st.hd k = b.st.hd k := by
  induction n generalizing drive b with
  | zero => exact ⟨rfl, rfl, rfl, fun _ _ => rfl⟩
  | succ n ih =>
    rw [read_tables]
    cases bread (0x300 + drive * 5) 0 with
    | none => exact ⟨rfl, rfl, rfl, fun _ _ => rfl⟩
    | some data =>
      dsimp only
      by_cases hs : signed_table data
      · rw [if_neg (not_not.mpr hs)]
        obtain ⟨h1, h2, h3, h4⟩ := ih (drive + 1)
          { b with st := { b.st with hd := copy_table data drive b.st.hd } }
        refine ⟨h1, h2, h3, fun k hk => ?_⟩
        rw [h4 k (by omega)]
        show copy_table data drive b.st.hd k = b.st.hd k
        unfold copy_table set_slot
        rw [if_neg (by omega), if_neg (by omega), if_neg (by omega), if_neg (by omega)]
      · rw [if_pos hs]
        exact ⟨rfl, rfl, rfl, fun _ _ => rfl⟩

theorem cmos_drives_le (c : Nat) : cmos_drives c ≤ 2 := by
  unfold cmos_drives
  split
  · split <;> omega
  · omega

theorem setup_slots (info : Nat → hd_i_struct) (hd0 : Nat → hd_struct) (nr0 nr d : Nat)
    (h0 : nr0 = if (info 1).cyl ≠ 0 then 2 else 1) (hn : nr ≤ 2) (h5 : hd0 5 = ⟨0, 0⟩)
    (hd : d < 2) :
    clear_absent (2 - nr) nr (whole_disks info nr0 hd0) (5 * d)
      = ⟨0, if d < nr then i32 ((info d).head * (info d).sect * (info d).cyl) else 0⟩ := by
  have hd' : d = 0 ∨ d = 1 := by omega
  have hn' : nr = 0 ∨ nr = 1 ∨ nr = 2 := by omega
  by_cases hc : (info 1).cyl ≠ 0
  · rw [if_pos hc] at h0
    subst h0
    rcases hd' with rfl | rfl <;> rcases hn' with rfl | rfl | rfl <;>
      simp [clear_absent, whole_disks, set_slot]
  · rw [if_neg hc] at h0
    subst h0
    have hc0 : (info 1).cyl = 0 := not_not.mp hc
    rcases hd' with rfl | rfl <;> rcases hn' with rfl | rfl | rfl <;>
      simp [clear_absent, whole_disks, set_slot, h5, hc0, i32]

theorem sys_setup_first (hw : Nat → Nat) (bios : Nat → Nat)
    (bread : Nat → Nat → Option (Nat → Nat)) (b : Boot) (hcall : b.callable = true) :
    (at_tables hw bios b).st.NR_HD = cmos_drives (hw b.st.clock % 256) ∧
    (at_tables hw bios b).st.hd_info
      = (fun d => if d < 2 then bios_info bios d else b.st.hd_info d) ∧
    (at_tables hw bios b).st.hd
      = clear_absent (2 - cmos_drives (hw b.st.clock % 256))
        (cmos_drives (hw b.st.clock % 256))
        (whole_disks (fun d => if d < 2 then bios_info bios d else b.st.hd_info d)
          (if (bios_info bios 1).cyl ≠ 0 then 2 else 1) b.st.hd) ∧
    (at_tables hw bios b).log = b.log ∧
    (∀ b3, read_tables bread (cmos_drives (hw b.st.clock % 256)) 0 (at_tables hw bios b)
        = BootRes.halt b3 →
      sys_setup hw bios bread b = BootRes.halt b3) ∧
    (∀ v b3, read_tables bread (cmos_drives (hw b.st.clock % 256)) 0 (at_tables hw bios b)
        = BootRes.ret v b3 →
      ∃ b4, sys_setup hw bios bread b = BootRes.ret 0 b4 ∧ b4.st = b3.st) := by
  refine ⟨?_, ?_, ?_, ?_, ?_, ?_⟩
  · simp [at_tables, inb, outb, cmos_drives]
  · simp [at_tables, inb, outb]
  · simp [at_tables, inb, outb, cmos_drives]
  · rfl
  · intro b3 h
    unfold sys_setup
    rw [if_neg (by rw [hcall]; decide)]
    dsimp only
    unfold cmos_drives at_tables at h
    simp only [inb, outb] at h ⊢
    rw [h]
  · intro v b3 h
    unfold sys_setup
    rw [if_neg (by rw [hcall]; decide)]
    dsimp only
    unfold cmos_drives at_tables at h
    simp only [inb, outb] at h ⊢
    rw [h]
    dsimp only
    refine ⟨_, rfl, ?_⟩
    dsimp only
    split_ifs <;> rfl

/-- C16 (whole-disk extent), refuted as stated.  With a BIOS block that
describes one drive of 4 heads, 17 sectors and 306 cylinders and a CMOS byte
0x12 of zero, `sys_setup` completes with `NR_HD = 0` and `hd[0].nr_sects = 0`,
while `hd_info[0].head * hd_info[0].sect * hd_info[0].cyl` is 20808. -/
theorem whole_disk_slot_cleared_by_cmos :
    (sys_setup (fun _ => 0) bios_one bread_signed boot_0).value = some 0 ∧
    (sys_setup (fun _ => 0) bios_one bread_signed boot_0).boot.st.NR_HD = 0 ∧
    ((sys_setup (fun _ => 0) bios_one bread_signed boot_0).boot.st.hd (5 * 0)).nr_sects = 0 ∧
    ((sys_setup (fun _ => 0) bios_one bread_signed boot_0).boot.st.hd_info 0).head
      * ((sys_setup (fun _ => 0) bios_one bread_signed boot_0).boot.st.hd_info 0).sect
      * ((sys_setup (fun _ => 0) bios_one bread_signed boot_0).boot.st.hd_info 0).cyl = 20808 := by
  decide

/-- C16 as amended.  When the first call of `sys_setup` completes (slot 5 still
holding its static initial value), it has returned 0, `hd_info[d]` holds the
BIOS record of drive `d`, `NR_HD` is the number of drives the CMOS byte 0x12
shows, and for each `d` in 0..MAX_HD-1 slot `5*d` has `start_sect = 0` and
`nr_sects` equal to the 32-bit `int` product `head * sect * cyl` of `hd_info[d]`
when `d < NR_HD` and to 0 otherwise; the product is the mathematical one when
it is below 2^31. -/
theorem whole_disk_extent (hw : Nat → Nat) (bios : Nat → Nat)
    (bread : Nat → Nat → Option (Nat → Nat)) (b : Boot) (hcall : b.callable = true)
    (h5 : b.st.hd 5 = ⟨0, 0⟩) (v : Int) (b' : Boot)
    (hret : sys_setup hw bios bread b = BootRes.ret v b') (d : Nat) (hd : d < MAX_HD) :
    v = 0 ∧
    b'.st.NR_HD = cmos_drives (hw b.st.clock % 256) ∧
    b'.st.hd_info d = bios_info bios d ∧
    (b'.st.hd (5 * d)).start_sect = 0 ∧
    (b'.st.hd (5 * d)).nr_sects
      = (if d < b'.st.NR_HD then
          i32 ((b'.st.hd_info d).head * (b'.st.hd_info d).sect * (b'.st.hd_info d).cyl)
         else 0) ∧
    ((b'.st.hd_info d).head * (b'.st.hd_info d).sect * (b'.st.hd_info d).cyl < 2147483648 →
      i32 ((b'.st.hd_info d).head * (b'.st.hd_info d).sect * (b'.st.hd_info d).cyl)
        = (b'.st.hd_info d).head * (b'.st.hd_info d).sect * (b'.st.hd_info d).cyl) := by
  have hd2 : d < 2 := hd
  obtain ⟨e1, e2, e3, -, hhalt, hok⟩ := sys_setup_first hw bios bread b hcall
  obtain ⟨f1, f2, -, f4⟩ :=
    read_tables_frame bread (cmos_drives (hw b.st.clock % 256)) 0 (at_tables hw bios b)
  cases hrt : read_tables bread (cmos_drives (hw b.st.clock % 256)) 0 (at_tables hw bios b) with
  | halt b3 =>
    rw [hhalt b3 hrt] at hret
    cases hret
  | ret v3 b3 =>
    obtain ⟨b4, h4, hst⟩ := hok v3 b3 hrt
    rw [h4] at hret
    cases hret
    rw [hrt] at f1 f2 f4
    simp only [BootRes.boot] at f1 f2 f4
    have hinfo : b'.st.hd_info d = bios_info bios d := by
      rw [hst, f2, e2]
      simp [hd2]
    have hnr : b'.st.NR_HD = cmos_drives (hw b.st.clock % 256) := by rw [hst, f1, e1]
    have hslot : b'.st.hd (5 * d)
        = ⟨0, if d < b'.st.NR_HD then
            i32 ((b'.st.hd_info d).head * (b'.st.hd_info d).sect * (b'.st.hd_info d).cyl)
          else 0⟩ := by
      rw [hinfo, hnr, hst, f4 (5 * d) (Or.inl (by omega)), e3]
      rw [setup_slots _ b.st.hd _ _ d (by simp) (cmos_drives_le _) h5 hd2]
      simp [hd2]
    refine ⟨rfl, hnr, hinfo, by rw [hslot], by rw [hslot], ?_⟩
    intro hlt
    have hh : 0 ≤ (bios_info bios d).head := by simp [bios_info]
    have hs : 0 ≤ (bios_info bios d).sect := by simp [bios_info]
    have hc : 0 ≤ (bios_info bios d).cyl := by simp [bios_info]
    rw [hinfo] at hlt ⊢
    have hp : 0 ≤ (bios_info bios d).head * (bios_info bios d).sect * (bios_info bios d).cyl :=
      mul_nonneg (mul_nonneg hh hs) hc
    unfold i32
    omega

/-- Witness of C16 as amended: one drive of 4 heads, 17 sectors and 306
cylinders shown by the CMOS, with a signed first sector. -/
theorem whole_disk_extent_witness :
    ((sys_setup (fun _ => 0x10) bios_one bread_signed boot_0).boot.st.hd (5 * 0)).nr_sects
      = 20808 := by
  have h := whole_disk_extent (fun _ => 0x10) bios_one bread_signed boot_0 rfl rfl 0
    (sys_setup (fun _ => 0x10) bios_one bread_signed boot_0).boot
    rfl 0 (by decide)
  rw [h.2.2.2.2.1]
  decide

/-! ## Bootstrap: the partition tables -/

theorem copy_table_entry (data : Nat → Nat) (drive : Nat) (hd : Nat → hd_struct) (i : Nat)
    (h1 : 1 ≤ i) (h4 : i ≤ 4) :
    copy_table data drive hd (5 * drive + i) = partition_entry data i := by
  have hi : i = 1 ∨ i = 2 ∨ i = 3 ∨ i = 4 := by omega
  unfold copy_table set_slot
  rcases hi with rfl | rfl | rfl | rfl
  · rw [if_neg (by omega), if_neg (by omega), if_neg (by omega), if_pos (by omega)]
  · rw [if_neg (by omega), if_neg (by omega), if_pos (by omega)]
  · rw [if_neg (by omega), if_pos (by omega)]
  · rw [if_pos (by omega)]

theorem copy_table_above (data : Nat → Nat) (drive : Nat) (hd : Nat → hd_struct) (k : Nat)
    (hk : 5 * (drive + 1) ≤ k) : copy_table data drive hd k = hd k := by
  unfold copy_table set_slot
  rw [if_neg (by omega), if_neg (by omega), if_neg (by omega), if_neg (by omega)]

theorem read_tables_reach (bread : Nat → Nat → Option (Nat → Nat)) (n drive : Nat) (b : Boot)
    (d : Nat) (data : Nat → Nat) (h1 : drive ≤ d) (h2 : d < drive + n)
    (hreach : ∀ e, drive ≤ e → e < d → ∃ t, bread (0x300 + e * 5) 0 = some t ∧ signed_table t)
    (hread : bread (0x300 + d * 5) 0 = some data) :
    (signed_table data → ∀ i, 1 ≤ i → i ≤ 4 →
      (read_tables bread n drive b).boot.st.hd (5 * d + i) = partition_entry data i) ∧
    (¬ signed_table data →
      (read_tables bread n drive b).value = none ∧
      (read_tables bread n drive b).boot.log = b.log ++ [BootEvent.bad_table d] ∧
      ∀ k, 5 * d ≤ k → (read_tables bread n drive b).boot.st.hd k = b.st.hd k) := by
  induction n generalizing drive b with
  | zero => omega
  | succ n ih =>
    rw [read_tables]
    by_cases hdd : d = drive
    · subst hdd
      rw [hread]
      dsimp only
      constructor
      · intro hs i hi1 hi4
        rw [if_neg (not_not.mpr hs)]
        rw [(read_tables_frame bread n (d + 1) _).2.2.2 (5 * d + i) (Or.inr (by omega))]
        exact copy_table_entry data d b.st.hd i hi1 hi4
      · intro hs
        rw [if_pos hs]
        exact ⟨rfl, rfl, fun _ _ => rfl⟩
    · obtain ⟨t, ht, hts⟩ := hreach drive (le_refl _) (by omega)
      rw [ht]
      dsimp only
      rw [if_neg (not_not.mpr hts)]
      obtain ⟨g1, g2⟩ := ih (drive + 1)
        { b with st := { b.st with hd := copy_table t drive b.st.hd } } (by omega) (by omega)
        (fun e he1 he2 => hreach e (by omega) he2)
      refine ⟨g1, fun hs => ?_⟩
      obtain ⟨k1, k2, k3⟩ := g2 hs
      refine ⟨k1, k2, fun k hk => ?_⟩
      rw [k3 k hk]
      exact copy_table_above t drive b.st.hd k (by omega)

theorem whole_disks_other (info : Nat → hd_i_struct) (n : Nat) (hd : Nat → hd_struct) (k : Nat)
    (hk : k % 5 ≠ 0) : whole_disks info n hd k = hd k := by
  induction n with
  | zero => rfl
  | succ n ih =>
    rw [whole_disks, set_slot, if_neg (by omega), ih]

theorem clear_absent_other (n i : Nat) (hd : Nat → hd_struct) (k : Nat) (hk : k % 5 ≠ 0) :
    clear_absent n i hd k = hd k := by
  induction n generalizing i hd with
  | zero => rfl
  | succ n ih =>
    rw [clear_absent, ih, set_slot, if_neg (by omega)]

/-- C17 (partition-table signature check), refuted as stated.  With two
drives present, a first sector of drive 0 whose bytes 510 and 511 are zero and
a first sector of drive 1 that carries 0x55, 0xAA, `sys_setup` halts at drive 0:
the entries of drive 1 are not copied, slot 6 keeps `{0, 0}` although entry 1 of
that sector is `{1, 20807}`. -/
theorem signed_table_of_second_drive_not_copied :
    (sys_setup (fun _ => 0x11) bios_two bread_first_bad boot_0).boot.st.NR_HD = 2 ∧
    (bread_first_bad (0x300 + 1 * 5) 0).map (fun t => (byte_at t 510, byte_at t 511))
      = some (0x55, 0xAA) ∧
    (bread_first_bad (0x300 + 1 * 5) 0).map (fun t => partition_entry t 1)
      = some ⟨1, 20807⟩ ∧
    (sys_setup (fun _ => 0x11) bios_two bread_first_bad boot_0).value = none ∧
    (sys_setup (fun _ => 0x11) bios_two bread_first_bad boot_0).boot.log
      = [BootEvent.bad_table 0] ∧
    (sys_setup (fun _ => 0x11) bios_two bread_first_bad boot_0).boot.st.hd (5 * 1 + 1)
      = ⟨0, 0⟩ := by
  decide

/-- C17 as amended.  In a first call of `sys_setup`, for every drive `d` below
the drive count of the CMOS that the loop over the tables reaches (the first
sector of every earlier drive was read and carries the signature) and whose
first sector is read: if bytes 510 and 511 are 0x55 and 0xAA, entry `i` of the
table at 0x1BE is in slot `5*d+i` for `i` from 1 to 4 in the state `sys_setup`
leaves; otherwise `sys_setup` halts, the last thing it reported is the bad
partition table of drive `d`, and slots 1 to 4 of drive `d` and of every later
drive are as they were before the call. -/
theorem partition_table_signature_check (hw : Nat → Nat) (bios : Nat → Nat)
    (bread : Nat → Nat → Option (Nat → Nat)) (b : Boot) (hcall : b.callable = true)
    (d : Nat) (data : Nat → Nat) (hd : d < cmos_drives (hw b.st.clock % 256))
    (hreach : ∀ e < d, ∃ t, bread (0x300 + e * 5) 0 = some t ∧ signed_table t)
    (hread : bread (0x300 + d * 5) 0 = some data) :
    (sys_setup hw bios bread b).boot.st.NR_HD = cmos_drives (hw b.st.clock % 256) ∧
    (signed_table data → ∀ i, 1 ≤ i → i ≤ 4 →
      (sys_setup hw bios bread b).boot.st.hd (5 * d + i) = partition_entry data i) ∧
    (¬ signed_table data →
      (sys_setup hw bios bread b).value = none ∧
      (sys_setup hw bios bread b).boot.log = b.log ++ [BootEvent.bad_table d] ∧
      ∀ e i, d ≤ e → 1 ≤ i → i ≤ 4 →
        (sys_setup hw bios bread b).boot.st.hd (5 * e + i) = b.st.hd (5 * e + i)) := by
  obtain ⟨e1, -, e3, e4, hhalt, hok⟩ := sys_setup_first hw bios bread b hcall
  obtain ⟨f1, -, -, -⟩ :=
    read_tables_frame bread (cmos_drives (hw b.st.clock % 256)) 0 (at_tables hw bios b)
  obtain ⟨g1, g2⟩ := read_tables_reach bread (cmos_drives (hw b.st.clock % 256)) 0
    (at_tables hw bios b) d data (Nat.zero_le _) (by omega)
    (fun e _ he => hreach e he) hread
  have hst : (sys_setup hw bios bread b).boot.st
      = (read_tables bread (cmos_drives (hw b.st.clock % 256)) 0 (at_tables hw bios b)).boot.st := by
    cases hrt : read_tables bread (cmos_drives (hw b.st.clock % 256)) 0 (at_tables hw bios b) with
    | halt b3 => rw [hhalt b3 hrt]
    | ret v3 b3 =>
      obtain ⟨b4, h4, h5⟩ := hok v3 b3 hrt
      rw [h4]
      exact h5
  refine ⟨by rw [hst, f1, e1], fun hs i hi1 hi4 => by rw [hst]; exact g1 hs i hi1 hi4,
    fun hs => ?_⟩
  obtain ⟨k1, k2, k3⟩ := g2 hs
  cases hrt : read_tables bread (cmos_drives (hw b.st.clock % 256)) 0 (at_tables hw bios b) with
  | ret v3 b3 =>
    rw [hrt] at k1
    cases k1
  | halt b3 =>
    rw [hrt] at k2
    refine ⟨by rw [hhalt b3 hrt]; rfl, ?_, fun e i he hi1 hi4 => ?_⟩
    · rw [hhalt b3 hrt]
      show b3.log = _
      rw [← e4]
      exact k2
    · rw [hst, k3 (5 * e + i) (by omega), e3,
        clear_absent_other _ _ _ _ (by omega), whole_disks_other _ _ _ _ (by omega)]

/-- Witness of C17 as amended: two drives whose first sectors both carry the
signature; entry 1 of drive 1 is in slot 6. -/
theorem partition_table_signature_check_witness :
    (sys_setup (fun _ => 0x11) bios_two bread_signed boot_0).boot.st.hd (5 * 1 + 1)
      = ⟨1, 20807⟩ :=
  ((partition_table_signature_check (fun _ => 0x11) bios_two bread_signed boot_0 rfl 1
    sector_signed (by decide) (fun _ _ => ⟨sector_signed, rfl, by decide⟩) rfl).2.1
    (by decide) 1 (by decide) (by decide)).trans (by decide)

/-! ## Sequential progress -/

theorem Kept.same (s : State) : Kept s s :=
  ⟨le_refl _, fun _ r rest hq => ⟨r.errors, by rw [hq]⟩⟩

theorem Kept.of_queue {s s' : State} (h : s'.queue = s.queue) : Kept s s' :=
  ⟨by rw [h], fun _ r rest hq => ⟨r.errors, by rw [h, hq]⟩⟩

theorem Kept.chain {s p q : State} (h1 : Kept s p) (h2 : Kept p q) : Kept s q := by
  obtain ⟨a1, a2⟩ := h1
  obtain ⟨b1, b2⟩ := h2
  refine ⟨by omega, fun hl r rest hq => ?_⟩
  obtain ⟨e, he⟩ := a2 (by omega) r rest hq
  obtain ⟨e', he'⟩ := b2 (by omega) _ rest he
  exact ⟨e', he'⟩

theorem Issued.keeps {cmd : Nat} {s p : State} (h : Issued cmd s p) : Kept s p := by
  obtain ⟨evs, -, -, -, h⟩ := h
  exact Kept.of_queue (by rw [h])

theorem Polls.holds {s p : State} (h : Polls s p) : Kept s p := by
  obtain ⟨evs, -, h⟩ := h
  exact Kept.of_queue (by rw [h])

theorem Bumped.retains {s p : State} (h : Bumped s p) : Kept s p := by
  obtain ⟨-, -, -, -, -, -, -, b8, -, b11⟩ := h
  refine ⟨b8, fun hl r rest hq => ?_⟩
  exact ⟨_, (b11 hl r rest hq).2.1⟩

theorem kept_after_end_request {u : Nat} {s s' : State} {r : request} {rest : List request}
    (hq : s.queue = r :: rest) (h : Kept (end_request u s) s') :
    s'.queue.length < s.queue.length := by
  have he : (end_request u s).queue = rest := by simp [end_request, hq]
  have := h.1
  rw [he] at this
  rw [hq]
  simp
  omega

theorem kept_do_hd_request (hw : Nat → Nat) (fuel : Nat) (s : State) :
    Kept s (do_hd_request hw fuel s).state := by
  induction fuel generalizing s with
  | zero => exact Kept.same s
  | succ fuel ih =>
    cases hq : s.queue with
    | nil => rw [do_hd_request_nil hw fuel s hq]; exact Kept.same s
    | cons r rest =>
      by_cases hv : rejected s r
      · rw [do_hd_request_rejected hw fuel s r rest hq hv]
        have := kept_after_end_request hq (ih (end_request 0 s))
        exact ⟨by omega, fun hl => by omega⟩
      · cases ht : translate (s.hd_info (MINOR r.dev / 5)) (abs_sector s r) with
        | none =>
          rw [do_hd_request_divide hw fuel s r rest hq hv ht]; exact Kept.same s
        | some c =>
          obtain ⟨cyl, head, sec⟩ := c
          cases hr : s.reset with
          | true =>
            rw [do_hd_request_reset hw fuel s r rest _ hq hv ht hr]
            exact Kept.chain (@Kept.of_queue s { s with reset := false, recalibrate := true } rfl)
              (issued_reset_hd hw _ _).keeps
          | false =>
            cases hc : s.recalibrate with
            | true =>
              rw [do_hd_request_recal hw fuel s r rest _ hq hv ht hr hc]
              exact Kept.chain (@Kept.of_queue s { s with recalibrate := false } rfl)
                (issued_hd_out hw _ _ _ _ _ _ _ _).keeps
            | false =>
              by_cases hw1 : r.cmd = WRITE
              · rw [do_hd_request_write hw fuel s r rest cyl head sec hq hv ht hr hc hw1]
                have hI := issued_hd_out hw (MINOR r.dev / 5) r.nr_sectors sec head cyl
                  WIN_WRITE Handler.write_intr s
                cases hR : hd_out hw (MINOR r.dev / 5) r.nr_sectors sec head cyl
                    WIN_WRITE Handler.write_intr s with
                | stop w s1 =>
                  rw [hR] at hI
                  exact hI.keeps
                | ret s1 =>
                  rw [hR] at hI
                  have hP := (hI.polls (polls_drq_poll hw 3000 s1)).keeps
                  simp only [Res.bind]
                  split
                  · have hB := bumped_bad_rw_intr (drq_poll hw 3000 s1).2
                    cases hb : bad_rw_intr (drq_poll hw 3000 s1).2 with
                    | stop w s2 =>
                      rw [hb] at hB
                      exact hP.chain hB.retains
                    | ret s2 =>
                      rw [hb] at hB
                      exact (hP.chain hB.retains).chain (ih s2)
                  · exact hP.chain (Kept.of_queue rfl)
              · by_cases hr1 : r.cmd = READ
                · rw [do_hd_request_read hw fuel s r rest cyl head sec hq hv ht hr hc hr1]
                  exact (issued_hd_out hw _ _ _ _ _ _ _ _).keeps
                · rw [do_hd_request_unknown hw fuel s r rest _ hq hv ht hr hc hw1 hr1]
                  exact Kept.same s

theorem kept_error_path (hw : Nat → Nat) (fuel : Nat) (s : State) :
    Kept s ((bad_rw_intr s).bind (do_hd_request hw fuel)).state := by
  have hB := bumped_bad_rw_intr s
  cases hb : bad_rw_intr s with
  | stop w s2 =>
    rw [hb] at hB
    exact hB.retains
  | ret s2 =>
    rw [hb] at hB
    exact hB.retains.chain (kept_do_hd_request hw fuel s2)

theorem ended_shrinks (hw : Nat → Nat) (fuel u : Nat) (X : State) (n : Nat)
    (h : (do_hd_request hw fuel (end_request u X)).state.queue.length = n)
    (hne : X.queue ≠ []) : n < X.queue.length := by
  cases hXq : X.queue with
  | nil => exact absurd hXq hne
  | cons a b =>
    have := kept_after_end_request hXq (kept_do_hd_request hw fuel (end_request u X))
    rw [hXq] at this
    omega

theorem win_result_queue (hw : Nat → Nat) (s : State) : (win_result hw s).2.queue = s.queue := by
  obtain ⟨evs, -, h⟩ := polls_win_result hw s
  rw [h]

theorem step_progress (hw : Nat → Nat) (fuel : Nat) (step : Step) (s : State) (r : request)
    (rest : List request) (hq : s.queue = r :: rest)
    (hactive : (step.run hw fuel s).state.queue.length = s.queue.length) :
    ∃ r', (step.run hw fuel s).state.queue = r' :: rest ∧ r'.dev = r.dev ∧ r'.cmd = r.cmd ∧
      (Unmoved r r' ∨
        ((step = Step.read_intr ∨ step = Step.write_intr) ∧ status_good (hw s.clock % 256) ∧
          Advanced r r')) := by
  have fromKept : Kept s (step.run hw fuel s).state →
      ∃ r', (step.run hw fuel s).state.queue = r' :: rest ∧ r'.dev = r.dev ∧ r'.cmd = r.cmd ∧
        (Unmoved r r' ∨
          ((step = Step.read_intr ∨ step = Step.write_intr) ∧ status_good (hw s.clock % 256) ∧
            Advanced r r')) := by
    intro hk
    obtain ⟨e, he⟩ := hk.2 hactive r rest hq
    exact ⟨_, he, rfl, rfl, Or.inl ⟨rfl, rfl, rfl⟩⟩
  have hwq := win_result_queue hw s
  have hwk : Kept s (win_result hw s).2 := Kept.of_queue hwq
  have hfst := win_result_fst hw s
  cases step with
  | do_hd_request => exact fromKept (kept_do_hd_request hw fuel s)
  | bad_rw_intr => exact fromKept (bumped_bad_rw_intr s).retains
  | recal_intr =>
    apply fromKept
    show Kept s (recal_intr hw fuel s).state
    by_cases hok : (win_result hw s).1 ≠ 0
    · rw [(handler_error_path hw fuel s hok).2.2]
      exact hwk.chain (kept_error_path hw fuel _)
    · unfold recal_intr
      dsimp only
      rw [if_neg hok]
      exact hwk.chain (kept_do_hd_request hw fuel _)
  | read_intr =>
    by_cases hok : (win_result hw s).1 ≠ 0
    · apply fromKept
      show Kept s (read_intr hw fuel s).state
      rw [(handler_error_path hw fuel s hok).1]
      exact hwk.chain (kept_error_path hw fuel _)
    · have hok0 : (win_result hw s).1 = 0 := not_not.mp hok
      have hgood : status_good (hw s.clock % 256) := by
        by_contra hng
        rw [hfst, if_neg hng] at hok0
        exact absurd hok0 (by decide)
      have hq2 : (win_result hw s).2.queue = r :: rest := by rw [hwq, hq]
      by_cases hn : (r.nr_sectors + (U32 - 1)) % U32 ≠ 0
      · have e := read_intr_more hw fuel s r rest hok0 hq2 hn
        refine ⟨{ r with errors := 0, buffer := (r.buffer + 512) % U32,
                         sector := (r.sector + 1) % U32,
                         nr_sectors := (r.nr_sectors + (U32 - 1)) % U32 },
          ?_, ?_, ?_, Or.inr ⟨Or.inl rfl, hgood, ?_⟩⟩
        · show (read_intr hw fuel s).state.queue = _
          rw [e]
          rfl
        · rfl
        · rfl
        · exact ⟨rfl, rfl, rfl, hn⟩
      · exfalso
        have e := read_intr_last hw fuel s r rest hok0 hq2 (not_not.mp hn)
        change (read_intr hw fuel s).state.queue.length = s.queue.length at hactive
        rw [e] at hactive
        have hlt := ended_shrinks hw fuel 1 _ _ hactive (by simp)
        simp [port_read, hq] at hlt
  | write_intr =>
    by_cases hok : (win_result hw s).1 ≠ 0
    · apply fromKept
      show Kept s (write_intr hw fuel s).state
      rw [(handler_error_path hw fuel s hok).2.1]
      exact hwk.chain (kept_error_path hw fuel _)
    · have hok0 : (win_result hw s).1 = 0 := not_not.mp hok
      have hgood : status_good (hw s.clock % 256) := by
        by_contra hng
        rw [hfst, if_neg hng] at hok0
        exact absurd hok0 (by decide)
      have hq2 : (win_result hw s).2.queue = r :: rest := by rw [hwq, hq]
      by_cases hn : (r.nr_sectors + (U32 - 1)) % U32 ≠ 0
      · have e := write_intr_more hw fuel s r rest hok0 hq2 hn
        refine ⟨{ r with nr_sectors := (r.nr_sectors + (U32 - 1)) % U32,
                         sector := (r.sector + 1) % U32,
                         buffer := (r.buffer + 512) % U32 },
          ?_, ?_, ?_, Or.inr ⟨Or.inr rfl, hgood, ?_⟩⟩
        · show (write_intr hw fuel s).state.queue = _
          rw [e]
          rfl
        · rfl
        · rfl
        · exact ⟨rfl, rfl, rfl, hn⟩
      · exfalso
        have e := write_intr_last hw fuel s r rest hok0 hq2 (not_not.mp hn)
        change (write_intr hw fuel s).state.queue.length = s.queue.length at hactive
        rw [e] at hactive
        have hlt := ended_shrinks hw fuel 1 _ _ hactive (by simp)
        simp [hq] at hlt

/-- C18 (sequential progress and correct resume).  For a state whose current
request is `r` and every step among `read_intr`, `write_intr`, `recal_intr`,
`bad_rw_intr` and `do_hd_request`: if the request is still the current one
after the step (the queue has not shrunk), device and operation are those of
`r`, `sector + nr_sectors` and `buffer - 512*sector` are what they were in the
32-bit arithmetic of the fields, and either sector, count and buffer did not
move, or the step was `read_intr` or `write_intr` on a good status and the
sector went up by one, the count down by one and the buffer up by 512.  For a
request within the 32-bit range this holds of the plain integers, the sector
does not decrease, and the request stays within the range.  A transfer command
the dispatcher issues is built from the current fields: `nr_sectors` as count,
the translation of `sector + start_sect` as address, `buffer` as the address of
the first sector pushed. -/
theorem sequential_progress (hw : Nat → Nat) (fuel : Nat) (step : Step) (s : State)
    (r : request) (rest : List request) (hq : s.queue = r :: rest) :
    ((step.run hw fuel s).state.queue.length = s.queue.length →
      ∃ r', (step.run hw fuel s).state.queue = r' :: rest ∧ r'.dev = r.dev ∧ r'.cmd = r.cmd ∧
        (r'.sector + r'.nr_sectors) % U32 = (r.sector + r.nr_sectors) % U32 ∧
        (r'.buffer + 512 * r.sector) % U32 = (r.buffer + 512 * r'.sector) % U32 ∧
        (Unmoved r r' ∨
          ((step = Step.read_intr ∨ step = Step.write_intr) ∧
            status_good (hw s.clock % 256) ∧ Advanced r r')) ∧
        (in_range r →
          in_range r' ∧ r.sector ≤ r'.sector ∧ r'.sector ≤ r.sector + 1 ∧
          r'.sector + r'.nr_sectors = r.sector + r.nr_sectors ∧
          (r'.buffer : Int) - 512 * r'.sector = (r.buffer : Int) - 512 * r.sector)) ∧
    (∀ cyl head sec, ¬ rejected s r →
      translate (s.hd_info (MINOR r.dev / 5)) (abs_sector s r) = some (cyl, head, sec) →
      s.reset = false → s.recalibrate = false →
      (r.cmd = READ →
        do_hd_request hw (fuel + 1) s
          = hd_out hw (MINOR r.dev / 5) r.nr_sectors sec head cyl WIN_READ
              Handler.read_intr s) ∧
      (r.cmd = WRITE →
        do_hd_request hw (fuel + 1) s
          = (hd_out hw (MINOR r.dev / 5) r.nr_sectors sec head cyl WIN_WRITE
              Handler.write_intr s).bind
              (fun s1 =>
                if (drq_poll hw 3000 s1).1 = 0 then
                  (bad_rw_intr (drq_poll hw 3000 s1).2).bind (do_hd_request hw fuel)
                else Res.ret (port_write HD_DATA r.buffer 256 (drq_poll hw 3000 s1).2)))) := by
  constructor
  · intro hactive
    obtain ⟨r', h1, h2, h3, h4⟩ := step_progress hw fuel step s r rest hq hactive
    refine ⟨r', h1, h2, h3, ?_, ?_, h4, ?_⟩
    · rcases h4 with ⟨a, b, c⟩ | ⟨-, -, a, b, c, -⟩
      · rw [a, b]
      · rw [a, b]; unfold U32; omega
    · rcases h4 with ⟨a, b, c⟩ | ⟨-, -, a, b, c, -⟩
      · rw [a, c]
      · rw [a, c]; unfold U32; omega
    · rintro ⟨i1, i2, i3⟩
      rcases h4 with ⟨a, b, c⟩ | ⟨-, -, a, b, c, d⟩
      · unfold in_range
        rw [a, b, c]
        exact ⟨⟨i1, i2, i3⟩, le_refl _, by omega, rfl, rfl⟩
      · unfold in_range
        rw [b] at d
        rw [a, b, c]
        unfold U32 at i2 i3 d ⊢
        omega
  · intro cyl head sec hv ht hr hc
    exact ⟨fun hr1 => do_hd_request_read hw fuel s r rest cyl head sec hq hv ht hr hc hr1,
      fun hw1 => do_hd_request_write hw fuel s r rest cyl head sec hq hv ht hr hc hw1⟩

/-- Witness of C18: `read_intr` on a good status with the READ request of two
sectors current: the request stays, at sector 1 with one sector left. -/
theorem sequential_progress_witness :
    ∃ r', (Step.read_intr.run hw_good 1 (machine_A false false [request_C_read])).state.queue
        = [r'] ∧
      r'.sector + r'.nr_sectors = 2 ∧ r'.sector = 1 := by
  obtain ⟨r', h1, -, -, -, -, h5, h6⟩ :=
    (sequential_progress hw_good 1 Step.read_intr (machine_A false false [request_C_read])
      request_C_read [] rfl).1 (by decide)
  have h7 := h6 (by decide)
  refine ⟨r', h1, h7.2.2.2.1, ?_⟩
  rcases h5 with ⟨a, -, -⟩ | ⟨-, -, a, -⟩
  · exfalso
    have : (Step.read_intr.run hw_good 1 (machine_A false false [request_C_read])).state.queue
        = [{ request_C_read with sector := 1, nr_sectors := 1, buffer := 0x10200 }] := by decide
    rw [this] at h1
    cases h1
    exact absurd a (by decide)
  · rw [a]; decide

/-! ## The geometry check of `hd_out` -/

theorem registry_ok_congr {s s' : State} (h : registry_ok s) (h1 : s'.NR_HD = s.NR_HD)
    (h2 : s'.hd_info = s.hd_info) : registry_ok s' := by
  unfold registry_ok
  rw [h1, h2]
  exact h

theorem hd_out_in_range (hw : Nat → Nat) (drive nsect sect head cyl cmd : Nat) (intr : Handler)
    (s : State) (hd : drive ≤ 1) (hh : head ≤ 15) (w : Stop) (s' : State)
    (h : hd_out hw drive nsect sect head cyl cmd intr s = Res.stop w s') :
    w = Stop.panic Panic.not_ready := by
  rcases hd_out_cases hw drive nsect sect head cyl cmd intr s with e | ⟨p, -, -, -, e | e⟩
  · exfalso
    unfold hd_out at e
    rw [if_neg (by omega)] at e
    dsimp only at e
    split at e <;> cases e
  · rw [e] at h
    cases h
    rfl
  · rw [e] at h
    cases h

theorem bad_rw_intr_stop (s : State) (w : Stop) (s' : State)
    (h : bad_rw_intr s = Res.stop w s') : w = Stop.null_pointer := by
  unfold bad_rw_intr at h
  dsimp only at h
  split at h
  · cases h; rfl
  · split at h
    · cases h; rfl
    · split at h <;> cases h

theorem valid_request_geometry (s : State) (hreg : registry_ok s) (r : request)
    (hv : ¬ rejected s r) :
    u32 (s.hd_info (MINOR r.dev / 5)).sect ≠ 0 ∧ u32 (s.hd_info (MINOR r.dev / 5)).head ≠ 0 ∧
    MINOR r.dev / 5 ≤ 1 ∧ CURRENT_DEV r ≤ 1 ∧
    u32 ((s.hd_info (CURRENT_DEV r)).head - 1) ≤ 15 ∧
    ∃ cyl head sec,
      translate (s.hd_info (MINOR r.dev / 5)) (abs_sector s r) = some (cyl, head, sec) ∧
      head ≤ 15 := by
  obtain ⟨hnr, hall⟩ := hreg
  have hlt : MINOR r.dev / 5 < s.NR_HD := by
    unfold rejected at hv
    have : ¬ MINOR r.dev ≥ 5 * s.NR_HD := fun h => hv (Or.inl h)
    omega
  obtain ⟨a1, a2, a3, a4⟩ := hall _ hlt
  have hs : u32 (s.hd_info (MINOR r.dev / 5)).sect = (s.hd_info (MINOR r.dev / 5)).sect.toNat := by
    unfold u32; congr 1; omega
  have hh : u32 (s.hd_info (MINOR r.dev / 5)).head = (s.hd_info (MINOR r.dev / 5)).head.toNat := by
    unfold u32; congr 1; omega
  refine ⟨by rw [hs]; omega, by rw [hh]; omega, by omega, by unfold CURRENT_DEV; omega, ?_, ?_⟩
  · unfold CURRENT_DEV
    unfold u32
    omega
  · rw [translate_eq _ _ a1 (by omega) a3 a4]
    refine ⟨_, _, _, rfl, ?_⟩
    have : abs_sector s r / (s.hd_info (MINOR r.dev / 5)).sect.toNat
        % (s.hd_info (MINOR r.dev / 5)).head.toNat
        < (s.hd_info (MINOR r.dev / 5)).head.toNat := Nat.mod_lt _ (by omega)
    omega

theorem reset_hd_in_range (hw : Nat → Nat) (nr : Nat) (s : State) (hd : nr ≤ 1)
    (hh : u32 ((s.hd_info nr).head - 1) ≤ 15) (w : Stop) (s' : State)
    (h : reset_hd hw nr s = Res.stop w s') : w = Stop.panic Panic.not_ready := by
  unfold reset_hd at h
  dsimp only at h
  have hi : (reset_controller hw s).hd_info = s.hd_info := by
    obtain ⟨evs, -, e⟩ := polls_reset_controller hw s
    rw [e]
  exact hd_out_in_range hw _ _ _ _ _ _ _ _ hd (by rw [hi]; exact hh) w s' h

theorem do_hd_request_in_range (hw : Nat → Nat) (fuel : Nat) (s : State) (hreg : registry_ok s)
    (w : Stop) (s' : State) (h : do_hd_request hw fuel s = Res.stop w s') :
    w ≠ Stop.panic Panic.bad_sector ∧ w ≠ Stop.divide_error := by
  induction fuel generalizing s with
  | zero =>
    rw [do_hd_request] at h
    cases h
    exact ⟨by decide, by decide⟩
  | succ fuel ih =>
    cases hq : s.queue with
    | nil =>
      rw [do_hd_request_nil hw fuel s hq] at h
      cases h
    | cons r rest =>
      by_cases hv : rejected s r
      · rw [do_hd_request_rejected hw fuel s r rest hq hv] at h
        refine ih (end_request 0 s) (registry_ok_congr hreg ?_ ?_) h
        · simp [end_request, hq]
        · simp [end_request, hq]
      · obtain ⟨-, -, g3, g4, g5, cyl, head, sec, ht, g6⟩ := valid_request_geometry s hreg r hv
        cases hr : s.reset with
        | true =>
          rw [do_hd_request_reset hw fuel s r rest _ hq hv ht hr] at h
          have := reset_hd_in_range hw (CURRENT_DEV r) { s with reset := false, recalibrate := true }
            g4 g5 w s' h
          rw [this]
          exact ⟨by decide, by decide⟩
        | false =>
          cases hc : s.recalibrate with
          | true =>
            rw [do_hd_request_recal hw fuel s r rest _ hq hv ht hr hc] at h
            have := hd_out_in_range hw _ _ _ _ _ _ _ _ g3 (by omega) w s' h
            rw [this]
            exact ⟨by decide, by decide⟩
          | false =>
            by_cases hw1 : r.cmd = WRITE
            · rw [do_hd_request_write hw fuel s r rest cyl head sec hq hv ht hr hc hw1] at h
              have hI := issued_hd_out hw (MINOR r.dev / 5) r.nr_sectors sec head cyl
                WIN_WRITE Handler.write_intr s
              cases hR : hd_out hw (MINOR r.dev / 5) r.nr_sectors sec head cyl
                  WIN_WRITE Handler.write_intr s with
              | stop w1 s1 =>
                rw [hR] at h
                simp only [Res.bind] at h
                cases h
                have := hd_out_in_range hw _ _ _ _ _ _ _ _ g3 g6 w s' hR
                rw [this]
                exact ⟨by decide, by decide⟩
              | ret s1 =>
                rw [hR] at h hI
                obtain ⟨e1, -, -, -, hs1⟩ := hI.polls (polls_drq_poll hw 3000 s1)
                simp only [Res.bind] at h
                split at h
                · have hB := bumped_bad_rw_intr (drq_poll hw 3000 s1).2
                  cases hb : bad_rw_intr (drq_poll hw 3000 s1).2 with
                  | stop w2 s2 =>
                    rw [hb] at h
                    cases h
                    rw [bad_rw_intr_stop _ _ _ hb]
                    exact ⟨by decide, by decide⟩
                  | ret s2 =>
                    rw [hb] at h hB
                    have n1 : (drq_poll hw 3000 s1).2.NR_HD = s.NR_HD := by rw [hs1]
                    have n2 : (drq_poll hw 3000 s1).2.hd_info = s.hd_info := by rw [hs1]
                    have m1 : s2.NR_HD = (drq_poll hw 3000 s1).2.NR_HD := hB.1
                    have m2 : s2.hd_info = (drq_poll hw 3000 s1).2.hd_info := hB.2.1
                    exact ih s2 (registry_ok_congr hreg (m1.trans n1) (m2.trans n2)) h
                · cases h
            · by_cases hr1 : r.cmd = READ
              · rw [do_hd_request_read hw fuel s r rest cyl head sec hq hv ht hr hc hr1] at h
                have := hd_out_in_range hw _ _ _ _ _ _ _ _ g3 g6 w s' h
                rw [this]
                exact ⟨by decide, by decide⟩
              · rw [do_hd_request_unknown hw fuel s r rest _ hq hv ht hr hc hw1 hr1] at h
                cases h
                exact ⟨by decide, by decide⟩

/-- C20 (geometry check unreachable for valid requests).  In a registry with
`NR_HD ≤ 2` whose present drives have between 1 and 16 heads and at least one
sector per track, for every current request that passes the validation of the
dispatcher both divisors of the translation are non-zero, the drive index is at
most 1, the head `heads - 1` that `reset_hd` passes with WIN_SPECIFY and the
translated head of WIN_READ and WIN_WRITE are at most 15 (WIN_RESTORE passes
head 0); and no invocation of `do_hd_request`, whatever the queue and the
controller responses, stops in the bad-sector panic of `hd_out` or in a divide
error. -/
theorem geometry_check_unreachable (hw : Nat → Nat) (fuel : Nat) (s : State)
    (hreg : registry_ok s) :
    (∀ r rest, s.queue = r :: rest → ¬ rejected s r →
      u32 (s.hd_info (MINOR r.dev / 5)).sect ≠ 0 ∧ u32 (s.hd_info (MINOR r.dev / 5)).head ≠ 0 ∧
      MINOR r.dev / 5 ≤ 1 ∧ CURRENT_DEV r ≤ 1 ∧
      u32 ((s.hd_info (CURRENT_DEV r)).head - 1) ≤ 15 ∧
      ∃ cyl head sec,
        translate (s.hd_info (MINOR r.dev / 5)) (abs_sector s r) = some (cyl, head, sec) ∧
        head ≤ 15) ∧
    (∀ w s', do_hd_request hw fuel s = Res.stop w s' →
      w ≠ Stop.panic Panic.bad_sector ∧ w ≠ Stop.divide_error) ∧
    (∀ drive nsect sect head cyl cmd intr p w s', drive ≤ 1 → head ≤ 15 →
      hd_out hw drive nsect sect head cyl cmd intr p = Res.stop w s' →
      w = Stop.panic Panic.not_ready) :=
  ⟨fun r _ _ hv => valid_request_geometry s hreg r hv,
   fun w s' h => do_hd_request_in_range hw fuel s hreg w s' h,
   fun drive nsect sect head cyl cmd intr p w s' hd hh h =>
     hd_out_in_range hw drive nsect sect head cyl cmd intr p hd hh w s' h⟩

/-- Witness of C20: the machine of scenario A with its READ request. -/
theorem geometry_check_unreachable_witness :
    registry_ok (machine_A false false [request_A]) ∧
    ∃ cyl head sec,
      translate ((machine_A false false [request_A]).hd_info (MINOR request_A.dev / 5))
        (abs_sector (machine_A false false [request_A]) request_A) = some (cyl, head, sec) ∧
      head ≤ 15 :=
  ⟨by decide,
   ((geometry_check_unreachable hw_good 1 (machine_A false false [request_A])
      (by decide)).1 request_A [] rfl (by decide)).2.2.2.2.2⟩

/-! ## Termination of the dispatch loop -/

theorem need_pos (q : List request) : 1 ≤ need q := by
  cases q with
  | nil => exact le_refl _
  | cons r rest => unfold need; omega

theorem budget_bumped (r : request) (h : i32 (r.errors + 1) < MAX_ERRORS) :
    budget { r with errors := i32 (r.errors + 1) } + 1 = budget r := by
  unfold budget MAX_ERRORS at *
  have e : i32 (i32 (r.errors + 1) + 1) = i32 (r.errors + 1) + 1 := by
    have : -2147483648 ≤ i32 (r.errors + 1) := by unfold i32; omega
    exact i32_of_range _ (by omega) (by omega)
  simp only [e]
  omega

theorem bad_rw_intr_ret (p : State) (r : request) (rest : List request) (s2 : State)
    (hq : p.queue = r :: rest) (h : bad_rw_intr p = Res.ret s2) :
    (s2.queue = rest ∧ MAX_ERRORS ≤ i32 (r.errors + 1)) ∨
    (s2.queue = { r with errors := i32 (r.errors + 1) } :: rest ∧
      i32 (r.errors + 1) < MAX_ERRORS) := by
  have hB := bumped_bad_rw_intr p
  rw [h] at hB
  obtain ⟨-, -, -, -, -, -, -, b8, -, b11⟩ := hB
  by_cases hlt : i32 (r.errors + 1) < MAX_ERRORS
  · right
    rw [bad_rw_intr_stay p r rest hq hlt] at h
    cases h
    exact ⟨rfl, hlt⟩
  · left
    refine ⟨?_, not_lt.mp hlt⟩
    unfold bad_rw_intr at h
    simp only [hq] at h
    rw [if_pos (not_lt.mp hlt)] at h
    simp only [end_request] at h
    cases rest with
    | nil => cases h
    | cons c rest2 =>
      simp only at h
      split at h <;> cases h <;> rfl

theorem do_hd_request_restart (hw : Nat → Nat) (fuel : Nat) (s : State) :
    do_hd_request hw (fuel + 1) s
      = match restart hw s with
        | some s2 => do_hd_request hw fuel s2
        | none => do_hd_request hw 1 s := by
  cases hq : s.queue with
  | nil =>
    have e : restart hw s = none := by simp [restart, hq]
    rw [e, do_hd_request_nil hw fuel s hq, do_hd_request_nil hw 0 s hq]
  | cons r rest =>
    by_cases hv : rejected s r
    · have e : restart hw s = some (end_request 0 s) := by simp [restart, hq, hv]
      rw [e, do_hd_request_rejected hw fuel s r rest hq hv]
    · cases ht : translate (s.hd_info (MINOR r.dev / 5)) (abs_sector s r) with
      | none =>
        have e : restart hw s = none := by simp [restart, hq, hv, ht]
        rw [e, do_hd_request_divide hw fuel s r rest hq hv ht,
          do_hd_request_divide hw 0 s r rest hq hv ht]
      | some c =>
        obtain ⟨cyl, head, sec⟩ := c
        cases hr : s.reset with
        | true =>
          have e : restart hw s = none := by simp [restart, hq, hv, ht, hr]
          rw [e, do_hd_request_reset hw fuel s r rest _ hq hv ht hr,
            do_hd_request_reset hw 0 s r rest _ hq hv ht hr]
        | false =>
          cases hc : s.recalibrate with
          | true =>
            have e : restart hw s = none := by simp [restart, hq, hv, ht, hr, hc]
            rw [e, do_hd_request_recal hw fuel s r rest _ hq hv ht hr hc,
              do_hd_request_recal hw 0 s r rest _ hq hv ht hr hc]
          | false =>
            by_cases hw1 : r.cmd = WRITE
            · rw [do_hd_request_write hw fuel s r rest cyl head sec hq hv ht hr hc hw1,
                do_hd_request_write hw 0 s r rest cyl head sec hq hv ht hr hc hw1]
              cases hR : hd_out hw (MINOR r.dev / 5) r.nr_sectors sec head cyl
                  WIN_WRITE Handler.write_intr s with
              | stop w1 s1 =>
                have e : restart hw s = none := by simp [restart, hq, hv, ht, hr, hc, hw1, hR]
                rw [e]
                rfl
              | ret s1 =>
                by_cases hz : (drq_poll hw 3000 s1).1 = 0
                · cases hb : bad_rw_intr (drq_poll hw 3000 s1).2 with
                  | stop w2 s2 =>
                    have e : restart hw s = none := by
                      simp [restart, hq, hv, ht, hr, hc, hw1, hR, hz, hb]
                    rw [e]
                    simp only [Res.bind, if_pos hz, hb]
                  | ret s2 =>
                    have e : restart hw s = some s2 := by
                      simp [restart, hq, hv, ht, hr, hc, hw1, hR, hz, hb]
                    rw [e]
                    simp only [Res.bind, if_pos hz, hb]
                · have e : restart hw s = none := by
                    simp [restart, hq, hv, ht, hr, hc, hw1, hR, hz]
                  rw [e]
                  simp only [Res.bind, if_neg hz]
            · have e : restart hw s = none := by
                simp [restart, hq, hv, ht, hr, hc, hw1]
              by_cases hr1 : r.cmd = READ
              · rw [e, do_hd_request_read hw fuel s r rest cyl head sec hq hv ht hr hc hr1,
                  do_hd_request_read hw 0 s r rest cyl head sec hq hv ht hr hc hr1]
              · rw [e, do_hd_request_unknown hw fuel s r rest _ hq hv ht hr hc hw1 hr1,
                  do_hd_request_unknown hw 0 s r rest _ hq hv ht hr hc hw1 hr1]

theorem restart_some (hw : Nat → Nat) (s s2 : State) (h : restart hw s = some s2) :
    ∃ r rest, s.queue = r :: rest ∧
      ((s2.queue = rest ∧ (rejected s r ∨ MAX_ERRORS ≤ i32 (r.errors + 1))) ∨
       (s2.queue = { r with errors := i32 (r.errors + 1) } :: rest ∧
         i32 (r.errors + 1) < MAX_ERRORS)) := by
  cases hq : s.queue with
  | nil => simp [restart, hq] at h
  | cons r rest =>
    refine ⟨r, rest, rfl, ?_⟩
    by_cases hv : rejected s r
    · simp only [restart, hq, if_pos hv] at h
      cases h
      left
      exact ⟨by simp [end_request, hq], Or.inl hv⟩
    · cases ht : translate (s.hd_info (MINOR r.dev / 5)) (abs_sector s r) with
      | none => simp [restart, hq, hv, ht] at h
      | some c =>
        obtain ⟨cyl, head, sec⟩ := c
        cases hr : s.reset with
        | true => simp [restart, hq, hv, ht, hr] at h
        | false =>
          cases hc : s.recalibrate with
          | true => simp [restart, hq, hv, ht, hr, hc] at h
          | false =>
            by_cases hw1 : r.cmd = WRITE
            · have hI := issued_hd_out hw (MINOR r.dev / 5) r.nr_sectors sec head cyl
                WIN_WRITE Handler.write_intr s
              cases hR : hd_out hw (MINOR r.dev / 5) r.nr_sectors sec head cyl
                  WIN_WRITE Handler.write_intr s with
              | stop w1 s1 => simp [restart, hq, hv, ht, hr, hc, hw1, hR] at h
              | ret s1 =>
                rw [hR] at hI
                obtain ⟨e1, -, -, -, hs1⟩ := hI.polls (polls_drq_poll hw 3000 s1)
                have hpq : (drq_poll hw 3000 s1).2.queue = r :: rest := by rw [hs1, hq]
                by_cases hz : (drq_poll hw 3000 s1).1 = 0
                · cases hb : bad_rw_intr (drq_poll hw 3000 s1).2 with
                  | stop w2 s3 => simp [restart, hq, hv, ht, hr, hc, hw1, hR, hz, hb] at h
                  | ret s3 =>
                    simp [restart, hq, hv, ht, hr, hc, hw1, hR, hz, hb] at h
                    subst h
                    rcases bad_rw_intr_ret _ r rest _ hpq hb with ⟨a, b⟩ | ⟨a, b⟩
                    · exact Or.inl ⟨a, Or.inr b⟩
                    · exact Or.inr ⟨a, b⟩
                · simp [restart, hq, hv, ht, hr, hc, hw1, hR, hz] at h
            · simp [restart, hq, hv, ht, hr, hc, hw1] at h

theorem need_restart (hw : Nat → Nat) (s s2 : State) (h : restart hw s = some s2) :
    need s2.queue < need s.queue := by
  obtain ⟨r, rest, hq, ⟨a, -⟩ | ⟨a, b⟩⟩ := restart_some hw s s2 h
  · rw [hq, a]
    show need rest < budget r + 1 + need rest
    omega
  · rw [hq, a]
    show budget _ + 1 + need rest < budget r + 1 + need rest
    have := budget_bumped r b
    omega

theorem hd_out_not_fuel (hw : Nat → Nat) (drive nsect sect head cyl cmd : Nat) (intr : Handler)
    (s s' : State) : hd_out hw drive nsect sect head cyl cmd intr s ≠ Res.stop Stop.fuel s' := by
  intro h
  rcases hd_out_cases hw drive nsect sect head cyl cmd intr s with e | ⟨p, -, -, -, e | e⟩ <;>
    · rw [e] at h
      cases h

theorem pass_not_fuel (hw : Nat → Nat) (s : State) (hn : restart hw s = none) (s' : State) :
    do_hd_request hw 1 s ≠ Res.stop Stop.fuel s' := by
  intro h
  cases hq : s.queue with
  | nil =>
    rw [do_hd_request_nil hw 0 s hq] at h
    cases h
  | cons r rest =>
    by_cases hv : rejected s r
    · simp [restart, hq, hv] at hn
    · cases ht : translate (s.hd_info (MINOR r.dev / 5)) (abs_sector s r) with
      | none =>
        rw [do_hd_request_divide hw 0 s r rest hq hv ht] at h
        cases h
      | some c =>
        obtain ⟨cyl, head, sec⟩ := c
        cases hr : s.reset with
        | true =>
          rw [do_hd_request_reset hw 0 s r rest _ hq hv ht hr] at h
          unfold reset_hd at h
          exact hd_out_not_fuel hw _ _ _ _ _ _ _ _ _ h
        | false =>
          cases hc : s.recalibrate with
          | true =>
            rw [do_hd_request_recal hw 0 s r rest _ hq hv ht hr hc] at h
            exact hd_out_not_fuel hw _ _ _ _ _ _ _ _ _ h
          | false =>
            by_cases hw1 : r.cmd = WRITE
            · rw [do_hd_request_write hw 0 s r rest cyl head sec hq hv ht hr hc hw1] at h
              cases hR : hd_out hw (MINOR r.dev / 5) r.nr_sectors sec head cyl
                  WIN_WRITE Handler.write_intr s with
              | stop w1 s1 =>
                rw [hR] at h
                simp only [Res.bind] at h
                rw [h] at hR
                exact hd_out_not_fuel hw _ _ _ _ _ _ _ _ _ hR
              | ret s1 =>
                rw [hR] at h
                simp only [Res.bind] at h
                by_cases hz : (drq_poll hw 3000 s1).1 = 0
                · rw [if_pos hz] at h
                  cases hb : bad_rw_intr (drq_poll hw 3000 s1).2 with
                  | stop w2 s2 =>
                    rw [hb] at h
                    cases h
                    have := bad_rw_intr_stop _ _ _ hb
                    cases this
                  | ret s2 =>
                    simp [restart, hq, hv, ht, hr, hc, hw1, hR, hz, hb] at hn
                · rw [if_neg hz] at h
                  cases h
            · by_cases hr1 : r.cmd = READ
              · rw [do_hd_request_read hw 0 s r rest cyl head sec hq hv ht hr hc hr1] at h
                exact hd_out_not_fuel hw _ _ _ _ _ _ _ _ _ h
              · rw [do_hd_request_unknown hw 0 s r rest _ hq hv ht hr hc hw1 hr1] at h
                cases h

theorem do_hd_request_enough (hw : Nat → Nat) (n : Nat) (s : State) (hn : need s.queue ≤ n)
    (fuel : Nat) (hf : n ≤ fuel) :
    do_hd_request hw fuel s = do_hd_request hw n s ∧
    ∀ s', do_hd_request hw n s ≠ Res.stop Stop.fuel s' := by
  induction n generalizing s fuel with
  | zero =>
    have := need_pos s.queue
    omega
  | succ n ih =>
    obtain ⟨k, rfl⟩ : ∃ k, fuel = k + 1 := ⟨fuel - 1, by omega⟩
    rw [do_hd_request_restart hw k s, do_hd_request_restart hw n s]
    cases hr : restart hw s with
    | some s2 =>
      have hlt := need_restart hw s s2 hr
      exact ih s2 (by omega) k (by omega)
    | none =>
      exact ⟨rfl, fun s' => pass_not_fuel hw s hr s'⟩

/-- C19 (dispatch loop termination), refuted as stated.  With a ready
controller and a queue holding one request whose operation is neither READ nor
WRITE, an invocation of `do_hd_request` does not return: it halts in the
unknown-command panic, without any call of `hd_out` (no port is touched). -/
theorem dispatch_halts_on_unknown_command :
    do_hd_request hw_good 10 (machine_A false false [request_other])
      = Res.stop (Stop.panic Panic.unknown_command) (machine_A false false [request_other]) ∧
    (machine_A false false [request_other]).trace = [] :=
  ⟨rfl, rfl⟩

/-- C19 as amended.  For every state (queue, registry) and every sequence of
controller responses, an invocation of `do_hd_request` ends after at most
`need queue` passes of its loop: with that many passes or more allowed the
outcome is the same and it is a return or a halt of the driver, never a pass
cut short.  A pass either ends the invocation or restarts the loop in a state
of smaller `need`, which has lost the head request (validation failure, or
error counter at `MAX_ERRORS`) or has the head request with its error counter
raised by one and still below `MAX_ERRORS`. -/
theorem dispatch_loop_terminates (hw : Nat → Nat) (s : State) :
    (∀ fuel, need s.queue ≤ fuel →
      do_hd_request hw fuel s = do_hd_request hw (need s.queue) s) ∧
    (∀ s', do_hd_request hw (need s.queue) s ≠ Res.stop Stop.fuel s') ∧
    (∀ fuel, do_hd_request hw (fuel + 1) s
      = match restart hw s with
        | some s2 => do_hd_request hw fuel s2
        | none => do_hd_request hw 1 s) ∧
    (∀ s2, restart hw s = some s2 →
      need s2.queue < need s.queue ∧
      ∃ r rest, s.queue = r :: rest ∧
        ((s2.queue = rest ∧ (rejected s r ∨ MAX_ERRORS ≤ i32 (r.errors + 1))) ∨
         (s2.queue = { r with errors := i32 (r.errors + 1) } :: rest ∧
           i32 (r.errors + 1) < MAX_ERRORS ∧
           (-2147483648 ≤ r.errors → r.errors < 2147483647 →
             i32 (r.errors + 1) = r.errors + 1)))) :=
  ⟨fun fuel hf => (do_hd_request_enough hw (need s.queue) s (le_refl _) fuel hf).1,
   (do_hd_request_enough hw (need s.queue) s (le_refl _) (need s.queue) (le_refl _)).2,
   fun fuel => do_hd_request_restart hw fuel s,
   fun s2 h => ⟨need_restart hw s s2 h, by
     obtain ⟨r, rest, hq, a | ⟨a, b⟩⟩ := restart_some hw s s2 h
     · exact ⟨r, rest, hq, Or.inl a⟩
     · exact ⟨r, rest, hq, Or.inr ⟨a, b, fun h1 h2 => i32_of_range _ (by omega) (by omega)⟩⟩⟩⟩

end HD
